import Mathlib

/-!
# The uricontent keyword of `detect-uricontent.c` and the filters of `util-debug-filters.c`

A shallow embedding of `DoDetectUricontentSetup`, `DetectUricontentSetup`,
`DetectUricontentGetLastPattern`, `DoDetectAppLayerUricontentMatch` and
`DetectUricontentInspectMpm` of `detect-uricontent.c`, and of `SCLogAddFGFilter`,
`SCLogMatchFGFilter`, their whitelist and blacklist entry points, `SCLogPrintFGFilters`,
`SCLogAddFDFilter`, `SCLogRemoveFDFilter` and `SCLogPrintFDFilters` of
`util-debug-filters.c`.

A C string is the list of its bytes before the terminating NUL; a byte is a
natural number.  The `uint16_t` variables of the source (`len`, `pos`, `slen`,
`i`, `x`, `bin_count`) are natural numbers reduced modulo `65536` at every
assignment that can leave the 16-bit range.
-/

namespace Uricontent

/-! ## C library functions used by the parser -/

/-- Length of a C string. -/
def strlen (s : List Nat) : Nat := s.length

/-- The read `s[i]` of a NUL-terminated string: the index `strlen s` holds the terminator. -/
def charAt (s : List Nat) (i : Nat) : Nat := s.getD i 0

/-- The `isspace` of the C locale: space, `\t`, `\n`, `\v`, `\f`, `\r`. -/
def isspace (c : Nat) : Bool := c == 32 || (9 ≤ c && c ≤ 13)

/-- The `isdigit` of the C library: `'0'` to `'9'`. -/
def isdigit (c : Nat) : Bool := 48 ≤ c && c ≤ 57

/-- The test of lines 266-272: `isdigit(c)` or one of `A`-`F`, `a`-`f`. -/
def isHexChar (c : Nat) : Bool :=
  isdigit c ||
  c == 65 || c == 97 || c == 66 || c == 98 || c == 67 || c == 99 ||
  c == 68 || c == 100 || c == 69 || c == 101 || c == 70 || c == 102

/-- Value of one hexadecimal digit as `strtol` reads it in base 16. -/
def hexVal (c : Nat) : Nat :=
  if 48 ≤ c ∧ c ≤ 57 then c - 48
  else if 97 ≤ c ∧ c ≤ 102 then c - 87
  else if 65 ≤ c ∧ c ≤ 70 then c - 55
  else 0

/-- The byte `strtol((char *) binstr, NULL, 16) & 0xFF` for the two digits held in `binstr`. -/
def strtol16 (b0 b1 : Nat) : Nat := (16 * hexVal b0 + hexVal b1) % 256

/-! ## Data model -/

/-- The fields of `DetectContentData` the parser writes. -/
structure DetectContentData where
  content : List Nat
  content_len : Nat
  flags : Nat
  depth : Nat
  offset : Nat
  within : Int
  distance : Int
  id : Nat
deriving DecidableEq

/-- The local variables of the decoding block (lines 247-328), with the buffer `str`
that the loop rewrites in place. -/
structure DecodeState where
  str : List Nat
  x : Nat
  escape : Bool
  bin : Bool
  binstr0 : Nat
  binstr1 : Nat
  binpos : Nat
  bin_count : Nat
  converted : Bool
deriving DecidableEq

/-! ## The parser -/

/-- The loop `while (pos < slen && isspace(temp[pos])) pos++;` of lines 212-214.
The first argument bounds the number of iterations; the parser passes `slen`, which is
enough (`skipSpaces_stop`).  Inside the loop `pos < slen <= 65535`, so `pos++` stays in
the 16-bit range. -/
def skipSpaces (temp : List Nat) (slen : Nat) : Nat → Nat → Nat
  | 0, pos => pos
  | fuel + 1, pos =>
    if pos < slen && isspace (charAt temp pos) then skipSpaces temp slen fuel (pos + 1)
    else pos

/-- One iteration of the loop of lines 253-308 at index `i`; `none` is `goto error`. -/
def decodeStep (st : DecodeState) (i : Nat) : Option DecodeState :=
  let c := charAt st.str i
  if c = 124 then                                   -- '|'
    some { st with bin_count := (st.bin_count + 1) % 65536, bin := !st.bin }
  else if st.escape = false ∧ c = 92 then           -- '\\'
    some { st with escape := true }
  else if st.bin then
    if isHexChar c then
      let b0 := if st.binpos = 0 then c else st.binstr0
      let b1 := if st.binpos = 1 then c else st.binstr1
      if st.binpos + 1 = 2 then
        some { st with binstr0 := b0, binstr1 := b1, binpos := 0,
                       str := st.str.set st.x (strtol16 b0 b1),
                       x := (st.x + 1) % 65536, converted := true }
      else
        some { st with binstr0 := b0, binstr1 := b1, binpos := st.binpos + 1 }
    else
      some st                                       -- a space, or any other character
  else if st.escape then
    if c = 58 ∨ c = 59 ∨ c = 92 ∨ c = 34 then       -- ':' ';' '\\' '"'
      some { st with str := st.str.set st.x c, x := (st.x + 1) % 65536,
                     escape := false, converted := true }
    else
      none
  else
    some { st with str := st.str.set st.x c, x := (st.x + 1) % 65536 }

/-- The iterations `i, i+1, ..., i+n-1` of the loop of lines 253-308.  The parser runs
them from `i = 0` for `n = len <= 65535`, so `i++` stays in the 16-bit range. -/
def decodeFrom : DecodeState → Nat → Nat → Option DecodeState
  | st, _, 0 => some st
  | st, i, n + 1 =>
    match decodeStep st i with
    | none => none
    | some st1 => decodeFrom st1 (i + 1) n

/-- The state at the entry of the loop. -/
def decodeInit (str : List Nat) : DecodeState :=
  { str := str, x := 0, escape := false, bin := false, binstr0 := 0, binstr1 := 0,
    binpos := 0, bin_count := 0, converted := false }

/-- Lines 240-350: everything after the body `str` between the quotes has been cut out.
`flags` is the flag word set so far. -/
def decodeBody (flags : Nat) (str : List Nat) : Option DetectContentData :=
  let len := strlen str % 65536
  if len = 0 then none
  else
    match decodeFrom (decodeInit str) 0 len with
    | none => none
    | some st =>
      if st.bin_count % 2 ≠ 0 then none
      else
        let len1 := if st.converted then st.x else len
        some { content := st.str.take len1, content_len := len1, flags := flags,
               depth := 0, offset := 0, within := 0, distance := 0, id := 0 }

/-- Lines 221-350: the quote checks at the position `pos` reached after the whitespace and
the optional `!`, the cut of the body between the quotes, and its decoding. -/
def parseQuoted (flags : Nat) (temp : List Nat) (pos : Nat) : Option DetectContentData :=
  if charAt temp pos = 34 ∧ strlen (temp.drop pos) = 1 then none
  else if charAt temp pos = 34 ∧ charAt temp (pos + strlen (temp.drop pos) - 1) = 34 then
    decodeBody flags ((temp.drop (pos + 1)).take (strlen temp - pos - 2))
  else none

/-- The function `DoDetectUricontentSetup` (lines 188-356); `none` is the `NULL` result.
`NEGATED` is the value of the macro `DETECT_CONTENT_NEGATED`, declared outside this file.
Allocation (`SCStrdup`, `SCMalloc`) is taken to succeed. -/
def DoDetectUricontentSetup (NEGATED : Nat) (contentstr : List Nat) : Option DetectContentData :=
  let temp := contentstr
  if strlen temp = 0 then none
  else
    let slen := strlen temp % 65536
    let pos := skipSpaces temp slen slen 0
    if charAt temp pos = 33 then                     -- '!'
      parseQuoted (0 ||| NEGATED) temp ((pos + 1) % 65536)
    else
      parseQuoted 0 temp pos

/-- The bytes of a string literal. -/
def bytes (s : String) : List Nat := s.toList.map Char.toNat

/-- The inputs of the rule-clause grammar: leading whitespace `ws`, an optional `!`,
and the body between a pair of double quotes. -/
def quoted (ws : List Nat) (neg : Bool) (body : List Nat) : List Nat :=
  ws ++ ((if neg then [33] else []) ++ (34 :: (body ++ [34])))

/-- What is left of an input once the leading whitespace and one optional `!` are dropped. -/
def remainder (s : List Nat) : List Nat :=
  match s.dropWhile isspace with
  | 33 :: t => t
  | r => r

/-! ## The reference decoding

The decoding of a body in the words of the specification, to be compared with the parser.
It is defined on the bodies the grammar describes and is `none` on every other body. -/

/-- Reference decoding of a body, from the specification: outside a hex group a `|` opens
a group, a backslash followed by one of `:`, `;`, `\`, `"` gives that character, and every
other character is copied; inside a hex group a `|` closes the group, a space gives
nothing, and two hex digits in a row give one byte.  The second argument tells whether
the text starts inside a hex group.  The result is `none` when a group is left open, when
a backslash is followed by anything else or by nothing, and when a group holds anything
but spaces and complete pairs of hex digits. -/
def refDecode : List Nat → Bool → Option (List Nat)
  | [], inHex => if inHex then none else some []
  | c :: r, inHex =>
    if c = 124 then refDecode r (!inHex)
    else if inHex then
      if c = 32 then refDecode r true
      else
        match r with
        | [] => none
        | d :: r2 =>
          if isHexChar c ∧ isHexChar d then
            (refDecode r2 true).map (fun t => (16 * hexVal c + hexVal d) :: t)
          else none
    else if c = 92 then
      match r with
      | [] => none
      | e :: r2 =>
        if e = 58 ∨ e = 59 ∨ e = 92 ∨ e = 34 then (refDecode r2 false).map (fun t => e :: t)
        else none
    else (refDecode r false).map (fun t => c :: t)

/-- Whether a body holds a hex digit inside a hex group or a backslash outside one; on the
bodies of the grammar, whether it holds at least one hex pair or one escape. -/
def refConverts : List Nat → Bool → Bool
  | [], _ => false
  | c :: r, inHex =>
    if c = 124 then refConverts r (!inHex)
    else if inHex then isHexChar c || refConverts r true
    else if c = 92 then true
    else refConverts r false

/-- The text of a sequence of pairs of hex digits, as written inside one `|...|` group. -/
def pairText : List (Nat × Nat) → List Nat
  | [] => []
  | p :: ps => p.1 :: p.2 :: pairText ps

/-- The bytes a sequence of pairs of hex digits stands for: sixteen times the value of the
first digit plus the value of the second. -/
def pairBytes (ps : List (Nat × Nat)) : List Nat :=
  ps.map (fun p => 16 * hexVal p.1 + hexVal p.2)

/-! ## The signature and `DetectUricontentSetup` -/

/-- The values of `s->alproto` the keyword setup distinguishes; the enumeration is
declared outside this file. -/
inductive AppProto where
  | ALPROTO_UNKNOWN
  | ALPROTO_HTTP
  | ALPROTO_DCERPC
  | other (tag : Nat)
deriving DecidableEq

/-- The keyword types of the `SigMatch` nodes; the enumeration is declared outside this file. -/
inductive SigMatchType where
  | DETECT_URICONTENT
  | DETECT_CONTENT
  | other (tag : Nat)
deriving DecidableEq

/-- A `SigMatch` node: its keyword type and its context pointer (`none` is `NULL`). -/
structure SigMatch where
  type : SigMatchType
  ctx : Option DetectContentData
deriving DecidableEq

/-- The fields of `Signature` the keyword setup reads or writes: the protocol binding,
the flag word, and the three match lists, each in list order (head first, tail last). -/
structure Signature where
  alproto : AppProto
  flags : Nat
  umatch : List SigMatch
  pmatch : List SigMatch
  amatch : List SigMatch
deriving DecidableEq

/-- Modelled from the spec: `SigMatchAppendUricontent` is defined outside this file; the spec
says a uricontent descriptor is appended to the uri chain of the signature, in append
order, and to no other chain. -/
def SigMatchAppendUricontent (s : Signature) (sm : SigMatch) : Signature :=
  { s with umatch := s.umatch ++ [sm] }

/-- The function `DetectUricontentSetup` (lines 369-415).  The result is the return value, the pattern-id
store and the signature after the call.  `getId` stands for `DetectUricontentGetId` on the
store `de_ctx->mpm_pattern_id_store`, `NEGATED` and `APPLAYER` for the macros
`DETECT_CONTENT_NEGATED` and `SIG_FLAG_APPLAYER`, all declared outside this file.
`SigMatchAlloc` is taken to succeed. -/
def DetectUricontentSetup {σ : Type} (getId : σ → DetectContentData → Nat × σ)
    (NEGATED APPLAYER : Nat) (de_ctx : σ) (s : Signature) (contentstr : List Nat) :
    Int × σ × Signature :=
  if s.alproto = AppProto.ALPROTO_DCERPC then (-1, de_ctx, s)
  else
    match DoDetectUricontentSetup NEGATED contentstr with
    | none => (-1, de_ctx, s)
    | some cd =>
      let r := getId de_ctx cd
      let sm : SigMatch := { type := SigMatchType.DETECT_URICONTENT, ctx := some { cd with id := r.1 } }
      let s1 := { s with flags := s.flags ||| APPLAYER }
      if s.alproto ≠ AppProto.ALPROTO_UNKNOWN ∧ s.alproto ≠ AppProto.ALPROTO_HTTP then
        (-1, r.2, s1)
      else
        (0, r.2, SigMatchAppendUricontent { s1 with alproto := AppProto.ALPROTO_HTTP } sm)

/-! ## The decoding loop as a scan of the body

The loop reads `str[i]` and writes `str[x]` with `x ≤ i`, so it never reads a byte it has
written.  `scan` is the same loop as a function of the characters read, keeping the bytes
written so far in `out`; `decodeFrom_scan` below proves that the loop on the buffer
computes it. -/

/-- The loop variables, with the bytes written so far in place of the buffer and `x`. -/
structure ScanState where
  out : List Nat
  escape : Bool
  bin : Bool
  binstr0 : Nat
  binstr1 : Nat
  binpos : Nat
  bin_count : Nat
  converted : Bool
deriving DecidableEq

/-- One iteration of the loop on the character `c` read at `str[i]`. -/
def scanStep (a : ScanState) (c : Nat) : Option ScanState :=
  if c = 124 then
    some { a with bin_count := a.bin_count + 1, bin := !a.bin }
  else if a.escape = false ∧ c = 92 then
    some { a with escape := true }
  else if a.bin then
    if isHexChar c then
      let b0 := if a.binpos = 0 then c else a.binstr0
      let b1 := if a.binpos = 1 then c else a.binstr1
      if a.binpos + 1 = 2 then
        some { a with binstr0 := b0, binstr1 := b1, binpos := 0,
                      out := a.out ++ [strtol16 b0 b1], converted := true }
      else
        some { a with binstr0 := b0, binstr1 := b1, binpos := a.binpos + 1 }
    else
      some a
  else if a.escape then
    if c = 58 ∨ c = 59 ∨ c = 92 ∨ c = 34 then
      some { a with out := a.out ++ [c], escape := false, converted := true }
    else
      none
  else
    some { a with out := a.out ++ [c] }

/-- The loop over the characters `cs`. -/
def scan : ScanState → List Nat → Option ScanState
  | a, [] => some a
  | a, c :: cs =>
    match scanStep a c with
    | none => none
    | some a1 => scan a1 cs

/-- The scan state at the entry of the loop. -/
def scanInit : ScanState :=
  { out := [], escape := false, bin := false, binstr0 := 0, binstr1 := 0,
    binpos := 0, bin_count := 0, converted := false }

/-- The loop state on the buffer that a scan state stands for: the bytes written so far,
followed by the bytes of `body` not yet overwritten. -/
def ScanState.toDecode (body : List Nat) (a : ScanState) : DecodeState :=
  { str := a.out ++ body.drop a.out.length, x := a.out.length, escape := a.escape,
    bin := a.bin, binstr0 := a.binstr0, binstr1 := a.binstr1, binpos := a.binpos,
    bin_count := a.bin_count, converted := a.converted }

/-- Lines 310-350 on the final scan state: the parity check and the copy of `len` bytes. -/
def scanFinish (flags : Nat) (body : List Nat) (len : Nat) (a : ScanState) :
    Option DetectContentData :=
  if a.bin_count % 2 ≠ 0 then none
  else if a.converted then
    some { content := a.out, content_len := a.out.length, flags := flags,
           depth := 0, offset := 0, within := 0, distance := 0, id := 0 }
  else
    some { content := a.out ++ (body.drop a.out.length).take (len - a.out.length),
           content_len := len, flags := flags,
           depth := 0, offset := 0, within := 0, distance := 0, id := 0 }

/-! ## Reference functions for the escape and hex-group claims -/

/-- The body with each escape pair replaced by its second character, from the
specification: a backslash followed by one of `:`, `;`, `\`, `"` gives that character, every
other character is copied, and the result is `none` when a backslash is followed by
anything else or by nothing. -/
def unescape : List Nat → Option (List Nat)
  | [] => some []
  | c :: r =>
    if c = 92 then
      match r with
      | [] => none
      | e :: r2 =>
        if e = 58 ∨ e = 59 ∨ e = 92 ∨ e = 34 then (unescape r2).map (fun t => e :: t)
        else none
    else (unescape r).map (fun t => c :: t)

/-- The text of a sequence of pairs of hex digits in which each pair is followed by a
number of space characters: the item `((d1, d2), k)` is the pair `d1 d2` and `k` spaces. -/
def spacedText : List ((Nat × Nat) × Nat) → List Nat
  | [] => []
  | it :: r => it.1.1 :: it.1.2 :: (List.replicate it.2 32 ++ spacedText r)

/-! ## `DetectUricontentGetLastPattern`

A pointer to a `SigMatch` node is the list of the nodes reachable from it through the
`prev` links, the node itself first; `NULL` is the empty list. -/

/-- The loop `while (sm != NULL && sm->type != DETECT_URICONTENT) sm = sm->prev;` of
lines 170-171. -/
def skipToUricontent : List SigMatch → List SigMatch
  | [] => []
  | sm :: prev =>
    if sm.type ≠ SigMatchType.DETECT_URICONTENT then skipToUricontent prev
    else sm :: prev

/-- The function `DetectUricontentGetLastPattern` (lines 166-181). -/
def DetectUricontentGetLastPattern (sm : List SigMatch) : List SigMatch :=
  match sm with
  | [] => []
  | _ :: _ =>
    match skipToUricontent sm with
    | [] => []
    | found :: prev =>
      match found.ctx with
      | none => []
      | some _ => found :: prev

/-! ## The runtime search: `DoDetectAppLayerUricontentMatch` and `DetectUricontentInspectMpm` -/

/-- A `uint32_t` value converted to `int`. -/
def toInt32 (n : Nat) : Int :=
  if n % 4294967296 < 2147483648 then ((n % 4294967296 : Nat) : Int)
  else ((n % 4294967296 : Nat) : Int) - 4294967296

/-- The statement `cnt += ret` for the `uint32_t cnt` and the `int ret`. -/
def addU32 (cnt : Nat) (ret : Int) : Nat := (((cnt : Int) + ret) % 4294967296).toNat

/-- The fields of `DetectEngineThreadCtx` the search reads or writes: the value of
`det_ctx->sgh->mpm_uricontent_maxlen`, the search counters (their integer type is declared
outside this file; they are counted as natural numbers), and the working state `mpm` of
the multi-pattern search engine. -/
structure DetectEngineThreadCtx (σ : Type) where
  mpm_uricontent_maxlen : Nat
  uris : Nat
  pkts_uri_searched1 : Nat
  pkts_uri_searched2 : Nat
  pkts_uri_searched3 : Nat
  pkts_uri_searched4 : Nat
  pkts_uri_searched : Nat
  mpm : σ

/-- The function `DoDetectAppLayerUricontentMatch` (lines 429-455); the result is the
return value and the thread context after the call.  `search` stands for
`UriPatternSearch`, defined outside this file: it is given the thread context, the bytes
of the uri and `uri_len`, and returns its `uint32_t` result and the thread context it
leaves. -/
def DoDetectAppLayerUricontentMatch {σ : Type}
    (search : DetectEngineThreadCtx σ → List Nat → Nat → Nat × DetectEngineThreadCtx σ)
    (det_ctx : DetectEngineThreadCtx σ) (uri : List Nat) (uri_len : Nat) :
    Int × DetectEngineThreadCtx σ :=
  if det_ctx.mpm_uricontent_maxlen > uri_len then (0, det_ctx)
  else
    let d1 := { det_ctx with uris := det_ctx.uris + 1 }
    let d2 :=
      if d1.mpm_uricontent_maxlen = 1 then
        { d1 with pkts_uri_searched1 := d1.pkts_uri_searched1 + 1 }
      else if d1.mpm_uricontent_maxlen = 2 then
        { d1 with pkts_uri_searched2 := d1.pkts_uri_searched2 + 1 }
      else if d1.mpm_uricontent_maxlen = 3 then
        { d1 with pkts_uri_searched3 := d1.pkts_uri_searched3 + 1 }
      else if d1.mpm_uricontent_maxlen = 4 then
        { d1 with pkts_uri_searched4 := d1.pkts_uri_searched4 + 1 }
      else { d1 with pkts_uri_searched := d1.pkts_uri_searched + 1 }
    let r := search d2 uri uri_len
    (toInt32 r.1, r.2)

/-- Modelled from the spec: `SCMutexLock` and `SCMutexUnlock` are declared outside this
file; the spec says the flow's lock is acquired for the duration of the call and released
before it returns.  The mutex records whether it is held and how many times it was locked
and unlocked. -/
structure SCMutex where
  held : Bool
  locks : Nat
  unlocks : Nat
deriving DecidableEq

/-- Modelled from the spec: the acquisition of a mutex, see `SCMutex`. -/
def SCMutexLock (m : SCMutex) : SCMutex := { m with held := true, locks := m.locks + 1 }

/-- Modelled from the spec: the release of a mutex, see `SCMutex`. -/
def SCMutexUnlock (m : SCMutex) : SCMutex := { m with held := false, unlocks := m.unlocks + 1 }

/-- The fields of `Flow` the inspection uses: the mutex `m`, and in `inspect_id` the value
that `AppLayerTransactionGetInspectId(f)`, defined outside this file, returns for the
flow: the inspection cursor, or -1. -/
structure Flow where
  m : SCMutex
  inspect_id : Int
deriving DecidableEq

/-- A transaction `htp_tx_t`: its normalized request uri, `none` for `NULL`. -/
structure HtpTx where
  request_uri_normalized : Option (List Nat)
deriving DecidableEq

/-- The state `HtpState`: `connp` is `none` for a `NULL` connection parser, and else the
list `connp->conn->transactions`, whose entries may be `NULL`. -/
structure HtpState where
  connp : Option (List (Option HtpTx))
deriving DecidableEq

/-- The call `list_get(transactions, idx)` with the `int idx`: the entry at the index, and
`NULL` outside the list. -/
def list_get (txs : List (Option HtpTx)) (idx : Int) : Option HtpTx :=
  if idx < 0 then none else (txs.getD idx.toNat none)

/-- The loop `for (; idx < size; idx++)` of lines 500-509.  The first argument bounds the
number of iterations; the caller passes `size - idx`, which is enough.  `bstr_len` is cut
to the `uint16_t uri_len`.  Inside the loop `idx < size`, so `idx++` stays an `int`. -/
def inspectLoop {σ : Type}
    (search : DetectEngineThreadCtx σ → List Nat → Nat → Nat × DetectEngineThreadCtx σ)
    (txs : List (Option HtpTx)) (size : Int) :
    Nat → Int → Nat → DetectEngineThreadCtx σ → Nat × DetectEngineThreadCtx σ
  | 0, _, cnt, det_ctx => (cnt, det_ctx)
  | fuel + 1, idx, cnt, det_ctx =>
    if idx < size then
      match list_get txs idx with
      | none => inspectLoop search txs size fuel (idx + 1) cnt det_ctx
      | some tx =>
        match tx.request_uri_normalized with
        | none => inspectLoop search txs size fuel (idx + 1) cnt det_ctx
        | some uri =>
          let r := DoDetectAppLayerUricontentMatch search det_ctx uri (uri.length % 65536)
          inspectLoop search txs size fuel (idx + 1) (addU32 cnt r.1) r.2
    else (cnt, det_ctx)

/-- What `DetectUricontentInspectMpm` leaves: the returned count, the thread context and
the flow. -/
structure InspectResult (σ : Type) where
  cnt : Nat
  det_ctx : DetectEngineThreadCtx σ
  flow : Flow

/-- The function `DetectUricontentInspectMpm` (lines 470-517), in the build without
`__tile__`. -/
def DetectUricontentInspectMpm {σ : Type}
    (search : DetectEngineThreadCtx σ → List Nat → Nat → Nat × DetectEngineThreadCtx σ)
    (det_ctx : DetectEngineThreadCtx σ) (f : Flow) (htp_state : Option HtpState) :
    InspectResult σ :=
  let f1 := { f with m := SCMutexLock f.m }
  match htp_state.bind (fun h => h.connp) with
  | none => { cnt := 0, det_ctx := det_ctx, flow := { f1 with m := SCMutexUnlock f1.m } }
  | some txs =>
    let idx := f1.inspect_id
    if idx = -1 then
      { cnt := 0, det_ctx := det_ctx, flow := { f1 with m := SCMutexUnlock f1.m } }
    else
      let size := toInt32 txs.length
      let r := inspectLoop search txs size (size - idx).toNat idx 0 det_ctx
      { cnt := r.1, det_ctx := r.2, flow := { f1 with m := SCMutexUnlock f1.m } }

/-- The normalized uris of the transactions from the index `idx` on, in order: the
transactions that exist and have a normalized request uri. -/
def urisFrom (txs : List (Option HtpTx)) (idx : Nat) : List (List Nat) :=
  (txs.drop idx).filterMap (fun t => t.bind (fun tx => tx.request_uri_normalized))

/-- The calls of `DoDetectAppLayerUricontentMatch` on a sequence of uris, one after the
other: the values they return, and the thread context the last one leaves. -/
def matchAll {σ : Type}
    (search : DetectEngineThreadCtx σ → List Nat → Nat → Nat × DetectEngineThreadCtx σ) :
    DetectEngineThreadCtx σ → List (List Nat) → List Int × DetectEngineThreadCtx σ
  | det_ctx, [] => ([], det_ctx)
  | det_ctx, uri :: rest =>
    let r := DoDetectAppLayerUricontentMatch search det_ctx uri (uri.length % 65536)
    let rs := matchAll search r.2 rest
    (r.1 :: rs.1, rs.2)

/-! ## The fine-grained filters of `util-debug-filters.c`

A linked list is the list of its nodes in `next` order.  A file or function name is a C
string, `none` for `NULL`.  The functions take the value of the global
`sc_log_module_initialized` and the array `sc_log_fg_filters` as arguments and return the
array they leave.  The mutexes `sc_log_fg_filters_m` are not modelled: every function
unlocks what it locked before it returns, and the calls are taken one after the other.
Allocation is taken to succeed. -/

/-- The two filter lists; the enumeration is declared outside this file. -/
inductive SCLogFilterType where
  | SC_LOG_FILTER_WL
  | SC_LOG_FILTER_BL
deriving DecidableEq

/-- A node `SCLogFGFilterFunc` with the list of its `SCLogFGFilterLine` nodes. -/
structure SCLogFGFilterFunc where
  func : Option (List Nat)
  line : List Int
deriving DecidableEq

/-- A node `SCLogFGFilterFile` with the list of its `SCLogFGFilterFunc` nodes. -/
structure SCLogFGFilterFile where
  file : Option (List Nat)
  func : List SCLogFGFilterFunc
deriving DecidableEq

/-- The array `sc_log_fg_filters`: the whitelist and the blacklist. -/
structure FGFilters where
  wl : List SCLogFGFilterFile
  bl : List SCLogFGFilterFile
deriving DecidableEq

/-- The entry `sc_log_fg_filters[listtype]`. -/
def FGFilters.get (fs : FGFilters) : SCLogFilterType → List SCLogFGFilterFile
  | SCLogFilterType.SC_LOG_FILTER_WL => fs.wl
  | SCLogFilterType.SC_LOG_FILTER_BL => fs.bl

/-- The array with the entry `sc_log_fg_filters[listtype]` replaced. -/
def FGFilters.set (fs : FGFilters) (listtype : SCLogFilterType)
    (l : List SCLogFGFilterFile) : FGFilters :=
  match listtype with
  | SCLogFilterType.SC_LOG_FILTER_WL => { fs with wl := l }
  | SCLogFilterType.SC_LOG_FILTER_BL => { fs with bl := l }

/-- The test `found` of lines 248-253 and 271-276: both names `NULL`, or both given and
equal under `strcmp`. -/
def nameFound (name stored : Option (List Nat)) : Bool :=
  match name, stored with
  | none, none => true
  | some a, some b => a == b
  | _, _ => false

/-- Lines 289-305: the search of `line` in the line list of a function node, and
`SCLogAddToFGFLineList` after the last node when it is not found. -/
def addLineLoop (line : Int) : List Int → List Int
  | [] => [line]
  | l :: rest => if line = l then l :: rest else l :: addLineLoop line rest

/-- Lines 266-305: the search of `function` in the function list of a file node, and
`SCLogAddToFGFFuncList` after the last node when it is not found. -/
def addFuncLoop (function : Option (List Nat)) (line : Int) :
    List SCLogFGFilterFunc → List SCLogFGFilterFunc
  | [] => [{ func := function, line := [line] }]
  | fn :: rest =>
    if nameFound function fn.func then { fn with line := addLineLoop line fn.line } :: rest
    else fn :: addFuncLoop function line rest

/-- Lines 243-305: the search of `file` in the file list, and `SCLogAddToFGFFileList` after
the last node when it is not found. -/
def addFileLoop (file function : Option (List Nat)) (line : Int) :
    List SCLogFGFilterFile → List SCLogFGFilterFile
  | [] => [{ file := file, func := [{ func := function, line := [line] }] }]
  | f :: rest =>
    if nameFound file f.file then { f with func := addFuncLoop function line f.func } :: rest
    else f :: addFileLoop file function line rest

/-- The function `SCLogAddFGFilter` (lines 217-310): the return value and the array
`sc_log_fg_filters` it leaves. -/
def SCLogAddFGFilter (sc_log_module_initialized : Int) (fs : FGFilters)
    (file function : Option (List Nat)) (line : Int) (listtype : SCLogFilterType) :
    Int × FGFilters :=
  if sc_log_module_initialized ≠ 1 then (-1, fs)
  else if file = none ∧ function = none ∧ line < 0 then (-1, fs)
  else (0, fs.set listtype (addFileLoop file function line (fs.get listtype)))

/-- The function `SCLogAddFGFilterWL` (lines 461-464). -/
def SCLogAddFGFilterWL (sc_log_module_initialized : Int) (fs : FGFilters)
    (file function : Option (List Nat)) (line : Int) : Int × FGFilters :=
  SCLogAddFGFilter sc_log_module_initialized fs file function line
    SCLogFilterType.SC_LOG_FILTER_WL

/-- The function `SCLogAddFGFilterBL` (lines 482-485). -/
def SCLogAddFGFilterBL (sc_log_module_initialized : Int) (fs : FGFilters)
    (file function : Option (List Nat)) (line : Int) : Int × FGFilters :=
  SCLogAddFGFilter sc_log_module_initialized fs file function line
    SCLogFilterType.SC_LOG_FILTER_BL

/-- The loop over the line nodes of lines 373-382, entered with `match` equal to `m`;
the result is the value of `match` after the loop. -/
def matchLineLoop (line : Int) : Bool → List Int → Bool
  | m, [] => m
  | _, l :: rest =>
    if (if l ≠ -1 then decide (line = l) else true) then true
    else matchLineLoop line false rest

/-- The loop over the function nodes of lines 362-388, entered with `match` equal to `m`;
the result is the value of `match` after the loop.  The name `function` of the message is
not `NULL`. -/
def matchFuncLoop (function : List Nat) (line : Int) :
    Bool → List SCLogFGFilterFunc → Bool
  | m, [] => m
  | _, fn :: rest =>
    if (match fn.func with
        | some name => function == name
        | none => true) then
      if matchLineLoop line true fn.line then true
      else matchFuncLoop function line false rest
    else matchFuncLoop function line false rest

/-- The loop over the file nodes of lines 351-399: whether it leaves through the
`match == 1` exit of line 390.  The name `file` of the message is not `NULL`. -/
def matchFileLoop (file function : List Nat) (line : Int) : List SCLogFGFilterFile → Bool
  | [] => false
  | f :: rest =>
    if (match f.file with
        | some name => file == name
        | none => true) then
      if matchFuncLoop function line true f.func then true
      else matchFileLoop file function line rest
    else matchFileLoop file function line rest

/-- The function `SCLogMatchFGFilter` (lines 328-407), for a message with the names `file`
and `function`, neither `NULL` (`strcmp` is not defined on `NULL`). -/
def SCLogMatchFGFilter (sc_log_module_initialized : Int) (fs : FGFilters)
    (file function : List Nat) (line : Int) (listtype : SCLogFilterType) : Int :=
  if sc_log_module_initialized ≠ 1 then -1
  else
    match fs.get listtype with
    | [] => 1
    | f :: rest =>
      if matchFileLoop file function line (f :: rest) then
        (if listtype = SCLogFilterType.SC_LOG_FILTER_WL then 1 else 0)
      else
        (if listtype = SCLogFilterType.SC_LOG_FILTER_WL then 0 else 1)

/-- The function `SCLogMatchFGFilterWL` (lines 422-425). -/
def SCLogMatchFGFilterWL (sc_log_module_initialized : Int) (fs : FGFilters)
    (file function : List Nat) (line : Int) : Int :=
  SCLogMatchFGFilter sc_log_module_initialized fs file function line
    SCLogFilterType.SC_LOG_FILTER_WL

/-- The function `SCLogMatchFGFilterBL` (lines 440-443). -/
def SCLogMatchFGFilterBL (sc_log_module_initialized : Int) (fs : FGFilters)
    (file function : List Nat) (line : Int) : Int :=
  SCLogMatchFGFilter sc_log_module_initialized fs file function line
    SCLogFilterType.SC_LOG_FILTER_BL

/-- The function `SCLogPrintFGFilters` (lines 539-589): the number of line nodes of the
two lists, and 0 when the module is not initialised. -/
def SCLogPrintFGFilters (sc_log_module_initialized : Int) (fs : FGFilters) : Int :=
  if sc_log_module_initialized ≠ 1 then 0
  else
    (((fs.wl.map (fun f => ((f.func.map (fun fn => fn.line.length)).sum))).sum +
      ((fs.bl.map (fun f => ((f.func.map (fun fn => fn.line.length)).sum))).sum) : Nat) : Int)

/-- A fine-grained filter as it is given to `SCLogAddFGFilter`: file, function, line. -/
abbrev FGFilter := Option (List Nat) × Option (List Nat) × Int

/-- Whether `SCLogAddFGFilter` accepts the filter: not all three components left out. -/
def FGFilter.accepted (t : FGFilter) : Prop :=
  ¬ (t.1 = none ∧ t.2.1 = none ∧ t.2.2 < 0)

instance FGFilter.accepted_decidable (t : FGFilter) : Decidable (FGFilter.accepted t) := by
  unfold FGFilter.accepted
  infer_instance

/-- Whether a filter matches a message: the file is `NULL` or the file of the message,
the function is `NULL` or the function of the message, and the line is -1 or the line of
the message. -/
def FGFilter.matches (t : FGFilter) (file function : List Nat) (line : Int) : Prop :=
  (t.1 = none ∨ t.1 = some file) ∧ (t.2.1 = none ∨ t.2.1 = some function) ∧
    (t.2.2 = -1 ∨ t.2.2 = line)

instance FGFilter.matches_decidable (t : FGFilter) (file function : List Nat) (line : Int) :
    Decidable (FGFilter.matches t file function line) := by
  unfold FGFilter.matches
  infer_instance

/-- The array `sc_log_fg_filters` after a sequence of calls of `SCLogAddFGFilter` on the
initialised module, starting from the two empty lists. -/
def addedFilters (ops : List (SCLogFilterType × FGFilter)) : FGFilters :=
  ops.foldl (fun fs op => (SCLogAddFGFilter 1 fs op.2.1 op.2.2.1 op.2.2.2 op.1).2) ⟨[], []⟩

/-- The filter `t` is stored in a filter list: a file node with the file of `t` has a
function node with the function of `t` that has a line node with the line of `t`. -/
def HasTriple (l : List SCLogFGFilterFile) (t : FGFilter) : Prop :=
  ∃ f ∈ l, f.file = t.1 ∧ ∃ fn ∈ f.func, fn.func = t.2.1 ∧ t.2.2 ∈ fn.line

/-- Every file node of the list has a function node and every function node has a line
node, as the three `SCLogAddToFGF...List` functions build them. -/
def ValidFG (l : List SCLogFGFilterFile) : Prop :=
  ∀ f ∈ l, f.func ≠ [] ∧ ∀ fn ∈ f.func, fn.line ≠ []

/-- The number of line nodes of a filter list, as the three loops of `SCLogPrintFGFilters`
count them for one list. -/
def fgCount (l : List SCLogFGFilterFile) : Nat :=
  (l.map (fun f => ((f.func.map (fun fn => fn.line.length)).sum))).sum

/-! ## The function-dependent filters of `util-debug-filters.c`

The list `sc_log_fd_filters` is the list of its nodes in `next` order.  The functions take
the value of `sc_log_module_initialized` and the list as arguments and return the list
they leave.  The mutex `sc_log_fd_filters_m` is not modelled: every function unlocks what
it locked before it returns, and the calls are taken one after the other.  Allocation is
taken to succeed. -/

/-- A node `SCLogFDFilter`: its function name `func`, which `SCLogAddFDFilter` sets to a
copy of its non-`NULL` argument. -/
structure SCLogFDFilter where
  func : List Nat
deriving DecidableEq

/-- The loop of lines 832-842 of `SCLogAddFDFilter` and the insertion of lines 844-860: the
list is left as it is when a node holds the name, and the new node is linked after the
last node, or as the head of an empty list, when none does. -/
def addFDLoop (function : List Nat) : List SCLogFDFilter → List SCLogFDFilter
  | [] => [⟨function⟩]
  | curr :: rest =>
    if function = curr.func then curr :: rest else curr :: addFDLoop function rest

/-- The function `SCLogAddFDFilter` (lines 813-865): the return value and the list
`sc_log_fd_filters` it leaves. -/
def SCLogAddFDFilter (sc_log_module_initialized : Int) (sc_log_fd_filters : List SCLogFDFilter)
    (function : Option (List Nat)) : Int × List SCLogFDFilter :=
  if sc_log_module_initialized ≠ 1 then (-1, sc_log_fd_filters)
  else
    match function with
    | none => (-1, sc_log_fd_filters)
    | some name => (0, addFDLoop name sc_log_fd_filters)

/-- The loop of lines 922-930 of `SCLogRemoveFDFilter` and the unlinking of lines 937-942:
the first node that holds the name is taken out of the list. -/
def removeFDLoop (function : List Nat) : List SCLogFDFilter → List SCLogFDFilter
  | [] => []
  | curr :: rest =>
    if function = curr.func then rest else curr :: removeFDLoop function rest

/-- The function `SCLogRemoveFDFilter` (lines 899-947): the return value and the list
`sc_log_fd_filters` it leaves. -/
def SCLogRemoveFDFilter (sc_log_module_initialized : Int)
    (sc_log_fd_filters : List SCLogFDFilter) (function : Option (List Nat)) :
    Int × List SCLogFDFilter :=
  if sc_log_module_initialized ≠ 1 then (-1, sc_log_fd_filters)
  else
    match function with
    | none => (-1, sc_log_fd_filters)
    | some name =>
      match sc_log_fd_filters with
      | [] => (0, [])
      | curr :: rest => (0, removeFDLoop name (curr :: rest))

/-- The function `SCLogPrintFDFilters` (lines 954-983): the number of nodes of the list,
and 0 when the module is not initialised. -/
def SCLogPrintFDFilters (sc_log_module_initialized : Int)
    (sc_log_fd_filters : List SCLogFDFilter) : Int :=
  if sc_log_module_initialized ≠ 1 then 0 else (sc_log_fd_filters.length : Int)

/-- A call of `SCLogAddFDFilter` or of `SCLogRemoveFDFilter` with its argument. -/
inductive FDCall where
  | add (function : Option (List Nat))
  | remove (function : Option (List Nat))
deriving DecidableEq

/-- The list `sc_log_fd_filters` after a sequence of calls on the initialised module,
starting from the empty list. -/
def fdAfter (calls : List FDCall) : List SCLogFDFilter :=
  calls.foldl (fun l c =>
    match c with
    | FDCall.add function => (SCLogAddFDFilter 1 l function).2
    | FDCall.remove function => (SCLogRemoveFDFilter 1 l function).2) []

/-! ## The pattern-id store and the modifier keywords

`DetectUricontentGetId` (called at line 394), the store `mpm_pattern_id_store` and the
setup functions of the keywords `depth`, `offset`, `within` and `distance` are defined
outside the two files.  They are modelled from the spec, and from what the tests of
`detect-uricontent.c` expect of them. -/

/-- Modelled from the spec: the buffer-type namespace of a pattern, payload or uri. -/
inductive PatternNamespace where
  | payload
  | uri
deriving DecidableEq

/-- Modelled from the spec: the pattern-id registry.  It maps a namespace and a byte
content to an id; `max_id` is the id the next first-seen content is given.  One counter
serves both namespaces, which keeps the ids of the two namespaces from colliding; the
test `DetectUricontentSigTest10` expects the ids 0 for the uri pattern `one`, then 1 and 2
for the payload patterns `one` and `two`. -/
structure MpmPatternIdStore where
  entries : List (PatternNamespace × List Nat × Nat)
  max_id : Nat
deriving DecidableEq

/-- Modelled from the spec: the id registered for a content in a namespace, if any. -/
def MpmPatternIdStore.lookup (ns : PatternNamespace) (content : List Nat) :
    List (PatternNamespace × List Nat × Nat) → Option Nat
  | [] => none
  | e :: rest =>
    if e.1 = ns ∧ e.2.1 = content then some e.2.2
    else MpmPatternIdStore.lookup ns content rest

/-- Modelled from the spec: `get_or_create_id(namespace, bytes)`.  A content already seen
in the namespace keeps its id; a first-seen content is given `max_id`, and `max_id` is
increased by one. -/
def MpmPatternGetId (ns : PatternNamespace) (ht : MpmPatternIdStore) (content : List Nat) :
    Nat × MpmPatternIdStore :=
  match MpmPatternIdStore.lookup ns content ht.entries with
  | some id => (id, ht)
  | none => (ht.max_id, ⟨ht.entries ++ [(ns, content, ht.max_id)], ht.max_id + 1⟩)

/-- Modelled from the spec: `DetectUricontentGetId`, the id of the content of a descriptor
in the uri namespace. -/
def DetectUricontentGetId (ht : MpmPatternIdStore) (co : DetectContentData) :
    Nat × MpmPatternIdStore :=
  MpmPatternGetId PatternNamespace.uri ht co.content

/-- Modelled from the spec: `DetectContentGetId`, the id of the content of a descriptor in
the payload namespace. -/
def DetectContentGetId (ht : MpmPatternIdStore) (co : DetectContentData) :
    Nat × MpmPatternIdStore :=
  MpmPatternGetId PatternNamespace.payload ht co.content

/-- Modelled from the spec: the registry before any content is seen. -/
def emptyStore : MpmPatternIdStore := ⟨[], 0⟩

/-- The registry after a sequence of requests, each a namespace and a content. -/
def getIds (calls : List (PatternNamespace × List Nat)) (ht : MpmPatternIdStore) :
    MpmPatternIdStore :=
  calls.foldl (fun h c => (MpmPatternGetId c.1 h c.2).2) ht

/-- The ids of a registry are below `max_id`, and no two entries share an id. -/
def StoreInv (ht : MpmPatternIdStore) : Prop :=
  (∀ e ∈ ht.entries, e.2.2 < ht.max_id) ∧
    ∀ e1 ∈ ht.entries, ∀ e2 ∈ ht.entries, e1.2.2 = e2.2.2 → e1 = e2

/-- Modelled from the spec: a modifier keyword with its argument. -/
inductive Modifier where
  | depth (n : Nat)
  | offset (n : Nat)
  | within (n : Nat)
  | distance (n : Int)
deriving DecidableEq

/-- Modelled from the spec: whether a descriptor carries an absolute constraint (offset or
depth) and a relative constraint (distance or within) at once; 0 is unset. -/
def hasBothConstraints (cd : DetectContentData) : Bool :=
  (decide (cd.offset ≠ 0) || decide (cd.depth ≠ 0)) &&
    (decide (cd.distance ≠ 0) || decide (cd.within ≠ 0))

/-- Modelled from the spec: the descriptor as a modifier keyword amends it.  `depth:N`
stores the offset plus N.  `offset:O` stores O and moves a depth that is set by O: the
test `DetectUriSigTest04` expects the depth 15 and the offset 5 after
`depth:10; offset: 5`. -/
def amend (cd : DetectContentData) : Modifier → DetectContentData
  | Modifier.depth n => { cd with depth := cd.offset + n }
  | Modifier.offset n =>
    { cd with offset := n, depth := if cd.depth ≠ 0 then cd.depth + n else cd.depth }
  | Modifier.within n => { cd with within := (n : Int) }
  | Modifier.distance n => { cd with distance := n }

/-- Modelled from the spec: a modifier keyword is rejected (`none`) when the amended
descriptor carries an absolute and a relative constraint. -/
def applyModifier (cd : DetectContentData) (m : Modifier) : Option DetectContentData :=
  if hasBothConstraints (amend cd m) then none else some (amend cd m)

/-- Modelled from the spec: the trailing modifier keywords of a descriptor, in rule
order. -/
def applyModifiers (cd : DetectContentData) : List Modifier → Option DetectContentData
  | [] => some cd
  | m :: rest =>
    match applyModifier cd m with
    | none => none
    | some cd2 => applyModifiers cd2 rest

/-- A `content` or `uricontent` keyword of a rule with its decoded content and the
modifier keywords that follow it, up to the next such keyword. -/
structure ContentClause where
  type : SigMatchType
  content : List Nat
  modifiers : List Modifier
deriving DecidableEq

/-- The descriptor of a content before any modifier: the fields that
`DoDetectUricontentSetup` fills for a content that is not negated, and the id 0. -/
def newDescriptor (content : List Nat) : DetectContentData :=
  { content := content, content_len := content.length, flags := 0, depth := 0, offset := 0,
    within := 0, distance := 0, id := 0 }

/-- Modelled from the spec: the node a clause gives, `none` when a modifier is rejected. -/
def loadClause (cl : ContentClause) : Option SigMatch :=
  match applyModifiers (newDescriptor cl.content) cl.modifiers with
  | none => none
  | some cd => some ⟨cl.type, some cd⟩

/-- Modelled from the spec: the nodes of the content clauses of a rule in rule order,
`none` when the rule fails to load. -/
def loadRule : List ContentClause → Option (List SigMatch)
  | [] => some []
  | cl :: rest =>
    match loadClause cl, loadRule rest with
    | some sm, some sms => some (sm :: sms)
    | _, _ => none

/-! ## Reading a string through a known prefix -/

theorem charAt_append_right (p l : List Nat) (k : Nat) :
    charAt (p ++ l) (p.length + k) = charAt l k := by
  unfold charAt
  rw [List.getD_append_right _ _ _ _ (by omega)]
  congr 1
  omega

theorem charAt_append_left (p l : List Nat) (k : Nat) (h : k < p.length) :
    charAt (p ++ l) k = charAt p k := by
  unfold charAt
  exact List.getD_append _ _ _ _ h

theorem charAt_cons_zero (c : Nat) (l : List Nat) : charAt (c :: l) 0 = c := rfl

theorem charAt_of_mem_lt (p : List Nat) (k : Nat) (h : k < p.length) : charAt p k ∈ p := by
  unfold charAt
  rw [List.getD_eq_getElem _ _ h]
  exact List.getElem_mem h

/-- The whitespace loop stops at the first index that is not below `slen` or does not
hold a whitespace character. -/
theorem skipSpaces_stop (temp : List Nat) (slen : Nat) :
    ∀ fuel pos, slen ≤ pos + fuel →
      ¬ (skipSpaces temp slen fuel pos < slen ∧
          isspace (charAt temp (skipSpaces temp slen fuel pos)) = true) := by
  intro fuel
  induction fuel with
  | zero =>
    intro pos h
    simp only [skipSpaces]
    omega
  | succ f ih =>
    intro pos h
    simp only [skipSpaces]
    split
    · exact ih (pos + 1) (by omega)
    · rename_i hc
      simpa using hc

/-- Over a run of whitespace the loop advances to the end of the run, if `slen` allows. -/
theorem skipSpaces_run (ws rest : List Nat) (slen : Nat) (hws : ∀ c ∈ ws, isspace c = true)
    (hrest : isspace (charAt rest 0) = false) (hlen : ws.length ≤ slen) :
    ∀ fuel pos, pos ≤ ws.length → ws.length ≤ pos + fuel →
      skipSpaces (ws ++ rest) slen fuel pos = ws.length := by
  intro fuel
  induction fuel with
  | zero =>
    intro pos h1 h2
    simp only [skipSpaces]
    omega
  | succ f ih =>
    intro pos h1 h2
    simp only [skipSpaces]
    by_cases hp : pos < ws.length
    · have hsp : isspace (charAt (ws ++ rest) pos) = true := by
        rw [charAt_append_left _ _ _ hp]
        exact hws _ (charAt_of_mem_lt _ _ hp)
      have hlt : pos < slen := by omega
      simp only [hsp, hlt, decide_True, Bool.and_self, if_true]
      exact ih (pos + 1) (by omega) (by omega)
    · have hpe : pos = ws.length := by omega
      have hsp : isspace (charAt (ws ++ rest) pos) = false := by
        rw [hpe]
        have := charAt_append_right ws rest 0
        simp only [Nat.add_zero] at this
        rw [this]
        exact hrest
      simp only [hsp, Bool.and_false, Bool.false_eq_true, if_false]
      exact hpe

/-- When `slen` cuts the run of whitespace short the loop stops inside the run. -/
theorem skipSpaces_cut (ws rest : List Nat) (slen : Nat) (hws : ∀ c ∈ ws, isspace c = true)
    (hlen : slen < ws.length) :
    ∀ fuel pos, pos ≤ slen → slen ≤ pos + fuel →
      skipSpaces (ws ++ rest) slen fuel pos = slen := by
  intro fuel
  induction fuel with
  | zero =>
    intro pos h1 h2
    simp only [skipSpaces]
    omega
  | succ f ih =>
    intro pos h1 h2
    simp only [skipSpaces]
    by_cases hp : pos < slen
    · have hsp : isspace (charAt (ws ++ rest) pos) = true := by
        rw [charAt_append_left _ _ _ (by omega)]
        exact hws _ (charAt_of_mem_lt _ _ (by omega))
      simp only [hsp, hp, decide_True, Bool.and_self, if_true]
      exact ih (pos + 1) (by omega) (by omega)
    · have hpe : pos = slen := by omega
      simp only [hp, decide_False, Bool.false_and, Bool.false_eq_true, if_false]
      exact hpe

/-! ## The parser on an input of the grammar -/

theorem isspace_ne_quote (c : Nat) (h : isspace c = true) : c ≠ 34 ∧ c ≠ 33 := by
  unfold isspace at h
  simp only [Bool.or_eq_true, beq_iff_eq, Bool.and_eq_true, decide_eq_true_eq] at h
  omega

theorem charAt_quote_last (body : List Nat) :
    charAt (34 :: (body ++ [34])) (body.length + 1) = 34 := by
  unfold charAt
  simp [List.getD_cons_succ, List.getD_append_right]

/-- The parser at a position that holds the opening quote of `"body"`. -/
theorem parseQuoted_quote (flags : Nat) (pre body : List Nat) :
    parseQuoted flags (pre ++ (34 :: (body ++ [34]))) pre.length = decodeBody flags body := by
  have h0 : charAt (pre ++ (34 :: (body ++ [34]))) pre.length = 34 := by
    have := charAt_append_right pre (34 :: (body ++ [34])) 0
    simpa using this
  have h1 : (pre ++ (34 :: (body ++ [34]))).drop pre.length = 34 :: (body ++ [34]) := by
    simp
  have h2 : strlen (34 :: (body ++ [34])) = body.length + 2 := by
    simp [strlen]
  have h3 : charAt (pre ++ (34 :: (body ++ [34]))) (pre.length + (body.length + 2) - 1) = 34 := by
    have e : pre.length + (body.length + 2) - 1 = pre.length + (body.length + 1) := by omega
    rw [e, charAt_append_right]
    exact charAt_quote_last body
  have h4 : ((pre ++ (34 :: (body ++ [34]))).drop (pre.length + 1)).take
      (strlen (pre ++ (34 :: (body ++ [34]))) - pre.length - 2) = body := by
    have e1 : (pre ++ (34 :: (body ++ [34]))).drop (pre.length + 1) = body ++ [34] := by
      rw [← List.drop_drop, h1]
      simp
    have e2 : strlen (pre ++ (34 :: (body ++ [34]))) - pre.length - 2 = body.length := by
      simp [strlen]
    rw [e1, e2]
    simp
  unfold parseQuoted
  rw [h1, h2, h0, h3, h4]
  have hb : ¬ (body.length + 2 = 1) := by omega
  simp only [hb, and_false, if_false, and_self, if_true]

/-- On an input of the grammar whose whitespace the 16-bit length `slen` does not cut
short, the parser decodes the body between the quotes. -/
theorem DoDetect_quoted (N : Nat) (ws : List Nat) (neg : Bool) (body : List Nat)
    (hws : ∀ c ∈ ws, isspace c = true)
    (hlen : ws = [] ∨ (quoted ws neg body).length < 65536) :
    DoDetectUricontentSetup N (quoted ws neg body) =
      decodeBody (if neg then 0 ||| N else 0) body := by
  have hn : (quoted ws neg body).length =
      ws.length + (if neg then 1 else 0) + body.length + 2 := by
    cases neg <;> simp [quoted] <;> omega
  have hle : ws.length ≤ (quoted ws neg body).length % 65536 := by
    rcases hlen with h | h
    · simp [h]
    · rw [Nat.mod_eq_of_lt h]; omega
  have hrest : isspace (charAt ((if neg then [33] else []) ++ (34 :: (body ++ [34]))) 0) = false := by
    cases neg <;> simp [charAt, isspace]
  have hpos0 : skipSpaces (quoted ws neg body) ((quoted ws neg body).length % 65536)
      ((quoted ws neg body).length % 65536) 0 = ws.length := by
    have := skipSpaces_run ws ((if neg then [33] else []) ++ (34 :: (body ++ [34])))
      ((quoted ws neg body).length % 65536) hws hrest hle
      ((quoted ws neg body).length % 65536) 0 (by omega) (by omega)
    exact this
  have hne : ¬ (strlen (quoted ws neg body) = 0) := by
    unfold strlen; omega
  unfold DoDetectUricontentSetup
  simp only [hne, if_false]
  unfold strlen
  rw [hpos0]
  cases neg with
  | false =>
    have hc : charAt (quoted ws false body) ws.length = 34 := by
      have := charAt_append_right ws (34 :: (body ++ [34])) 0
      simpa [quoted] using this
    rw [hc]
    simp only [Nat.reduceEqDiff, if_false, Bool.false_eq_true]
    have := parseQuoted_quote 0 ws body
    simpa [quoted] using this
  | true =>
    have hc : charAt (quoted ws true body) ws.length = 33 := by
      have := charAt_append_right ws (33 :: 34 :: (body ++ [34])) 0
      simpa [quoted] using this
    have hw : (ws.length + 1) % 65536 = ws.length + 1 := by
      apply Nat.mod_eq_of_lt
      rcases hlen with h | h
      · simp [h]
      · omega
    rw [hc, hw]
    simp only [if_true]
    have := parseQuoted_quote (0 ||| N) (ws ++ [33]) body
    simpa [quoted] using this

/-- The quote checks fail when what stands at the position is a lone quote, does not
begin with a quote, or does not end with one. -/
theorem parseQuoted_bad (flags : Nat) (pre t : List Nat)
    (h : t = [34] ∨ t.head? ≠ some 34 ∨ t.getLast? ≠ some 34) :
    parseQuoted flags (pre ++ t) pre.length = none := by
  have h0 : charAt (pre ++ t) pre.length = charAt t 0 := by
    have := charAt_append_right pre t 0
    simpa using this
  have h1 : (pre ++ t).drop pre.length = t := by simp
  unfold parseQuoted
  rw [h0, h1]
  cases t with
  | nil => simp [charAt]
  | cons c t1 =>
    by_cases hc : c = 34
    · subst hc
      by_cases ht : t1 = []
      · subst ht
        simp [charAt, strlen]
      · have hlast : charAt (pre ++ 34 :: t1) (pre.length + strlen (34 :: t1) - 1) ≠ 34 := by
          have e : pre.length + strlen (34 :: t1) - 1 = pre.length + t1.length := by
            simp [strlen]
          rw [e, charAt_append_right]
          rcases h with h | h | h
          · simp at h; exact absurd h ht
          · simp at h
          · intro hq
            apply h
            rw [List.getLast?_eq_getElem?]
            simp only [List.length_cons, Nat.add_sub_cancel]
            unfold charAt at hq
            rw [List.getD_eq_getElem?_getD] at hq
            have hlt : t1.length < (34 :: t1).length := by simp
            rw [List.getElem?_eq_getElem hlt] at hq ⊢
            simpa using hq
        have hs : ¬ (strlen (34 :: t1) = 1) := by
          simp [strlen]
          exact ht
        simp [hlast, hs]
    · simp [charAt, hc]

/-- A leading whitespace character is neither a quote nor `!`, so the parser rejects at it. -/
theorem parseQuoted_space (flags : Nat) (temp : List Nat) (pos : Nat)
    (h : isspace (charAt temp pos) = true) : parseQuoted flags temp pos = none := by
  have := (isspace_ne_quote _ h).1
  unfold parseQuoted
  simp [this]

theorem isspace_head_dropWhile (s : List Nat) :
    isspace (charAt (s.dropWhile isspace) 0) = false := by
  induction s with
  | nil => simp [charAt, isspace]
  | cons c t ih =>
    by_cases hc : isspace c = true
    · simpa [List.dropWhile_cons, hc] using ih
    · simp only [Bool.not_eq_true] at hc
      simp [List.dropWhile_cons, hc, charAt]

theorem mem_takeWhile_isspace (s : List Nat) : ∀ c ∈ s.takeWhile isspace, isspace c = true := by
  intro c hc
  exact (List.mem_takeWhile_imp hc)

/-- The parser after the whitespace loop, for an input split into its leading run of
whitespace and the rest. -/
theorem DoDetect_split (N : Nat) (s : List Nat) (hs : s ≠ []) :
    (s.length % 65536 < (s.takeWhile isspace).length → DoDetectUricontentSetup N s = none) ∧
    ((s.takeWhile isspace).length ≤ s.length % 65536 →
      DoDetectUricontentSetup N s =
        if charAt (s.dropWhile isspace) 0 = 33 then
          parseQuoted (0 ||| N) s (((s.takeWhile isspace).length + 1) % 65536)
        else parseQuoted 0 s (s.takeWhile isspace).length) := by
  have hsplit : s.takeWhile isspace ++ s.dropWhile isspace = s := List.takeWhile_append_dropWhile _ _
  have hne : ¬ (strlen s = 0) := by
    unfold strlen
    intro h
    exact hs (List.length_eq_zero.mp h)
  constructor
  · intro hlt
    have hpos : skipSpaces s (s.length % 65536) (s.length % 65536) 0 = s.length % 65536 := by
      have := skipSpaces_cut (s.takeWhile isspace) (s.dropWhile isspace) (s.length % 65536)
        (mem_takeWhile_isspace s) hlt (s.length % 65536) 0 (by omega) (by omega)
      rwa [hsplit] at this
    have hsp : isspace (charAt s (s.length % 65536)) = true := by
      have h1 := charAt_append_left (s.takeWhile isspace) (s.dropWhile isspace) _ hlt
      rw [hsplit] at h1
      rw [h1]
      exact mem_takeWhile_isspace s _ (charAt_of_mem_lt _ _ hlt)
    unfold DoDetectUricontentSetup
    simp only [hne, if_false]
    unfold strlen
    rw [hpos]
    have h33 := (isspace_ne_quote _ hsp).2
    simp only [h33, if_false]
    exact parseQuoted_space _ _ _ hsp
  · intro hle
    have hpos : skipSpaces s (s.length % 65536) (s.length % 65536) 0 =
        (s.takeWhile isspace).length := by
      have := skipSpaces_run (s.takeWhile isspace) (s.dropWhile isspace) (s.length % 65536)
        (mem_takeWhile_isspace s) (isspace_head_dropWhile s) hle (s.length % 65536) 0
        (by omega) (by omega)
      rwa [hsplit] at this
    have hch : charAt s (s.takeWhile isspace).length = charAt (s.dropWhile isspace) 0 := by
      have := charAt_append_right (s.takeWhile isspace) (s.dropWhile isspace) 0
      rw [hsplit] at this
      simpa using this
    unfold DoDetectUricontentSetup
    simp only [hne, if_false]
    unfold strlen
    rw [hpos, hch]

theorem remainder_bang (s t : List Nat) (h : s.dropWhile isspace = 33 :: t) :
    remainder s = t := by
  unfold remainder
  rw [h]

theorem remainder_other (s : List Nat) (h : charAt (s.dropWhile isspace) 0 ≠ 33) :
    remainder s = s.dropWhile isspace := by
  unfold remainder
  split
  · rename_i t heq
    rw [heq] at h
    exact absurd rfl h
  · rfl

/-! ## The loop on the buffer computes the scan -/

theorem scanStep_bounds (a a1 : ScanState) (c : Nat) (h : scanStep a c = some a1) :
    a1.out.length ≤ a.out.length + 1 ∧ a.out.length ≤ a1.out.length ∧
      a1.bin_count ≤ a.bin_count + 1 := by
  unfold scanStep at h
  split_ifs at h <;> simp only [Option.some.injEq] at h <;> subst h <;> simp

theorem toDecode_charAt (body : List Nat) (a : ScanState) (i : Nat) (hx : a.out.length ≤ i) :
    charAt (a.toDecode body).str i = charAt body i := by
  unfold charAt ScanState.toDecode
  simp only
  rw [List.getD_append_right _ _ _ _ hx]
  rw [List.getD_eq_getElem?_getD, List.getD_eq_getElem?_getD, List.getElem?_drop]
  congr 2
  omega

theorem toDecode_set (body : List Nat) (a : ScanState) (v : Nat)
    (hx : a.out.length < body.length) :
    (a.out ++ body.drop a.out.length).set a.out.length v =
      (a.out ++ [v]) ++ body.drop ((a.out ++ [v]).length) := by
  rw [List.set_append_right _ _ (Nat.le_refl _)]
  simp only [Nat.sub_self, List.length_append, List.length_singleton, List.append_assoc,
    List.singleton_append]
  congr 1
  rw [List.drop_eq_getElem_cons hx, List.set_cons_zero]

/-- One iteration on the buffer is one step of the scan. -/
theorem decodeStep_scanStep (body : List Nat) (a : ScanState) (i : Nat)
    (hx : a.out.length ≤ i) (hb : a.bin_count ≤ i) (hi : i < body.length) (h16 : i < 65535) :
    decodeStep (a.toDecode body) i = (scanStep a (charAt body i)).map (ScanState.toDecode body) := by
  have hset : ∀ v, (a.out ++ body.drop a.out.length).set a.out.length v =
      (a.out ++ [v]) ++ body.drop ((a.out ++ [v]).length) :=
    fun v => toDecode_set body a v (by omega)
  have hm1 : (a.out.length + 1) % 65536 = a.out.length + 1 := Nat.mod_eq_of_lt (by omega)
  have hm2 : (a.bin_count + 1) % 65536 = a.bin_count + 1 := Nat.mod_eq_of_lt (by omega)
  unfold decodeStep
  rw [toDecode_charAt body a i hx]
  unfold scanStep
  simp only [ScanState.toDecode, hset, hm1, hm2]
  split_ifs <;> simp [ScanState.toDecode]

/-- The iterations `i, ..., i+n-1` of the loop on the buffer are the scan of the `n`
characters of the body from index `i`. -/
theorem decodeFrom_scan (body : List Nat) :
    ∀ n i (a : ScanState), a.out.length ≤ i → a.bin_count ≤ i → i + n ≤ body.length →
      i + n ≤ 65535 →
      decodeFrom (a.toDecode body) i n =
        (scan a ((body.drop i).take n)).map (ScanState.toDecode body) := by
  intro n
  induction n with
  | zero =>
    intro i a _ _ _ _
    simp [decodeFrom, scan]
  | succ n ih =>
    intro i a hx hb hi h16
    have hlt : i < body.length := by omega
    have hdrop : (body.drop i).take (n + 1) = charAt body i :: (body.drop (i + 1)).take n := by
      rw [List.drop_eq_getElem_cons hlt, List.take_succ_cons]
      congr 1
      unfold charAt
      rw [List.getD_eq_getElem _ _ hlt]
    rw [hdrop]
    simp only [decodeFrom, scan]
    rw [decodeStep_scanStep body a i hx hb hlt (by omega)]
    cases hstep : scanStep a (charAt body i) with
    | none => simp
    | some a1 =>
      obtain ⟨h1, _, h3⟩ := scanStep_bounds a a1 _ hstep
      simp only [Option.map_some']
      exact ih (i + 1) a1 (by omega) (by omega) (by omega) (by omega)

theorem toDecode_scanInit (body : List Nat) : scanInit.toDecode body = decodeInit body := by
  simp [ScanState.toDecode, scanInit, decodeInit]

theorem scan_out_length (l : List Nat) :
    ∀ (a a1 : ScanState), scan a l = some a1 →
      a1.out.length ≤ a.out.length + l.length ∧ a.out.length ≤ a1.out.length := by
  induction l with
  | nil =>
    intro a a1 h
    simp only [scan, Option.some.injEq] at h
    subst h
    simp
  | cons c cs ih =>
    intro a a1 h
    simp only [scan] at h
    cases hstep : scanStep a c with
    | none => rw [hstep] at h; simp at h
    | some a2 =>
      rw [hstep] at h
      have := scanStep_bounds a a2 c hstep
      have := ih a2 a1 h
      simp only [List.length_cons]
      omega

/-- The decoding of a body is the scan of its first `len` characters, followed by the
parity check and the copy. -/
theorem decodeBody_eq_scan (flags : Nat) (body : List Nat) :
    decodeBody flags body =
      if body.length % 65536 = 0 then none
      else
        match scan scanInit (body.take (body.length % 65536)) with
        | none => none
        | some a => scanFinish flags body (body.length % 65536) a := by
  unfold decodeBody strlen
  by_cases h0 : body.length % 65536 = 0
  · simp [h0]
  · simp only [h0, if_false]
    have hle : body.length % 65536 ≤ body.length := Nat.mod_le _ _
    have hlt : body.length % 65536 < 65536 := Nat.mod_lt _ (by decide)
    have := decodeFrom_scan body (body.length % 65536) 0 scanInit (by simp [scanInit])
      (by simp [scanInit]) (by omega) (by omega)
    rw [toDecode_scanInit] at this
    rw [this]
    simp only [List.drop_zero]
    cases hs : scan scanInit (body.take (body.length % 65536)) with
    | none => simp
    | some a =>
      have hout := (scan_out_length _ _ _ hs).1
      simp only [scanInit, List.length_nil, Nat.zero_add, List.length_take] at hout
      have hout1 : a.out.length ≤ body.length % 65536 := le_trans hout (min_le_left _ _)
      simp only [Option.map_some', scanFinish, ScanState.toDecode]
      by_cases hp : a.bin_count % 2 = 0
      · simp only [hp, ne_eq, not_true_eq_false, if_false]
        by_cases hc : a.converted = true
        · simp [hc]
        · simp only [hc, Bool.false_eq_true, if_false]
          simp [List.take_append_eq_append_take, hout1]
      · simp [hp]

/-! ## Properties of the scan -/

theorem scanStep_bin_count (a a1 : ScanState) (c : Nat) (h : scanStep a c = some a1) :
    a1.bin_count = a.bin_count + (if c = 124 then 1 else 0) := by
  unfold scanStep at h
  split_ifs at h <;> simp only [Option.some.injEq] at h <;> subst h <;> simp [*]

/-- The scan counts the `|` characters it reads. -/
theorem scan_bin_count (l : List Nat) :
    ∀ (a a1 : ScanState), scan a l = some a1 → a1.bin_count = a.bin_count + l.count 124 := by
  induction l with
  | nil =>
    intro a a1 h
    simp only [scan, Option.some.injEq] at h
    subst h
    simp
  | cons c cs ih =>
    intro a a1 h
    simp only [scan] at h
    cases hstep : scanStep a c with
    | none => rw [hstep] at h; simp at h
    | some a2 =>
      rw [hstep] at h
      rw [ih a2 a1 h, scanStep_bin_count a a2 c hstep, List.count_cons]
      by_cases hc : c = 124
      · simp [hc]; omega
      · simp [hc]

theorem scanStep_converted (a a1 : ScanState) (c : Nat) (h : scanStep a c = some a1)
    (hinv : a.converted = true → a.out ≠ []) : a1.converted = true → a1.out ≠ [] := by
  unfold scanStep at h
  split_ifs at h <;> simp only [Option.some.injEq] at h <;> subst h <;> simp <;> exact hinv

/-- Whenever the scan has set `converted` it has written at least one byte. -/
theorem scan_converted (l : List Nat) :
    ∀ (a a1 : ScanState), scan a l = some a1 → (a.converted = true → a.out ≠ []) →
      (a1.converted = true → a1.out ≠ []) := by
  induction l with
  | nil =>
    intro a a1 h hinv
    simp only [scan, Option.some.injEq] at h
    subst h
    exact hinv
  | cons c cs ih =>
    intro a a1 h hinv
    simp only [scan] at h
    cases hstep : scanStep a c with
    | none => rw [hstep] at h; simp at h
    | some a2 =>
      rw [hstep] at h
      exact ih a2 a1 h (scanStep_converted a a2 c hstep hinv)

/-- Without a backslash no escape begins, and the scan does not fail. -/
theorem scan_no_backslash (l : List Nat) :
    ∀ (a : ScanState), a.escape = false → 92 ∉ l →
      ∃ a1, scan a l = some a1 ∧ a1.escape = false := by
  induction l with
  | nil =>
    intro a he _
    exact ⟨a, rfl, he⟩
  | cons c cs ih =>
    intro a he hmem
    have hc : c ≠ 92 := fun h => hmem (by simp [h])
    have hcs : 92 ∉ cs := fun h => hmem (by simp [h])
    have hstep : ∃ a2, scanStep a c = some a2 ∧ a2.escape = false := by
      unfold scanStep
      split_ifs <;> simp_all
    obtain ⟨a2, h2, he2⟩ := hstep
    simp only [scan, h2]
    exact ih a2 he2 hcs

/-- The scan of two pieces of text is the scan of the second from the state the first
leaves. -/
theorem scan_append (l1 l2 : List Nat) :
    ∀ (a : ScanState), scan a (l1 ++ l2) = (scan a l1).bind (fun a1 => scan a1 l2) := by
  induction l1 with
  | nil => intro a; simp [scan]
  | cons c cs ih =>
    intro a
    simp only [List.cons_append, scan]
    cases scanStep a c with
    | none => simp
    | some a2 => simpa using ih a2

theorem hexVal_lt (c : Nat) : hexVal c < 16 := by
  unfold hexVal
  split_ifs <;> omega

theorem strtol16_eq (b0 b1 : Nat) : strtol16 b0 b1 = 16 * hexVal b0 + hexVal b1 := by
  unfold strtol16
  have h0 := hexVal_lt b0
  have h1 := hexVal_lt b1
  exact Nat.mod_eq_of_lt (by omega)

theorem isHexChar_ne (c : Nat) (h : isHexChar c = true) : c ≠ 124 ∧ c ≠ 92 ∧ c ≠ 32 := by
  unfold isHexChar isdigit at h
  simp only [Bool.or_eq_true, Bool.and_eq_true, decide_eq_true_eq, beq_iff_eq] at h
  omega

/-- Inside a hex group, with no digit pending, a pair of hex digits writes one byte. -/
theorem scan_pair (a : ScanState) (d1 d2 : Nat) (h1 : isHexChar d1 = true)
    (h2 : isHexChar d2 = true) (hbin : a.bin = true) (hesc : a.escape = false)
    (hpos : a.binpos = 0) (l : List Nat) :
    scan a (d1 :: d2 :: l) =
      scan { a with binstr0 := d1, binstr1 := d2, binpos := 0,
                    out := a.out ++ [16 * hexVal d1 + hexVal d2], converted := true } l := by
  obtain ⟨n1, n2, _⟩ := isHexChar_ne d1 h1
  obtain ⟨m1, m2, _⟩ := isHexChar_ne d2 h2
  simp [scan, scanStep, n1, n2, m1, m2, h1, h2, hbin, hesc, hpos, strtol16_eq]

/-- Inside a hex group, a sequence of pairs of hex digits writes its bytes and leaves the
group open. -/
theorem scan_pairs (ps : List (Nat × Nat))
    (hps : ∀ p ∈ ps, isHexChar p.1 = true ∧ isHexChar p.2 = true) :
    ∀ (a : ScanState), a.bin = true → a.escape = false → a.binpos = 0 →
      ∃ a1, scan a (pairText ps) = some a1 ∧ a1.out = a.out ++ pairBytes ps ∧
        a1.bin = true ∧ a1.escape = false ∧ a1.binpos = 0 ∧ a1.bin_count = a.bin_count ∧
        a1.converted = (a.converted || !ps.isEmpty) := by
  induction ps with
  | nil =>
    intro a hb he hp
    exact ⟨a, rfl, by simp [pairBytes], hb, he, hp, rfl, by simp⟩
  | cons p ps ih =>
    intro a hb he hp
    have hp1 := hps p (by simp)
    have hrest : ∀ q ∈ ps, isHexChar q.1 = true ∧ isHexChar q.2 = true :=
      fun q hq => hps q (by simp [hq])
    obtain ⟨a1, e1, e2, e3, e4, e5, e6, e7⟩ :=
      ih hrest { a with binstr0 := p.1, binstr1 := p.2, binpos := 0,
                        out := a.out ++ [16 * hexVal p.1 + hexVal p.2], converted := true }
        hb he rfl
    refine ⟨a1, ?_, ?_, e3, e4, e5, e6, ?_⟩
    · simp only [pairText]
      rw [scan_pair a p.1 p.2 hp1.1 hp1.2 hb he hp]
      exact e1
    · rw [e2]
      simp [pairBytes]
    · rw [e7]
      simp

theorem pairText_length (ps : List (Nat × Nat)) : (pairText ps).length = 2 * ps.length := by
  induction ps with
  | nil => rfl
  | cons p ps ih => simp only [pairText, List.length_cons, ih]; omega

/-! ## The parser on every input -/

/-- Every descriptor the parser returns is the decoding of some body. -/
theorem DoDetect_some_decodeBody (N : Nat) (s : List Nat) (cd : DetectContentData)
    (h : DoDetectUricontentSetup N s = some cd) :
    ∃ flags str, decodeBody flags str = some cd := by
  unfold DoDetectUricontentSetup at h
  simp only at h
  split_ifs at h
  all_goals
    unfold parseQuoted at h
    split_ifs at h
    exact ⟨_, _, h⟩

/-- On an input of the grammar the parser either rejects or decodes the body between the
quotes, whatever the length of the input. -/
theorem DoDetect_quoted_cases (N : Nat) (ws : List Nat) (neg : Bool) (body : List Nat)
    (hws : ∀ c ∈ ws, isspace c = true) :
    DoDetectUricontentSetup N (quoted ws neg body) = none ∨
      DoDetectUricontentSetup N (quoted ws neg body) =
        decodeBody (if neg then 0 ||| N else 0) body := by
  by_cases hlen : ws = [] ∨ (quoted ws neg body).length < 65536
  · exact Or.inr (DoDetect_quoted N ws neg body hws hlen)
  · have hne : quoted ws neg body ≠ [] := by
      cases neg <;> simp [quoted]
    have hwsne : ws ≠ [] := fun h => hlen (Or.inl h)
    have htake : (quoted ws neg body).takeWhile isspace = ws := by
      unfold quoted
      rw [List.takeWhile_append_of_pos hws]
      cases neg <;> simp [List.takeWhile_cons, isspace]
    have hdrop : (quoted ws neg body).dropWhile isspace =
        (if neg then [33] else []) ++ (34 :: (body ++ [34])) := by
      unfold quoted
      rw [List.dropWhile_append_of_pos hws]
      cases neg <;> simp [List.dropWhile_cons, isspace]
    obtain ⟨hcut, hrun⟩ := DoDetect_split N (quoted ws neg body) hne
    rw [htake, hdrop] at hrun
    rw [htake] at hcut
    by_cases hlt : (quoted ws neg body).length % 65536 < ws.length
    · exact Or.inl (hcut hlt)
    · rw [hrun (by omega)]
      have hpos : 0 < ws.length := List.length_pos.mpr hwsne
      have hsp0 : isspace (charAt (quoted ws neg body) 0) = true := by
        unfold quoted
        rw [charAt_append_left _ _ _ hpos]
        exact hws _ (charAt_of_mem_lt _ _ hpos)
      cases neg with
      | false =>
        right
        have := parseQuoted_quote 0 ws body
        simpa [quoted, charAt] using this
      | true =>
        by_cases hwrap : ws.length + 1 < 65536
        · right
          have := parseQuoted_quote (0 ||| N) (ws ++ [33]) body
          simp only [Bool.true_eq_false, if_true, if_false, List.singleton_append,
            charAt_cons_zero, Nat.mod_eq_of_lt hwrap]
          simpa [quoted] using this
        · left
          have h0 : (ws.length + 1) % 65536 = 0 := by
            have := Nat.mod_lt (quoted ws true body).length (show 65536 > 0 by decide)
            have : ws.length + 1 = 65536 := by omega
            rw [this]
          simp only [if_true, List.singleton_append, charAt_cons_zero, h0]
          exact parseQuoted_space _ _ _ hsp0

theorem DetectUricontentSetup_of_none {σ : Type} (getId : σ → DetectContentData → Nat × σ)
    (N A : Nat) (de_ctx : σ) (s : Signature) (str : List Nat)
    (h : DoDetectUricontentSetup N str = none) :
    DetectUricontentSetup getId N A de_ctx s str = (-1, de_ctx, s) := by
  unfold DetectUricontentSetup
  rw [h]
  simp

/-! ## Further properties of the decoding -/

/-- A body below 65536 bytes with an odd number of `|` is never decoded. -/
theorem decodeBody_odd_pipes (flags : Nat) (body : List Nat) (hlen : body.length < 65536)
    (hodd : body.count 124 % 2 = 1) : decodeBody flags body = none := by
  rw [decodeBody_eq_scan, Nat.mod_eq_of_lt hlen, List.take_length]
  split_ifs
  · rfl
  · cases hs : scan scanInit body with
    | none => rfl
    | some a =>
      have hc := scan_bin_count body scanInit a hs
      simp only [scanInit, Nat.zero_add] at hc
      simp [scanFinish, hc, hodd]

theorem refDecode_nil (inHex : Bool) :
    refDecode [] inHex = if inHex then none else some [] := by
  rfl

theorem refDecode_cons (c : Nat) (r : List Nat) (inHex : Bool) :
    refDecode (c :: r) inHex =
      if c = 124 then refDecode r (!inHex)
      else if inHex then
        if c = 32 then refDecode r true
        else
          match r with
          | [] => none
          | d :: r2 =>
            if isHexChar c ∧ isHexChar d then
              (refDecode r2 true).map (fun t => (16 * hexVal c + hexVal d) :: t)
            else none
      else if c = 92 then
        match r with
        | [] => none
        | e :: r2 =>
          if e = 58 ∨ e = 59 ∨ e = 92 ∨ e = 34 then (refDecode r2 false).map (fun t => e :: t)
          else none
      else (refDecode r false).map (fun t => c :: t) := by
  rw [refDecode.eq_def]

theorem refConverts_cons (c : Nat) (r : List Nat) (inHex : Bool) :
    refConverts (c :: r) inHex =
      if c = 124 then refConverts r (!inHex)
      else if inHex then isHexChar c || refConverts r true
      else if c = 92 then true
      else refConverts r false := by
  rfl

/-- On a body of the grammar the scan writes the reference decoding, and sets `converted`
exactly when the body holds a hex pair or an escape. -/
theorem scan_refDecode :
    ∀ (n : Nat) (body : List Nat), body.length ≤ n →
      ∀ (inHex : Bool) (out : List Nat) (a : ScanState),
        refDecode body inHex = some out → a.bin = inHex → a.escape = false → a.binpos = 0 →
        ∃ a1, scan a body = some a1 ∧ a1.out = a.out ++ out ∧ a1.bin = false ∧
          a1.converted = (a.converted || refConverts body inHex) := by
  intro n
  induction n with
  | zero =>
    intro body hn inHex out a href hb he hp
    have hnil : body = [] := List.length_eq_zero.mp (Nat.le_zero.mp hn)
    subst hnil
    cases inHex with
    | true => simp [refDecode_nil, refDecode_cons] at href
    | false =>
      simp only [refDecode_nil, Bool.false_eq_true, if_false, Option.some.injEq] at href
      subst href
      exact ⟨a, rfl, by simp, hb, by simp [refConverts]⟩
  | succ n ih =>
    intro body hn inHex out a href hb he hp
    cases body with
    | nil =>
      cases inHex with
      | true => simp [refDecode_nil, refDecode_cons] at href
      | false =>
        simp only [refDecode_nil, Bool.false_eq_true, if_false, Option.some.injEq] at href
        subst href
        exact ⟨a, rfl, by simp, hb, by simp [refConverts]⟩
    | cons c r =>
      have hr : r.length ≤ n := by simpa using hn
      by_cases hc : c = 124
      · subst hc
        simp only [refDecode_cons, if_true] at href
        obtain ⟨a1, e1, e2, e3, e4⟩ := ih r hr (!inHex) out
          { a with bin_count := a.bin_count + 1, bin := !a.bin } href (by simp [hb]) he hp
        refine ⟨a1, ?_, e2, e3, ?_⟩
        · simp only [scan, scanStep, if_true]
          exact e1
        · rw [e4]; simp [refConverts_cons]
      · cases inHex with
        | true =>
          by_cases h32 : c = 32
          · subst h32
            simp only [refDecode_cons, if_true, Nat.reduceEqDiff, if_false] at href
            obtain ⟨a1, e1, e2, e3, e4⟩ := ih r hr true out a href hb he hp
            refine ⟨a1, ?_, e2, e3, ?_⟩
            · have : scanStep a 32 = some a := by
                simp [scanStep, hb, isHexChar, isdigit]
              simp only [scan, this]
              exact e1
            · rw [e4]; simp [refConverts_cons, isHexChar, isdigit]
          · cases r with
            | nil => simp [refDecode_cons, hc, h32] at href
            | cons d r2 =>
              simp only [refDecode_cons, hc, h32, if_true, if_false] at href
              split_ifs at href with hd
              obtain ⟨t, ht, hout⟩ := Option.map_eq_some'.mp href
              subst hout
              have hr2 : r2.length ≤ n := by
                simp only [List.length_cons] at hr
                omega
              obtain ⟨a1, e1, e2, e3, e4⟩ := ih r2 hr2 true t
                { a with binstr0 := c, binstr1 := d, binpos := 0,
                         out := a.out ++ [16 * hexVal c + hexVal d], converted := true }
                ht hb he rfl
              refine ⟨a1, ?_, ?_, e3, ?_⟩
              · rw [scan_pair a c d hd.1 hd.2 hb he hp]
                exact e1
              · rw [e2]; simp
              · rw [e4]; simp [refConverts_cons, hc, hd.1]
        | false =>
          by_cases h92 : c = 92
          · subst h92
            cases r with
            | nil => simp [refDecode_nil, refDecode_cons] at href
            | cons e r2 =>
              simp only [refDecode_cons, hc, if_true, if_false, Bool.false_eq_true] at href
              split_ifs at href with hok
              obtain ⟨t, ht, hout⟩ := Option.map_eq_some'.mp href
              subst hout
              have hr2 : r2.length ≤ n := by
                simp only [List.length_cons] at hr
                omega
              have he124 : e ≠ 124 := by omega
              obtain ⟨a1, e1, e2, e3, e4⟩ := ih r2 hr2 false t
                { a with out := a.out ++ [e], escape := false, converted := true }
                ht hb rfl hp
              refine ⟨a1, ?_, ?_, e3, ?_⟩
              · have : scan a (92 :: e :: r2) =
                    scan { a with out := a.out ++ [e], escape := false, converted := true } r2 := by
                  simp [scan, scanStep, hb, he, he124, hok]
                rw [this]
                exact e1
              · rw [e2]; simp
              · rw [e4]; simp [refConverts_cons]
          · simp only [refDecode_cons, hc, h92, if_false, Bool.false_eq_true] at href
            obtain ⟨t, ht, hout⟩ := Option.map_eq_some'.mp href
            subst hout
            obtain ⟨a1, e1, e2, e3, e4⟩ := ih r hr false t
              { a with out := a.out ++ [c] } ht hb he hp
            refine ⟨a1, ?_, ?_, e3, ?_⟩
            · have : scanStep a c = some { a with out := a.out ++ [c] } := by
                simp [scanStep, hb, he, hc, h92]
              simp only [scan, this]
              exact e1
            · rw [e2]; simp
            · rw [e4]; simp [refConverts_cons, hc, h92]

theorem scanStep_bin_parity (a a1 : ScanState) (c : Nat) (h : scanStep a c = some a1)
    (hinv : a.bin = true ↔ a.bin_count % 2 = 1) : a1.bin = true ↔ a1.bin_count % 2 = 1 := by
  unfold scanStep at h
  split_ifs at h
  all_goals simp only [Option.some.injEq] at h
  all_goals subst h
  all_goals try exact hinv
  cases hb : a.bin <;> simp [hb] at hinv ⊢ <;> omega

/-- The scan is inside a hex group exactly when it has counted an odd number of `|`. -/
theorem scan_bin_parity (l : List Nat) :
    ∀ (a a1 : ScanState), scan a l = some a1 → (a.bin = true ↔ a.bin_count % 2 = 1) →
      (a1.bin = true ↔ a1.bin_count % 2 = 1) := by
  induction l with
  | nil =>
    intro a a1 h hinv
    simp only [scan, Option.some.injEq] at h
    subst h
    exact hinv
  | cons c cs ih =>
    intro a a1 h hinv
    simp only [scan] at h
    cases hstep : scanStep a c with
    | none => rw [hstep] at h; simp at h
    | some a2 =>
      rw [hstep] at h
      exact ih a2 a1 h (scanStep_bin_parity a a2 c hstep hinv)

/-- A body without `|`, hex pair or escape is its own reference decoding. -/
theorem refDecode_plain (body : List Nat) :
    ∀ out, 124 ∉ body → refConverts body false = false → refDecode body false = some out →
      out = body := by
  induction body with
  | nil =>
    intro out _ _ h
    simp [refDecode_nil] at h
    exact h
  | cons c r ih =>
    intro out hp hc h
    have hc124 : c ≠ 124 := fun e => hp (by simp [e])
    have hr124 : 124 ∉ r := fun e => hp (by simp [e])
    have hc92 : c ≠ 92 := by
      intro e
      simp [refConverts_cons, hc124, e] at hc
    simp only [refConverts_cons, hc124, hc92, if_false, Bool.false_eq_true] at hc
    simp only [refDecode_cons, hc124, hc92, if_false, Bool.false_eq_true] at h
    obtain ⟨t, ht, hout⟩ := Option.map_eq_some'.mp h
    rw [← hout, ih t hr124 hc ht]

/-- When the 16-bit `slen` is smaller than the run of leading whitespace, the parser
rejects. -/
theorem DoDetect_quoted_cut (N : Nat) (ws : List Nat) (neg : Bool) (body : List Nat)
    (hws : ∀ c ∈ ws, isspace c = true)
    (hcut : (quoted ws neg body).length % 65536 < ws.length) :
    DoDetectUricontentSetup N (quoted ws neg body) = none := by
  have hne : quoted ws neg body ≠ [] := by
    cases neg <;> simp [quoted]
  have htake : (quoted ws neg body).takeWhile isspace = ws := by
    unfold quoted
    rw [List.takeWhile_append_of_pos hws]
    cases neg <;> simp [List.takeWhile_cons, isspace]
  have h := (DoDetect_split N (quoted ws neg body) hne).1
  rw [htake] at h
  exact h hcut

/-! ## Lemmas for the escape, negation and whitespace claims -/

/-- On a body of the grammar below 65536 bytes, with a non-empty reference decoding, and
with no `|` or at least one hex pair or escape, the decoding is the reference decoding. -/
theorem decodeBody_refDecode (flags : Nat) (body out : List Nat) (hlen : body.length < 65536)
    (href : refDecode body false = some out) (hne : out ≠ [])
    (hconv : 124 ∉ body ∨ refConverts body false = true) :
    decodeBody flags body =
      some { content := out, content_len := out.length, flags := flags, depth := 0,
             offset := 0, within := 0, distance := 0, id := 0 } := by
  have hbody : body ≠ [] := by
    intro h
    subst h
    simp [refDecode_nil] at href
    exact hne href
  have h0 : body.length ≠ 0 := fun h => hbody (List.length_eq_zero.mp h)
  rw [decodeBody_eq_scan, Nat.mod_eq_of_lt hlen, List.take_length]
  simp only [h0, if_false]
  obtain ⟨a1, e1, e2, e3, e4⟩ := scan_refDecode body.length body (Nat.le_refl _) false out
    scanInit href rfl rfl rfl
  rw [e1]
  have hpar := scan_bin_parity body scanInit a1 e1 (by simp [scanInit])
  have heven : a1.bin_count % 2 = 0 := by
    have : ¬ (a1.bin_count % 2 = 1) := fun h => by
      have := hpar.mpr h
      rw [e3] at this
      exact Bool.false_ne_true this
    omega
  simp only [scanInit, List.nil_append, Bool.false_or] at e2 e4
  simp only [scanFinish, heven, ne_eq, not_true_eq_false, if_false, e2, e4]
  by_cases hcv : refConverts body false = true
  · simp [hcv]
  · simp only [hcv, Bool.false_eq_true, if_false]
    have hpipe : 124 ∉ body := by
      rcases hconv with h | h
      · exact h
      · exact absurd h hcv
    have hob : out = body := refDecode_plain body out hpipe (by simpa using hcv) href
    subst hob
    simp

theorem unescape_nil : unescape [] = some [] := rfl

theorem unescape_cons (c : Nat) (r : List Nat) :
    unescape (c :: r) =
      if c = 92 then
        match r with
        | [] => none
        | e :: r2 =>
          if e = 58 ∨ e = 59 ∨ e = 92 ∨ e = 34 then (unescape r2).map (fun t => e :: t)
          else none
      else (unescape r).map (fun t => c :: t) := by
  rw [unescape.eq_def]

/-- On a body without `|` the reference decoding is the replacement of the escape pairs. -/
theorem refDecode_unescape :
    ∀ (n : Nat) (body : List Nat), body.length ≤ n → 124 ∉ body →
      refDecode body false = unescape body := by
  intro n
  induction n with
  | zero =>
    intro body hn _
    have hnil : body = [] := List.length_eq_zero.mp (Nat.le_zero.mp hn)
    subst hnil
    rfl
  | succ n ih =>
    intro body hn hp
    cases body with
    | nil => rfl
    | cons c r =>
      have hc : c ≠ 124 := fun e => hp (by simp [e])
      have hr : 124 ∉ r := fun e => hp (by simp [e])
      have hrl : r.length ≤ n := by simpa using hn
      rw [refDecode_cons, unescape_cons]
      simp only [hc, if_false, Bool.false_eq_true]
      by_cases h92 : c = 92
      · simp only [h92, if_true]
        cases r with
        | nil => rfl
        | cons e r2 =>
          have hr2 : 124 ∉ r2 := fun h => hr (by simp [h])
          have hr2l : r2.length ≤ n := by
            simp only [List.length_cons] at hrl
            omega
          simp only [ih r2 hr2l hr2]
      · simp only [h92, if_false, ih r hrl hr]

theorem unescape_ne_nil (body out : List Nat) (h : unescape body = some out)
    (hne : body ≠ []) : out ≠ [] := by
  cases body with
  | nil => exact absurd rfl hne
  | cons c r =>
    rw [unescape_cons] at h
    by_cases h92 : c = 92
    · simp only [h92, if_true] at h
      cases r with
      | nil => simp at h
      | cons e r2 =>
        simp only at h
        split_ifs at h
        obtain ⟨t, _, ht⟩ := Option.map_eq_some'.mp h
        rw [← ht]
        simp
    · simp only [h92, if_false] at h
      obtain ⟨t, _, ht⟩ := Option.map_eq_some'.mp h
      rw [← ht]
      simp

/-- A body without a backslash is its own replacement of escape pairs. -/
theorem unescape_plain (body : List Nat) (h : 92 ∉ body) : unescape body = some body := by
  induction body with
  | nil => rfl
  | cons c r ih =>
    have hc : c ≠ 92 := fun e => h (by simp [e])
    have hr : 92 ∉ r := fun e => h (by simp [e])
    rw [unescape_cons]
    simp [hc, ih hr]

/-- The flag word does not take part in the decoding. -/
theorem decodeBody_flags (f1 f2 : Nat) (str : List Nat) :
    decodeBody f1 str = (decodeBody f2 str).map (fun cd => { cd with flags := f1 }) := by
  unfold decodeBody
  simp only
  split_ifs with h0
  · rfl
  · cases decodeFrom (decodeInit str) 0 (strlen str % 65536) with
    | none => rfl
    | some st =>
      simp only
      split_ifs <;> rfl

/-- The quote checks look at the text from the position on only. -/
theorem parseQuoted_shift (flags : Nat) (pre r : List Nat) (k : Nat) :
    parseQuoted flags (pre ++ r) (pre.length + k) = parseQuoted flags r k := by
  have h0 : charAt (pre ++ r) (pre.length + k) = charAt r k := charAt_append_right pre r k
  have h1 : (pre ++ r).drop (pre.length + k) = r.drop k := by
    rw [← List.drop_drop]
    simp
  have h4 : ((pre ++ r).drop (pre.length + k + 1)).take (strlen (pre ++ r) - (pre.length + k) - 2) =
      (r.drop (k + 1)).take (strlen r - k - 2) := by
    have e1 : (pre ++ r).drop (pre.length + k + 1) = r.drop (k + 1) := by
      rw [Nat.add_assoc, ← List.drop_drop]
      simp
    have e2 : strlen (pre ++ r) - (pre.length + k) - 2 = strlen r - k - 2 := by
      simp only [strlen, List.length_append]
      omega
    rw [e1, e2]
  unfold parseQuoted
  rw [h0, h1, h4]
  by_cases hq : charAt r k = 34
  · have hk : k < r.length := by
      by_contra hge
      unfold charAt at hq
      rw [List.getD_eq_default _ _ (by omega)] at hq
      exact absurd hq (by decide)
    have h3 : charAt (pre ++ r) (pre.length + k + strlen (r.drop k) - 1) =
        charAt r (k + strlen (r.drop k) - 1) := by
      have e : pre.length + k + strlen (r.drop k) - 1 =
          pre.length + (k + strlen (r.drop k) - 1) := by
        simp only [strlen, List.length_drop]
        omega
      rw [e, charAt_append_right]
    rw [h3]
  · simp [hq]

theorem skipSpaces_nonspace (temp : List Nat) (slen fuel pos : Nat)
    (h : isspace (charAt temp pos) = false) : skipSpaces temp slen fuel pos = pos := by
  cases fuel with
  | zero => rfl
  | succ f => simp [skipSpaces, h]

/-- The parser on an input shorter than 65536 bytes looks only at what follows the leading
whitespace. -/
theorem DoDetect_short (N : Nat) (s : List Nat) (hlen : s.length < 65536) :
    DoDetectUricontentSetup N s =
      if charAt (s.dropWhile isspace) 0 = 33 then
        parseQuoted (0 ||| N) (s.dropWhile isspace) 1
      else parseQuoted 0 (s.dropWhile isspace) 0 := by
  by_cases hs : s = []
  · subst hs
    simp [DoDetectUricontentSetup, strlen, charAt, parseQuoted]
  have hsplit : s.takeWhile isspace ++ s.dropWhile isspace = s := List.takeWhile_append_dropWhile _ _
  have htl : (s.takeWhile isspace).length ≤ s.length := by
    have := congrArg List.length hsplit
    simp only [List.length_append] at this
    omega
  rw [(DoDetect_split N s hs).2 (by rw [Nat.mod_eq_of_lt hlen]; exact htl)]
  have e0 := parseQuoted_shift 0 (s.takeWhile isspace) (s.dropWhile isspace) 0
  have e1 := parseQuoted_shift (0 ||| N) (s.takeWhile isspace) (s.dropWhile isspace) 1
  rw [hsplit] at e0 e1
  simp only [Nat.add_zero] at e0
  by_cases h33 : charAt (s.dropWhile isspace) 0 = 33
  · have hpos : 0 < (s.dropWhile isspace).length := by
      by_contra hge
      unfold charAt at h33
      rw [List.getD_eq_default _ _ (by omega)] at h33
      exact absurd h33 (by decide)
    have hlt : (s.takeWhile isspace).length + 1 < 65536 := by
      have := congrArg List.length hsplit
      simp only [List.length_append] at this
      omega
    rw [if_pos h33, if_pos h33, Nat.mod_eq_of_lt hlt, e1]
  · rw [if_neg h33, if_neg h33, e0]

/-! ## Lemmas for the spaces inside a hex group -/

/-- Inside a hex group the scan passes over a run of spaces. -/
theorem scan_spaces (k : Nat) (l : List Nat) :
    ∀ (a : ScanState), a.bin = true → scan a (List.replicate k 32 ++ l) = scan a l := by
  induction k with
  | zero => intro a _; simp
  | succ k ih =>
    intro a hb
    have hstep : scanStep a 32 = some a := by
      simp [scanStep, hb, isHexChar, isdigit]
    rw [List.replicate_succ, List.cons_append]
    simp only [scan, hstep]
    exact ih a hb

/-- Inside a hex group, a sequence of pairs of hex digits with spaces after each pair
writes the bytes of the pairs and leaves the group open. -/
theorem scan_spaced (items : List ((Nat × Nat) × Nat))
    (hps : ∀ it ∈ items, isHexChar it.1.1 = true ∧ isHexChar it.1.2 = true) :
    ∀ (a : ScanState), a.bin = true → a.escape = false → a.binpos = 0 →
      ∃ a1, scan a (spacedText items) = some a1 ∧
        a1.out = a.out ++ pairBytes (items.map Prod.fst) ∧
        a1.bin = true ∧ a1.escape = false ∧ a1.binpos = 0 ∧ a1.bin_count = a.bin_count ∧
        a1.converted = (a.converted || !items.isEmpty) := by
  induction items with
  | nil =>
    intro a hb he hp
    exact ⟨a, rfl, by simp [pairBytes], hb, he, hp, rfl, by simp⟩
  | cons it items ih =>
    intro a hb he hp
    have hp1 := hps it (by simp)
    have hrest : ∀ q ∈ items, isHexChar q.1.1 = true ∧ isHexChar q.1.2 = true :=
      fun q hq => hps q (by simp [hq])
    obtain ⟨a1, e1, e2, e3, e4, e5, e6, e7⟩ :=
      ih hrest { a with binstr0 := it.1.1, binstr1 := it.1.2, binpos := 0,
                        out := a.out ++ [16 * hexVal it.1.1 + hexVal it.1.2],
                        converted := true }
        hb he rfl
    refine ⟨a1, ?_, ?_, e3, e4, e5, e6, ?_⟩
    · simp only [spacedText]
      rw [scan_pair a it.1.1 it.1.2 hp1.1 hp1.2 hb he hp]
      rw [scan_spaces it.2 (spacedText items)
        { a with binstr0 := it.1.1, binstr1 := it.1.2, binpos := 0,
                 out := a.out ++ [16 * hexVal it.1.1 + hexVal it.1.2], converted := true } hb]
      exact e1
    · rw [e2]
      simp [pairBytes]
    · rw [e7]
      simp

theorem spacedText_length (items : List ((Nat × Nat) × Nat)) :
    (spacedText items).length = 2 * items.length + (items.map Prod.snd).sum := by
  induction items with
  | nil => rfl
  | cons it items ih =>
    simp only [spacedText, List.length_cons, List.length_append, List.length_replicate, ih,
      List.map_cons, List.sum_cons]
    omega

/-- The text without spaces is the spaced text with no space after any pair. -/
theorem spacedText_zero (ps : List (Nat × Nat)) :
    spacedText (ps.map (fun p => (p, 0))) = pairText ps := by
  induction ps with
  | nil => rfl
  | cons p ps ih => simp [spacedText, pairText, ih]

/-- The decoding of one hex group of pairs with spaces after the pairs, below 65536
bytes: the bytes of the pairs. -/
theorem decodeBody_spaced (flags : Nat) (items : List ((Nat × Nat) × Nat))
    (hne : items ≠ [])
    (hlen : (124 :: (spacedText items ++ [124])).length < 65536)
    (hps : ∀ it ∈ items, isHexChar it.1.1 = true ∧ isHexChar it.1.2 = true) :
    decodeBody flags (124 :: (spacedText items ++ [124])) =
      some { content := pairBytes (items.map Prod.fst), content_len := items.length,
             flags := flags, depth := 0, offset := 0, within := 0, distance := 0, id := 0 } := by
  rw [decodeBody_eq_scan, Nat.mod_eq_of_lt hlen, List.take_length]
  have h0 : (124 :: (spacedText items ++ [124])).length ≠ 0 := by simp
  simp only [h0, if_false]
  obtain ⟨a1, e1, e2, e3, e4, e5, e6, e7⟩ := scan_spaced items hps
    { scanInit with bin_count := 1, bin := true } rfl rfl rfl
  have hscan : scan scanInit (124 :: (spacedText items ++ [124])) =
      some { a1 with bin_count := a1.bin_count + 1, bin := !a1.bin } := by
    have : scan scanInit (124 :: (spacedText items ++ [124])) =
        scan { scanInit with bin_count := 1, bin := true } (spacedText items ++ [124]) := by
      simp [scan, scanStep, scanInit]
    rw [this, scan_append, e1]
    simp [scan, scanStep]
  rw [hscan]
  have hconv : a1.converted = true := by
    rw [e7]
    cases items with
    | nil => exact absurd rfl hne
    | cons p ps => simp
  simp [scanFinish, e6, hconv, e2, scanInit, pairBytes]

/-! ## Lemmas for the signature and the chain of nodes -/

theorem lor_land_self (x a : Nat) : (x ||| a) &&& a = a := by
  apply Nat.eq_of_testBit_eq
  intro i
  simp only [Nat.testBit_and, Nat.testBit_or]
  cases x.testBit i <;> cases a.testBit i <;> rfl

/-- The keyword setup on a content string that parses, for a signature that is not bound
to DCERPC. -/
theorem DetectUricontentSetup_of_some {σ : Type} (getId : σ → DetectContentData → Nat × σ)
    (N A : Nat) (de_ctx : σ) (s : Signature) (str : List Nat) (cd : DetectContentData)
    (hd : s.alproto ≠ AppProto.ALPROTO_DCERPC)
    (h : DoDetectUricontentSetup N str = some cd) :
    DetectUricontentSetup getId N A de_ctx s str =
      if s.alproto ≠ AppProto.ALPROTO_UNKNOWN ∧ s.alproto ≠ AppProto.ALPROTO_HTTP then
        (-1, (getId de_ctx cd).2, { s with flags := s.flags ||| A })
      else
        (0, (getId de_ctx cd).2,
          SigMatchAppendUricontent
            { s with flags := s.flags ||| A, alproto := AppProto.ALPROTO_HTTP }
            { type := SigMatchType.DETECT_URICONTENT,
              ctx := some { cd with id := (getId de_ctx cd).1 } }) := by
  unfold DetectUricontentSetup
  rw [h]
  simp only [hd, if_false]

/-- The loop of `DetectUricontentGetLastPattern` passes over the nodes of other types. -/
theorem skipToUricontent_append (pre l : List SigMatch)
    (hpre : ∀ m ∈ pre, m.type ≠ SigMatchType.DETECT_URICONTENT) :
    skipToUricontent (pre ++ l) = skipToUricontent l := by
  induction pre with
  | nil => rfl
  | cons m pre ih =>
    have hm : m.type ≠ SigMatchType.DETECT_URICONTENT := hpre m (by simp)
    have hrest : ∀ x ∈ pre, x.type ≠ SigMatchType.DETECT_URICONTENT :=
      fun x hx => hpre x (by simp [hx])
    simp only [List.cons_append, skipToUricontent, hm, ne_eq, not_false_eq_true, if_true]
    exact ih hrest

/-- What the loop of `DetectUricontentGetLastPattern` stops at is a uricontent node, and a
suffix of the chain. -/
theorem skipToUricontent_cons (chain : List SigMatch) (n : SigMatch) (rest : List SigMatch)
    (h : skipToUricontent chain = n :: rest) :
    n.type = SigMatchType.DETECT_URICONTENT ∧
      ∃ pre, chain = pre ++ n :: rest ∧ ∀ m ∈ pre, m.type ≠ SigMatchType.DETECT_URICONTENT := by
  induction chain with
  | nil => simp [skipToUricontent] at h
  | cons m chain ih =>
    simp only [skipToUricontent] at h
    split_ifs at h with hm
    · obtain ⟨h1, pre, h2, h3⟩ := ih h
      refine ⟨h1, m :: pre, by rw [h2]; rfl, ?_⟩
      intro x hx
      rcases List.mem_cons.mp hx with hx | hx
      · rw [hx]; exact hm
      · exact h3 x hx
    · simp only [List.cons.injEq] at h
      obtain ⟨h1, h2⟩ := h
      subst h1
      subst h2
      exact ⟨by simpa using hm, [], rfl, by simp⟩

theorem GetLastPattern_eq (chain : List SigMatch) :
    DetectUricontentGetLastPattern chain =
      match skipToUricontent chain with
      | [] => []
      | found :: prev =>
        match found.ctx with
        | none => []
        | some _ => found :: prev := by
  cases chain with
  | nil => rfl
  | cons m chain => rfl

/-! ## Lemmas for the runtime search -/

theorem toInt32_of_lt (n : Nat) (h : n < 2147483648) : toInt32 n = (n : Int) := by
  unfold toInt32
  have hm : n % 4294967296 = n := Nat.mod_eq_of_lt (by omega)
  rw [hm, if_pos h]

theorem urisFrom_of_le (txs : List (Option HtpTx)) (idx : Nat) (h : txs.length ≤ idx) :
    urisFrom txs idx = [] := by
  unfold urisFrom
  rw [List.drop_eq_nil_of_le h]
  rfl

theorem urisFrom_step (txs : List (Option HtpTx)) (idx : Nat) (h : idx < txs.length) :
    urisFrom txs idx =
      match (txs.getD idx none).bind (fun tx => tx.request_uri_normalized) with
      | none => urisFrom txs (idx + 1)
      | some uri => uri :: urisFrom txs (idx + 1) := by
  unfold urisFrom
  rw [List.drop_eq_getElem_cons h, List.filterMap_cons, List.getD_eq_getElem _ _ h]
  cases (txs[idx].bind fun tx => tx.request_uri_normalized) <;> rfl

theorem list_get_natCast (txs : List (Option HtpTx)) (idx : Nat) :
    list_get txs (idx : Int) = txs.getD idx none := by
  unfold list_get
  have : ¬ ((idx : Int) < 0) := by omega
  simp [this]

/-- The loop over the transactions, from a cursor that is not negative and with the size
of the list, makes the calls of `DoDetectAppLayerUricontentMatch` on the normalized uris
from the cursor on, in order, and adds up what they return. -/
theorem inspectLoop_eq {σ : Type}
    (search : DetectEngineThreadCtx σ → List Nat → Nat → Nat × DetectEngineThreadCtx σ)
    (txs : List (Option HtpTx)) :
    ∀ (fuel idx cnt : Nat) (det_ctx : DetectEngineThreadCtx σ), txs.length ≤ idx + fuel →
      inspectLoop search txs (txs.length : Int) fuel (idx : Int) cnt det_ctx =
        ((matchAll search det_ctx (urisFrom txs idx)).1.foldl addU32 cnt,
         (matchAll search det_ctx (urisFrom txs idx)).2) := by
  intro fuel
  induction fuel with
  | zero =>
    intro idx cnt d h
    rw [urisFrom_of_le txs idx (by omega)]
    rfl
  | succ fuel ih =>
    intro idx cnt d h
    have hcast : (idx : Int) + 1 = ((idx + 1 : Nat) : Int) := by push_cast; rfl
    unfold inspectLoop
    by_cases hlt : idx < txs.length
    · have hlt2 : (idx : Int) < (txs.length : Int) := by omega
      rw [if_pos hlt2, list_get_natCast, urisFrom_step txs idx hlt, hcast]
      cases hg : txs.getD idx none with
      | none =>
        simp only [Option.bind]
        exact ih (idx + 1) cnt d (by omega)
      | some tx =>
        cases hu : tx.request_uri_normalized with
        | none =>
          simp only [Option.bind, hu]
          exact ih (idx + 1) cnt d (by omega)
        | some uri =>
          simp only [Option.bind, hu]
          rw [ih (idx + 1) _ _ (by omega)]
          rfl
    · have hlt2 : ¬ ((idx : Int) < (txs.length : Int)) := by omega
      rw [if_neg hlt2, urisFrom_of_le txs idx (by omega)]
      rfl

theorem addU32_lt (cnt : Nat) (ret : Int) : addU32 cnt ret < 4294967296 := by
  unfold addU32
  omega

/-- Adding values one by one to a `uint32_t` gives their sum modulo 2^32. -/
theorem foldl_addU32 (rets : List Int) :
    ∀ (cnt : Nat), cnt < 4294967296 →
      rets.foldl addU32 cnt = (((cnt : Int) + rets.sum) % 4294967296).toNat := by
  induction rets with
  | nil =>
    intro cnt hc
    simp only [List.foldl_nil, List.sum_nil, Int.add_zero]
    omega
  | cons r rets ih =>
    intro cnt _
    simp only [List.foldl_cons, List.sum_cons]
    rw [ih _ (addU32_lt cnt r)]
    unfold addU32
    have hnn : 0 ≤ ((cnt : Int) + r) % 4294967296 := Int.emod_nonneg _ (by decide)
    rw [Int.toNat_of_nonneg hnn, Int.emod_add_emod, Int.add_assoc]

/-! ## Lemmas for the inspection cursor -/

/-- The inspection with HTTP state and a cursor that is not negative: the calls on the
normalized uris from the cursor on, and the flow with its mutex locked and unlocked. -/
theorem DetectUricontentInspectMpm_run {σ : Type}
    (search : DetectEngineThreadCtx σ → List Nat → Nat → Nat × DetectEngineThreadCtx σ)
    (det_ctx : DetectEngineThreadCtx σ) (f : Flow) (txs : List (Option HtpTx)) (k : Nat)
    (hk : f.inspect_id = (k : Int)) (hsize : txs.length < 2147483648) :
    DetectUricontentInspectMpm search det_ctx f (some ⟨some txs⟩) =
      { cnt := ((matchAll search det_ctx (urisFrom txs k)).1.foldl addU32 0),
        det_ctx := (matchAll search det_ctx (urisFrom txs k)).2,
        flow := { f with m := SCMutexUnlock (SCMutexLock f.m) } } := by
  have hne2 : ¬ ((k : Int) = -1) := by omega
  unfold DetectUricontentInspectMpm
  simp only [Option.bind, toInt32_of_lt _ hsize, hk, hne2, if_false]
  rw [inspectLoop_eq search txs _ k 0 det_ctx (by omega)]

/-- The inspection leaves the flow as it was, but for the mutex. -/
theorem DetectUricontentInspectMpm_flow {σ : Type}
    (search : DetectEngineThreadCtx σ → List Nat → Nat → Nat × DetectEngineThreadCtx σ)
    (det_ctx : DetectEngineThreadCtx σ) (f : Flow) (htp_state : Option HtpState) :
    (DetectUricontentInspectMpm search det_ctx f htp_state).flow =
      { f with m := SCMutexUnlock (SCMutexLock f.m) } := by
  unfold DetectUricontentInspectMpm
  cases htp_state.bind (fun h => h.connp) with
  | none => rfl
  | some txs =>
    simp only
    split_ifs <;> rfl

/-- The count and the thread context the inspection leaves do not depend on the mutex of
the flow. -/
theorem DetectUricontentInspectMpm_mutex {σ : Type}
    (search : DetectEngineThreadCtx σ → List Nat → Nat → Nat × DetectEngineThreadCtx σ)
    (det_ctx : DetectEngineThreadCtx σ) (f : Flow) (m : SCMutex) (htp_state : Option HtpState) :
    (DetectUricontentInspectMpm search det_ctx { f with m := m } htp_state).cnt =
      (DetectUricontentInspectMpm search det_ctx f htp_state).cnt ∧
    (DetectUricontentInspectMpm search det_ctx { f with m := m } htp_state).det_ctx =
      (DetectUricontentInspectMpm search det_ctx f htp_state).det_ctx := by
  unfold DetectUricontentInspectMpm
  cases htp_state.bind (fun h => h.connp) with
  | none => exact ⟨rfl, rfl⟩
  | some txs =>
    simp only
    split_ifs <;> exact ⟨rfl, rfl⟩

/-! ## Lemmas for the fine-grained filters -/

theorem matchLineLoop_ne (line : Int) (m : Bool) (ls : List Int) (h : ls ≠ []) :
    matchLineLoop line m ls = matchLineLoop line false ls := by
  cases ls with
  | nil => exact absurd rfl h
  | cons l rest => rfl

theorem matchLineLoop_false (line : Int) (ls : List Int) :
    matchLineLoop line false ls = true ↔ ∃ l ∈ ls, l = -1 ∨ l = line := by
  induction ls with
  | nil => simp [matchLineLoop]
  | cons l rest ih =>
    rw [matchLineLoop]
    by_cases h1 : l = -1
    · simp [h1]
    · by_cases h2 : line = l
      · simp [h1, h2]
      · have h3 : ¬ l = line := fun h => h2 h.symm
        simp [h1, h2, h3, ih]

theorem matchFuncLoop_ne (function : List Nat) (line : Int) (m : Bool)
    (fs : List SCLogFGFilterFunc) (h : fs ≠ []) :
    matchFuncLoop function line m fs = matchFuncLoop function line false fs := by
  cases fs with
  | nil => exact absurd rfl h
  | cons l rest => rfl

theorem nameMatch_iff (name : List Nat) (stored : Option (List Nat)) :
    (match stored with
      | some n => name == n
      | none => true) = true ↔ (stored = none ∨ stored = some name) := by
  cases stored with
  | none => simp
  | some n =>
    simp only [beq_iff_eq, Option.some.injEq, false_or, reduceCtorEq]
    exact eq_comm

theorem matchFuncLoop_false (function : List Nat) (line : Int) (fs : List SCLogFGFilterFunc)
    (hv : ∀ fn ∈ fs, fn.line ≠ []) :
    matchFuncLoop function line false fs = true ↔
      ∃ fn ∈ fs, (fn.func = none ∨ fn.func = some function) ∧
        ∃ l ∈ fn.line, l = -1 ∨ l = line := by
  induction fs with
  | nil => simp [matchFuncLoop]
  | cons fn rest ih =>
    have ih2 := ih (fun g hg => hv g (List.mem_cons_of_mem _ hg))
    have hl := hv fn (List.mem_cons_self _ _)
    rw [matchFuncLoop, matchLineLoop_ne line true fn.line hl]
    have hn := nameMatch_iff function fn.func
    have hm := matchLineLoop_false line fn.line
    simp only [List.exists_mem_cons_iff] at *
    by_cases c1 : (match fn.func with
      | some n => function == n
      | none => true) = true
    · rw [if_pos c1]
      by_cases c2 : matchLineLoop line false fn.line = true
      · rw [if_pos c2]
        exact ⟨fun _ => Or.inl ⟨hn.1 c1, hm.1 c2⟩, fun _ => rfl⟩
      · rw [if_neg c2, ih2]
        constructor
        · exact fun h => Or.inr h
        · rintro (h | h)
          · exact absurd (hm.2 h.2) c2
          · exact h
    · rw [if_neg c1, ih2]
      constructor
      · exact fun h => Or.inr h
      · rintro (h | h)
        · exact absurd (hn.2 h.1) c1
        · exact h

theorem matchFileLoop_iff (file function : List Nat) (line : Int)
    (l : List SCLogFGFilterFile) (hv : ValidFG l) :
    matchFileLoop file function line l = true ↔
      ∃ f ∈ l, (f.file = none ∨ f.file = some file) ∧
        ∃ fn ∈ f.func, (fn.func = none ∨ fn.func = some function) ∧
          ∃ x ∈ fn.line, x = -1 ∨ x = line := by
  induction l with
  | nil => simp [matchFileLoop]
  | cons f rest ih =>
    have ih2 := ih (fun g hg => hv g (List.mem_cons_of_mem _ hg))
    have hf := hv f (List.mem_cons_self _ _)
    rw [matchFileLoop, matchFuncLoop_ne function line true f.func hf.1]
    have hn := nameMatch_iff file f.file
    have hm := matchFuncLoop_false function line f.func hf.2
    simp only [List.exists_mem_cons_iff]
    by_cases c1 : (match f.file with
      | some n => file == n
      | none => true) = true
    · rw [if_pos c1]
      by_cases c2 : matchFuncLoop function line false f.func = true
      · rw [if_pos c2]
        exact ⟨fun _ => Or.inl ⟨hn.1 c1, hm.1 c2⟩, fun _ => rfl⟩
      · rw [if_neg c2, ih2]
        constructor
        · exact fun h => Or.inr h
        · rintro (h | h)
          · exact absurd (hm.2 h.2) c2
          · exact h
    · rw [if_neg c1, ih2]
      constructor
      · exact fun h => Or.inr h
      · rintro (h | h)
        · exact absurd (hn.2 h.1) c1
        · exact h

theorem matchFileLoop_triple (file function : List Nat) (line : Int)
    (l : List SCLogFGFilterFile) (hv : ValidFG l) :
    matchFileLoop file function line l = true ↔
      ∃ t, HasTriple l t ∧ FGFilter.matches t file function line := by
  rw [matchFileLoop_iff file function line l hv]
  constructor
  · rintro ⟨f, hf, h1, fn, hfn, h2, x, hx, h3⟩
    exact ⟨(f.file, fn.func, x), ⟨f, hf, rfl, fn, hfn, rfl, hx⟩, h1, h2, h3⟩
  · rintro ⟨t, ⟨f, hf, e1, fn, hfn, e2, hx⟩, h1, h2, h3⟩
    exact ⟨f, hf, e1 ▸ h1, fn, hfn, e2 ▸ h2, t.2.2, hx, h3⟩

theorem nameFound_iff (name stored : Option (List Nat)) :
    nameFound name stored = true ↔ stored = name := by
  cases name with
  | none => cases stored <;> simp [nameFound]
  | some a =>
    cases stored with
    | none => simp [nameFound]
    | some b =>
      simp only [nameFound, beq_iff_eq, Option.some.injEq]
      exact eq_comm

theorem addLineLoop_mem (line : Int) (ls : List Int) (x : Int) :
    x ∈ addLineLoop line ls ↔ x ∈ ls ∨ x = line := by
  induction ls with
  | nil => simp [addLineLoop]
  | cons l rest ih =>
    rw [addLineLoop]
    by_cases h : line = l
    · rw [if_pos h]
      constructor
      · exact fun h1 => Or.inl h1
      · rintro (h1 | h1)
        · exact h1
        · rw [h1, h]; exact List.mem_cons_self _ _
    · rw [if_neg h]
      simp only [List.mem_cons, ih]
      tauto

theorem addLineLoop_ne (line : Int) (ls : List Int) : addLineLoop line ls ≠ [] := by
  cases ls with
  | nil => simp [addLineLoop]
  | cons l rest =>
    rw [addLineLoop]
    split_ifs <;> simp

theorem addFuncLoop_ne (function : Option (List Nat)) (line : Int)
    (fs : List SCLogFGFilterFunc) : addFuncLoop function line fs ≠ [] := by
  cases fs with
  | nil => simp [addFuncLoop]
  | cons l rest =>
    rw [addFuncLoop]
    split_ifs <;> simp

theorem addFuncLoop_valid (function : Option (List Nat)) (line : Int)
    (fs : List SCLogFGFilterFunc) (hv : ∀ fn ∈ fs, fn.line ≠ []) :
    ∀ fn ∈ addFuncLoop function line fs, fn.line ≠ [] := by
  induction fs with
  | nil =>
    intro fn hfn
    simp only [addFuncLoop, List.mem_singleton] at hfn
    rw [hfn]; simp
  | cons g rest ih =>
    intro fn hfn
    rw [addFuncLoop] at hfn
    by_cases c : nameFound function g.func = true
    · rw [if_pos c, List.mem_cons] at hfn
      rcases hfn with h | h
      · rw [h]; exact addLineLoop_ne line g.line
      · exact hv fn (List.mem_cons_of_mem _ h)
    · rw [if_neg c, List.mem_cons] at hfn
      rcases hfn with h | h
      · rw [h]; exact hv g (List.mem_cons_self _ _)
      · exact ih (fun k hk => hv k (List.mem_cons_of_mem _ hk)) fn h

theorem addFileLoop_valid (file function : Option (List Nat)) (line : Int)
    (l : List SCLogFGFilterFile) (hv : ValidFG l) :
    ValidFG (addFileLoop file function line l) := by
  induction l with
  | nil =>
    intro f hf
    simp only [addFileLoop, List.mem_singleton] at hf
    rw [hf]; simp
  | cons g rest ih =>
    intro f hf
    rw [addFileLoop] at hf
    by_cases c : nameFound file g.file = true
    · rw [if_pos c, List.mem_cons] at hf
      rcases hf with h | h
      · rw [h]
        exact ⟨addFuncLoop_ne function line g.func,
          addFuncLoop_valid function line g.func (hv g (List.mem_cons_self _ _)).2⟩
      · exact hv f (List.mem_cons_of_mem _ h)
    · rw [if_neg c, List.mem_cons] at hf
      rcases hf with h | h
      · rw [h]; exact hv g (List.mem_cons_self _ _)
      · exact ih (fun k hk => hv k (List.mem_cons_of_mem _ hk)) f h

theorem addFuncLoop_has (function : Option (List Nat)) (line : Int)
    (fs : List SCLogFGFilterFunc) (a : Option (List Nat)) (x : Int) :
    (∃ fn ∈ addFuncLoop function line fs, fn.func = a ∧ x ∈ fn.line) ↔
      ((∃ fn ∈ fs, fn.func = a ∧ x ∈ fn.line) ∨ (a = function ∧ x = line)) := by
  induction fs with
  | nil =>
    simp only [addFuncLoop, List.mem_singleton, exists_eq_left, List.not_mem_nil, false_and,
      exists_false, false_or]
    constructor
    · rintro ⟨h1, h2⟩; exact ⟨h1.symm, h2⟩
    · rintro ⟨h1, h2⟩; exact ⟨h1.symm, h2⟩
  | cons g rest ih =>
    rw [addFuncLoop]
    by_cases c : nameFound function g.func = true
    · rw [if_pos c]
      have e := (nameFound_iff function g.func).1 c
      simp only [List.exists_mem_cons_iff, addLineLoop_mem]
      constructor
      · rintro (⟨h1, h2 | h2⟩ | h)
        · exact Or.inl (Or.inl ⟨h1, h2⟩)
        · exact Or.inr ⟨by rw [← h1, e], h2⟩
        · exact Or.inl (Or.inr h)
      · rintro ((⟨h1, h2⟩ | h) | ⟨h1, h2⟩)
        · exact Or.inl ⟨h1, Or.inl h2⟩
        · exact Or.inr h
        · exact Or.inl ⟨by rw [h1, e], Or.inr h2⟩
    · rw [if_neg c]
      simp only [List.exists_mem_cons_iff, ih]
      exact or_assoc.symm

theorem addFileLoop_has (file function : Option (List Nat)) (line : Int)
    (l : List SCLogFGFilterFile) (t : FGFilter) :
    HasTriple (addFileLoop file function line l) t ↔
      (HasTriple l t ∨ t = (file, function, line)) := by
  obtain ⟨a, b, x⟩ := t
  unfold HasTriple
  simp only [Prod.mk.injEq]
  induction l with
  | nil =>
    simp only [addFileLoop, List.mem_singleton, exists_eq_left, List.not_mem_nil, false_and,
      exists_false, false_or]
    constructor
    · rintro ⟨h1, h2, h3⟩; exact ⟨h1.symm, h2.symm, h3⟩
    · rintro ⟨h1, h2, h3⟩; exact ⟨h1.symm, h2.symm, h3⟩
  | cons g rest ih =>
    rw [addFileLoop]
    by_cases c : nameFound file g.file = true
    · rw [if_pos c]
      have e := (nameFound_iff file g.file).1 c
      simp only [List.exists_mem_cons_iff, addFuncLoop_has]
      constructor
      · rintro (⟨h1, h2 | h2⟩ | h)
        · exact Or.inl (Or.inl ⟨h1, h2⟩)
        · exact Or.inr ⟨by rw [← h1, e], h2⟩
        · exact Or.inl (Or.inr h)
      · rintro ((⟨h1, h2⟩ | h) | ⟨h1, h2⟩)
        · exact Or.inl ⟨h1, Or.inl h2⟩
        · exact Or.inr h
        · exact Or.inl ⟨by rw [h1, e], Or.inr h2⟩
    · rw [if_neg c]
      simp only [List.exists_mem_cons_iff, ih]
      exact or_assoc.symm

theorem validFG_nil_iff (l : List SCLogFGFilterFile) (hv : ValidFG l) :
    l = [] ↔ ∀ t, ¬ HasTriple l t := by
  constructor
  · rintro rfl t ⟨f, hf, _⟩
    exact absurd hf (List.not_mem_nil _)
  · intro h
    cases l with
    | nil => rfl
    | cons f rest =>
      exfalso
      have hf := hv f (List.mem_cons_self _ _)
      obtain ⟨fn, hfn⟩ := List.exists_mem_of_ne_nil _ hf.1
      obtain ⟨x, hx⟩ := List.exists_mem_of_ne_nil _ (hf.2 fn hfn)
      exact h (f.file, fn.func, x) ⟨f, List.mem_cons_self _ _, rfl, fn, hfn, rfl, hx⟩

theorem addedFilters_snoc (ops : List (SCLogFilterType × FGFilter))
    (op : SCLogFilterType × FGFilter) :
    addedFilters (ops ++ [op]) =
      (SCLogAddFGFilter 1 (addedFilters ops) op.2.1 op.2.2.1 op.2.2.2 op.1).2 := by
  simp [addedFilters, List.foldl_append]

theorem FGFilters.get_set (fs : FGFilters) (lt lt2 : SCLogFilterType)
    (l : List SCLogFGFilterFile) :
    (fs.set lt l).get lt2 = if lt2 = lt then l else fs.get lt2 := by
  cases lt <;> cases lt2 <;> simp [FGFilters.set, FGFilters.get]

theorem SCLogAddFGFilter_get (fs : FGFilters) (file function : Option (List Nat))
    (line : Int) (lt lt2 : SCLogFilterType) :
    (SCLogAddFGFilter 1 fs file function line lt).2.get lt2 =
      if lt2 = lt ∧ FGFilter.accepted (file, function, line) then
        addFileLoop file function line (fs.get lt) else fs.get lt2 := by
  unfold SCLogAddFGFilter FGFilter.accepted
  by_cases c : file = none ∧ function = none ∧ line < 0
  · simp [c]
  · simp only [ne_eq, not_true_eq_false, if_false, if_neg c, FGFilters.get_set, c,
      not_false_eq_true, and_true]

theorem addedFilters_valid (ops : List (SCLogFilterType × FGFilter)) (lt : SCLogFilterType) :
    ValidFG ((addedFilters ops).get lt) := by
  induction ops using List.reverseRecOn generalizing lt with
  | nil =>
    intro f hf
    cases lt <;> simp [addedFilters, FGFilters.get] at hf
  | append_singleton ops op ih =>
    rw [addedFilters_snoc, SCLogAddFGFilter_get]
    split_ifs with c
    · exact addFileLoop_valid _ _ _ _ (ih op.1)
    · exact ih lt

theorem addedFilters_has (ops : List (SCLogFilterType × FGFilter)) (lt : SCLogFilterType)
    (t : FGFilter) :
    HasTriple ((addedFilters ops).get lt) t ↔ ((lt, t) ∈ ops ∧ FGFilter.accepted t) := by
  induction ops using List.reverseRecOn generalizing lt with
  | nil =>
    cases lt <;> simp [addedFilters, FGFilters.get, HasTriple]
  | append_singleton ops op ih =>
    obtain ⟨lt1, t1⟩ := op
    rw [addedFilters_snoc, SCLogAddFGFilter_get]
    simp only [List.mem_append, List.mem_singleton, Prod.mk.injEq]
    split_ifs with c
    · obtain ⟨c1, c2⟩ := c
      subst c1
      rw [addFileLoop_has, ih]
      constructor
      · rintro (h | h)
        · exact ⟨Or.inl h.1, h.2⟩
        · rw [h]; exact ⟨Or.inr ⟨rfl, rfl⟩, c2⟩
      · rintro ⟨h | h, h2⟩
        · exact Or.inl ⟨h, h2⟩
        · exact Or.inr h.2
    · rw [ih]
      constructor
      · rintro ⟨h1, h2⟩
        exact ⟨Or.inl h1, h2⟩
      · rintro ⟨h | h, h2⟩
        · exact ⟨h, h2⟩
        · exfalso
          apply c
          refine ⟨h.1, ?_⟩
          rw [← h.2]; exact h2

theorem SCLogMatchFGFilter_eq (fs : FGFilters) (file function : List Nat) (line : Int)
    (lt : SCLogFilterType) :
    SCLogMatchFGFilter 1 fs file function line lt =
      if fs.get lt = [] then 1
      else if matchFileLoop file function line (fs.get lt) then
        (if lt = SCLogFilterType.SC_LOG_FILTER_WL then 1 else 0)
      else (if lt = SCLogFilterType.SC_LOG_FILTER_WL then 0 else 1) := by
  unfold SCLogMatchFGFilter
  cases h : fs.get lt with
  | nil => simp
  | cons f rest => simp

theorem addedFilters_nil_iff (ops : List (SCLogFilterType × FGFilter))
    (lt : SCLogFilterType) :
    (addedFilters ops).get lt = [] ↔ ∀ t, (lt, t) ∈ ops → ¬ FGFilter.accepted t := by
  rw [validFG_nil_iff _ (addedFilters_valid ops lt)]
  constructor
  · intro h t ht ha
    exact h t ((addedFilters_has ops lt t).2 ⟨ht, ha⟩)
  · intro h t ht
    have h2 := (addedFilters_has ops lt t).1 ht
    exact h t h2.1 h2.2

theorem matchFileLoop_added (ops : List (SCLogFilterType × FGFilter))
    (lt : SCLogFilterType) (file function : List Nat) (line : Int) :
    matchFileLoop file function line ((addedFilters ops).get lt) = true ↔
      ∃ t, (lt, t) ∈ ops ∧ FGFilter.accepted t ∧ FGFilter.matches t file function line := by
  rw [matchFileLoop_triple _ _ _ _ (addedFilters_valid ops lt)]
  constructor
  · rintro ⟨t, h1, h2⟩
    have h3 := (addedFilters_has ops lt t).1 h1
    exact ⟨t, h3.1, h3.2, h2⟩
  · rintro ⟨t, h1, h2, h3⟩
    exact ⟨t, (addedFilters_has ops lt t).2 ⟨h1, h2⟩, h3⟩

theorem matchFileLoop_nil (file function : List Nat) (line : Int) :
    matchFileLoop file function line [] = false := rfl

theorem SCLogMatchFGFilterWL_eq (fs : FGFilters) (file function : List Nat) (line : Int) :
    SCLogMatchFGFilterWL 1 fs file function line =
      if fs.wl = [] then 1
      else if matchFileLoop file function line fs.wl = true then 1 else 0 := by
  unfold SCLogMatchFGFilterWL
  rw [SCLogMatchFGFilter_eq]
  simp [FGFilters.get]

theorem SCLogMatchFGFilterBL_eq (fs : FGFilters) (file function : List Nat) (line : Int) :
    SCLogMatchFGFilterBL 1 fs file function line =
      if fs.bl = [] then 1
      else if matchFileLoop file function line fs.bl = true then 0 else 1 := by
  unfold SCLogMatchFGFilterBL
  rw [SCLogMatchFGFilter_eq]
  simp [FGFilters.get]

/-! ## Lemmas for the pattern-id store -/

theorem lookup_mem (ns : PatternNamespace) (c : List Nat)
    (l : List (PatternNamespace × List Nat × Nat)) (id : Nat)
    (h : MpmPatternIdStore.lookup ns c l = some id) : (ns, c, id) ∈ l := by
  induction l with
  | nil => simp [MpmPatternIdStore.lookup] at h
  | cons e rest ih =>
    rw [MpmPatternIdStore.lookup] at h
    by_cases c1 : e.1 = ns ∧ e.2.1 = c
    · rw [if_pos c1] at h
      obtain ⟨e1, e2, e3⟩ := e
      simp only [Option.some.injEq] at h c1
      rw [c1.1.symm, c1.2.symm, ← h]
      exact List.mem_cons_self _ _
    · rw [if_neg c1] at h
      exact List.mem_cons_of_mem _ (ih h)

theorem lookup_append_some (ns : PatternNamespace) (c : List Nat)
    (l l2 : List (PatternNamespace × List Nat × Nat)) (id : Nat)
    (h : MpmPatternIdStore.lookup ns c l = some id) :
    MpmPatternIdStore.lookup ns c (l ++ l2) = some id := by
  induction l with
  | nil => simp [MpmPatternIdStore.lookup] at h
  | cons e rest ih =>
    rw [MpmPatternIdStore.lookup] at h
    rw [List.cons_append, MpmPatternIdStore.lookup]
    by_cases c1 : e.1 = ns ∧ e.2.1 = c
    · rw [if_pos c1] at h
      rw [if_pos c1, h]
    · rw [if_neg c1] at h
      rw [if_neg c1]
      exact ih h

theorem lookup_append_none (ns : PatternNamespace) (c : List Nat)
    (l l2 : List (PatternNamespace × List Nat × Nat))
    (h : MpmPatternIdStore.lookup ns c l = none) :
    MpmPatternIdStore.lookup ns c (l ++ l2) = MpmPatternIdStore.lookup ns c l2 := by
  induction l with
  | nil => rfl
  | cons e rest ih =>
    rw [MpmPatternIdStore.lookup] at h
    rw [List.cons_append, MpmPatternIdStore.lookup]
    by_cases c1 : e.1 = ns ∧ e.2.1 = c
    · rw [if_pos c1] at h
      exact absurd h (by simp)
    · rw [if_neg c1] at h
      rw [if_neg c1]
      exact ih h

theorem MpmPatternGetId_of_lookup (ns : PatternNamespace) (ht : MpmPatternIdStore)
    (c : List Nat) (id : Nat) (h : MpmPatternIdStore.lookup ns c ht.entries = some id) :
    MpmPatternGetId ns ht c = (id, ht) := by
  unfold MpmPatternGetId
  rw [h]

theorem MpmPatternGetId_of_none (ns : PatternNamespace) (ht : MpmPatternIdStore)
    (c : List Nat) (h : MpmPatternIdStore.lookup ns c ht.entries = none) :
    MpmPatternGetId ns ht c =
      (ht.max_id, ⟨ht.entries ++ [(ns, c, ht.max_id)], ht.max_id + 1⟩) := by
  unfold MpmPatternGetId
  rw [h]

theorem MpmPatternGetId_entries (ns : PatternNamespace) (ht : MpmPatternIdStore)
    (c : List Nat) :
    ∃ extra, (MpmPatternGetId ns ht c).2.entries = ht.entries ++ extra := by
  cases h : MpmPatternIdStore.lookup ns c ht.entries with
  | some id =>
    rw [MpmPatternGetId_of_lookup ns ht c id h]
    exact ⟨[], by simp⟩
  | none =>
    rw [MpmPatternGetId_of_none ns ht c h]
    exact ⟨[(ns, c, ht.max_id)], rfl⟩

theorem MpmPatternGetId_lookup (ns : PatternNamespace) (ht : MpmPatternIdStore)
    (c : List Nat) :
    MpmPatternIdStore.lookup ns c (MpmPatternGetId ns ht c).2.entries =
      some (MpmPatternGetId ns ht c).1 := by
  cases h : MpmPatternIdStore.lookup ns c ht.entries with
  | some id =>
    rw [MpmPatternGetId_of_lookup ns ht c id h]
    exact h
  | none =>
    rw [MpmPatternGetId_of_none ns ht c h]
    simp only []
    rw [lookup_append_none ns c _ _ h]
    simp [MpmPatternIdStore.lookup]

theorem MpmPatternGetId_inv (ns : PatternNamespace) (ht : MpmPatternIdStore)
    (c : List Nat) (hi : StoreInv ht) : StoreInv (MpmPatternGetId ns ht c).2 := by
  cases h : MpmPatternIdStore.lookup ns c ht.entries with
  | some id =>
    rw [MpmPatternGetId_of_lookup ns ht c id h]
    exact hi
  | none =>
    rw [MpmPatternGetId_of_none ns ht c h]
    obtain ⟨h1, h2⟩ := hi
    constructor
    · intro e he
      simp only [List.mem_append, List.mem_singleton] at he
      rcases he with he | he
      · exact Nat.lt_succ_of_lt (h1 e he)
      · rw [he]; exact Nat.lt_succ_self _
    · intro e1 he1 e2 he2 heq
      simp only [List.mem_append, List.mem_singleton] at he1 he2
      rcases he1 with he1 | he1
      · rcases he2 with he2 | he2
        · exact h2 e1 he1 e2 he2 heq
        · exfalso
          have := h1 e1 he1
          rw [he2] at heq
          simp only at heq
          omega
      · rcases he2 with he2 | he2
        · exfalso
          have := h1 e2 he2
          rw [he1] at heq
          simp only at heq
          omega
        · rw [he1, he2]

theorem getIds_cons (call : PatternNamespace × List Nat)
    (calls : List (PatternNamespace × List Nat)) (ht : MpmPatternIdStore) :
    getIds (call :: calls) ht = getIds calls (MpmPatternGetId call.1 ht call.2).2 := rfl

theorem getIds_inv (calls : List (PatternNamespace × List Nat)) (ht : MpmPatternIdStore)
    (hi : StoreInv ht) : StoreInv (getIds calls ht) := by
  induction calls generalizing ht with
  | nil => exact hi
  | cons call calls ih =>
    rw [getIds_cons]
    exact ih _ (MpmPatternGetId_inv _ _ _ hi)

theorem getIds_entries (calls : List (PatternNamespace × List Nat)) (ht : MpmPatternIdStore) :
    ∃ extra, (getIds calls ht).entries = ht.entries ++ extra := by
  induction calls generalizing ht with
  | nil => exact ⟨[], by simp [getIds]⟩
  | cons call calls ih =>
    rw [getIds_cons]
    obtain ⟨x1, h1⟩ := MpmPatternGetId_entries call.1 ht call.2
    obtain ⟨x2, h2⟩ := ih (MpmPatternGetId call.1 ht call.2).2
    exact ⟨x1 ++ x2, by rw [h2, h1, List.append_assoc]⟩

theorem emptyStore_inv : StoreInv emptyStore := by
  constructor
  · intro e he
    simp [emptyStore] at he
  · intro e he
    simp [emptyStore] at he

/-- The id a content is given stays its id after any further requests, and the same bytes
requested from the other namespace are given another id. -/
theorem MpmPatternGetId_stable (ht : MpmPatternIdStore) (hi : StoreInv ht)
    (calls : List (PatternNamespace × List Nat)) (ns : PatternNamespace) (c : List Nat) :
    (MpmPatternGetId ns (getIds calls (MpmPatternGetId ns ht c).2) c).1 =
        (MpmPatternGetId ns ht c).1 ∧
      ∀ ns2, ns2 ≠ ns →
        (MpmPatternGetId ns2 (getIds calls (MpmPatternGetId ns ht c).2) c).1 ≠
          (MpmPatternGetId ns ht c).1 := by
  have hl := MpmPatternGetId_lookup ns ht c
  obtain ⟨extra, hx⟩ := getIds_entries calls (MpmPatternGetId ns ht c).2
  have hi2 := getIds_inv calls _ (MpmPatternGetId_inv ns ht c hi)
  have hl2 : MpmPatternIdStore.lookup ns c
      (getIds calls (MpmPatternGetId ns ht c).2).entries =
      some (MpmPatternGetId ns ht c).1 := by
    rw [hx]
    exact lookup_append_some _ _ _ _ _ hl
  have hmem := lookup_mem _ _ _ _ hl2
  constructor
  · rw [MpmPatternGetId_of_lookup _ _ _ _ hl2]
  · intro ns2 hne
    cases h : MpmPatternIdStore.lookup ns2 c
        (getIds calls (MpmPatternGetId ns ht c).2).entries with
    | some id2 =>
      rw [MpmPatternGetId_of_lookup _ _ _ _ h]
      intro heq
      have hmem2 := lookup_mem _ _ _ _ h
      have := hi2.2 _ hmem2 _ hmem heq
      simp only [Prod.mk.injEq] at this
      exact hne this.1
    | none =>
      rw [MpmPatternGetId_of_none _ _ _ h]
      have := hi2.1 _ hmem
      simp only at this ⊢
      omega

/-! ## Lemmas for the modifier keywords -/

theorem applyModifiers_nil (cd : DetectContentData) : applyModifiers cd [] = some cd := rfl

theorem applyModifiers_cons (cd : DetectContentData) (m : Modifier) (rest : List Modifier) :
    applyModifiers cd (m :: rest) =
      if hasBothConstraints (amend cd m) then none
      else applyModifiers (amend cd m) rest := by
  rw [applyModifiers, applyModifier]
  split_ifs <;> rfl

theorem applyModifiers_inv (cd0 cd : DetectContentData) (ms : List Modifier)
    (h0 : hasBothConstraints cd0 = false) (h : applyModifiers cd0 ms = some cd) :
    hasBothConstraints cd = false := by
  induction ms generalizing cd0 with
  | nil =>
    simp only [applyModifiers, Option.some.injEq] at h
    rw [← h]; exact h0
  | cons m rest ih =>
    rw [applyModifiers_cons] at h
    by_cases c : hasBothConstraints (amend cd0 m) = true
    · rw [if_pos c] at h
      exact absurd h (by simp)
    · rw [if_neg c] at h
      exact ih (amend cd0 m) (by simpa using c) h

theorem loadRule_cons (cl : ContentClause) (rest : List ContentClause) :
    loadRule (cl :: rest) =
      match loadClause cl, loadRule rest with
      | some sm, some sms => some (sm :: sms)
      | _, _ => none := rfl

theorem loadRule_none_of_clause (pre post : List ContentClause) (cl : ContentClause)
    (h : loadClause cl = none) : loadRule (pre ++ cl :: post) = none := by
  induction pre with
  | nil =>
    rw [List.nil_append, loadRule_cons, h]
  | cons p pre ih =>
    rw [List.cons_append, loadRule_cons, ih]
    cases loadClause p <;> rfl

theorem loadClause_of_none (t : SigMatchType) (c : List Nat) (ms : List Modifier)
    (h : applyModifiers (newDescriptor c) ms = none) : loadClause ⟨t, c, ms⟩ = none := by
  unfold loadClause
  simp only [h]

theorem loadClause_of_some (t : SigMatchType) (c : List Nat) (ms : List Modifier)
    (cd : DetectContentData) (h : applyModifiers (newDescriptor c) ms = some cd) :
    loadClause ⟨t, c, ms⟩ = some ⟨t, some cd⟩ := by
  unfold loadClause
  simp only [h]

theorem hasBothConstraints_newDescriptor (c : List Nat) :
    hasBothConstraints (newDescriptor c) = false := by
  simp [hasBothConstraints, newDescriptor]

/-! ## Lemmas for adding a filter and matching it -/

theorem matchLineLoop_of_mem (line : Int) (ls : List Int) (m : Bool) (h : line ∈ ls) :
    matchLineLoop line m ls = true := by
  induction ls generalizing m with
  | nil => exact absurd h (List.not_mem_nil _)
  | cons l rest ih =>
    rw [matchLineLoop]
    by_cases c : (if l ≠ -1 then decide (line = l) else true) = true
    · rw [if_pos c]
    · rw [if_neg c]
      rcases List.mem_cons.1 h with h1 | h1
      · exfalso
        apply c
        subst h1
        simp
      · exact ih false h1

theorem matchFuncLoop_of_mem (function : List Nat) (line : Int)
    (fs : List SCLogFGFilterFunc) (m : Bool)
    (h : ∃ fn ∈ fs, fn.func = some function ∧ line ∈ fn.line) :
    matchFuncLoop function line m fs = true := by
  induction fs generalizing m with
  | nil =>
    obtain ⟨fn, hfn, _⟩ := h
    exact absurd hfn (List.not_mem_nil _)
  | cons g rest ih =>
    obtain ⟨fn, hfn, h1, h2⟩ := h
    rw [matchFuncLoop]
    by_cases c1 : (match g.func with
      | some n => function == n
      | none => true) = true
    · rw [if_pos c1]
      by_cases c2 : matchLineLoop line true g.line = true
      · rw [if_pos c2]
      · rw [if_neg c2]
        rcases List.mem_cons.1 hfn with e | e
        · subst e
          exact absurd (matchLineLoop_of_mem line fn.line true h2) c2
        · exact ih false ⟨fn, e, h1, h2⟩
    · rw [if_neg c1]
      rcases List.mem_cons.1 hfn with e | e
      · subst e
        exact absurd ((nameMatch_iff function fn.func).2 (Or.inr h1)) c1
      · exact ih false ⟨fn, e, h1, h2⟩

theorem matchFileLoop_of_has (file function : List Nat) (line : Int)
    (l : List SCLogFGFilterFile) (h : HasTriple l (some file, some function, line)) :
    matchFileLoop file function line l = true := by
  induction l with
  | nil =>
    obtain ⟨f, hf, _⟩ := h
    exact absurd hf (List.not_mem_nil _)
  | cons g rest ih =>
    obtain ⟨f, hf, h1, h2⟩ := h
    rw [matchFileLoop]
    by_cases c1 : (match g.file with
      | some n => file == n
      | none => true) = true
    · rw [if_pos c1]
      by_cases c2 : matchFuncLoop function line true g.func = true
      · rw [if_pos c2]
      · rw [if_neg c2]
        rcases List.mem_cons.1 hf with e | e
        · subst e
          exact absurd (matchFuncLoop_of_mem function line f.func true h2) c2
        · exact ih ⟨f, e, h1, h2⟩
    · rw [if_neg c1]
      rcases List.mem_cons.1 hf with e | e
      · subst e
        exact absurd ((nameMatch_iff file f.file).2 (Or.inr h1)) c1
      · exact ih ⟨f, e, h1, h2⟩

theorem addFileLoop_ne (file function : Option (List Nat)) (line : Int)
    (l : List SCLogFGFilterFile) : addFileLoop file function line l ≠ [] := by
  cases l with
  | nil => simp [addFileLoop]
  | cons g rest =>
    rw [addFileLoop]
    split_ifs <;> simp

theorem SCLogAddFGFilter_accepted (fs : FGFilters) (file function : Option (List Nat))
    (line : Int) (lt : SCLogFilterType) (h : ¬ (file = none ∧ function = none ∧ line < 0)) :
    SCLogAddFGFilter 1 fs file function line lt =
      (0, fs.set lt (addFileLoop file function line (fs.get lt))) := by
  unfold SCLogAddFGFilter
  simp only [ne_eq, not_true_eq_false, if_false, if_neg h]

theorem SCLogAddFGFilter_rejected (init : Int) (fs : FGFilters)
    (file function : Option (List Nat)) (line : Int) (lt : SCLogFilterType)
    (h : init ≠ 1 ∨ (file = none ∧ function = none ∧ line < 0)) :
    SCLogAddFGFilter init fs file function line lt = (-1, fs) := by
  unfold SCLogAddFGFilter
  rcases h with h | h
  · rw [if_pos h]
  · by_cases c : init ≠ 1
    · rw [if_pos c]
    · rw [if_neg c, if_pos h]

/-! ## Lemmas for the repeated add and the count of the filters -/

theorem addLineLoop_idem (line : Int) (ls : List Int) :
    addLineLoop line (addLineLoop line ls) = addLineLoop line ls := by
  induction ls with
  | nil => simp [addLineLoop]
  | cons l rest ih =>
    rw [addLineLoop]
    by_cases c : line = l
    · rw [if_pos c, addLineLoop, if_pos c]
    · rw [if_neg c, addLineLoop, if_neg c, ih]

theorem addFuncLoop_idem (function : Option (List Nat)) (line : Int)
    (fs : List SCLogFGFilterFunc) :
    addFuncLoop function line (addFuncLoop function line fs) =
      addFuncLoop function line fs := by
  induction fs with
  | nil =>
    have h : nameFound function function = true := (nameFound_iff _ _).2 rfl
    simp [addFuncLoop, addLineLoop, h]
  | cons g rest ih =>
    rw [addFuncLoop]
    by_cases c : nameFound function g.func = true
    · rw [if_pos c, addFuncLoop]
      simp only [c, if_true, addLineLoop_idem]
    · rw [if_neg c, addFuncLoop, if_neg c, ih]

theorem addFileLoop_idem (file function : Option (List Nat)) (line : Int)
    (l : List SCLogFGFilterFile) :
    addFileLoop file function line (addFileLoop file function line l) =
      addFileLoop file function line l := by
  induction l with
  | nil =>
    have h : nameFound file file = true := (nameFound_iff _ _).2 rfl
    have h2 : nameFound function function = true := (nameFound_iff _ _).2 rfl
    simp [addFileLoop, addFuncLoop, addLineLoop, h, h2]
  | cons g rest ih =>
    rw [addFileLoop]
    by_cases c : nameFound file g.file = true
    · rw [if_pos c, addFileLoop]
      simp only [c, if_true, addFuncLoop_idem]
    · rw [if_neg c, addFileLoop, if_neg c, ih]

theorem addLineLoop_length (line : Int) (ls : List Int) (h : line ∉ ls) :
    (addLineLoop line ls).length = ls.length + 1 := by
  induction ls with
  | nil => simp [addLineLoop]
  | cons l rest ih =>
    rw [addLineLoop]
    have c : ¬ line = l := fun e => h (e ▸ List.mem_cons_self _ _)
    rw [if_neg c, List.length_cons, List.length_cons,
      ih (fun e => h (List.mem_cons_of_mem _ e))]

theorem addFuncLoop_count (function : Option (List Nat)) (line : Int)
    (fs : List SCLogFGFilterFunc)
    (h : ¬ ∃ fn ∈ fs, fn.func = function ∧ line ∈ fn.line) :
    ((addFuncLoop function line fs).map (fun fn => fn.line.length)).sum =
      (fs.map (fun fn => fn.line.length)).sum + 1 := by
  induction fs with
  | nil => simp [addFuncLoop]
  | cons g rest ih =>
    rw [addFuncLoop]
    by_cases c : nameFound function g.func = true
    · rw [if_pos c]
      have e := (nameFound_iff function g.func).1 c
      have hl : line ∉ g.line := fun hm => h ⟨g, List.mem_cons_self _ _, e, hm⟩
      simp only [List.map_cons, List.sum_cons, addLineLoop_length line g.line hl]
      omega
    · rw [if_neg c]
      have h2 : ¬ ∃ fn ∈ rest, fn.func = function ∧ line ∈ fn.line := by
        rintro ⟨fn, hfn, h3⟩
        exact h ⟨fn, List.mem_cons_of_mem _ hfn, h3⟩
      simp only [List.map_cons, List.sum_cons, ih h2]
      omega

theorem addFileLoop_count (file function : Option (List Nat)) (line : Int)
    (l : List SCLogFGFilterFile) (h : ¬ HasTriple l (file, function, line)) :
    fgCount (addFileLoop file function line l) = fgCount l + 1 := by
  unfold fgCount
  induction l with
  | nil => simp [addFileLoop]
  | cons g rest ih =>
    rw [addFileLoop]
    by_cases c : nameFound file g.file = true
    · rw [if_pos c]
      have e := (nameFound_iff file g.file).1 c
      have hl : ¬ ∃ fn ∈ g.func, fn.func = function ∧ line ∈ fn.line := by
        rintro ⟨fn, hfn, h3⟩
        exact h ⟨g, List.mem_cons_self _ _, e, fn, hfn, h3⟩
      simp only [List.map_cons, List.sum_cons, addFuncLoop_count function line g.func hl]
      omega
    · rw [if_neg c]
      have h2 : ¬ HasTriple rest (file, function, line) := by
        rintro ⟨f, hf, h3⟩
        exact h ⟨f, List.mem_cons_of_mem _ hf, h3⟩
      simp only [List.map_cons, List.sum_cons, ih h2]
      omega

theorem SCLogPrintFGFilters_eq (fs : FGFilters) :
    SCLogPrintFGFilters 1 fs = ((fgCount fs.wl + fgCount fs.bl : Nat) : Int) := rfl

theorem FGFilters.set_set (fs : FGFilters) (lt : SCLogFilterType)
    (l l2 : List SCLogFGFilterFile) : (fs.set lt l).set lt l2 = fs.set lt l2 := by
  cases lt <;> rfl

theorem FGFilters.get_set_self (fs : FGFilters) (lt : SCLogFilterType)
    (l : List SCLogFGFilterFile) : (fs.set lt l).get lt = l := by
  cases lt <;> rfl

/-! ## Lemmas for the function-dependent filters -/

theorem addFDLoop_of_mem (name : List Nat) (l : List SCLogFDFilter)
    (h : (⟨name⟩ : SCLogFDFilter) ∈ l) : addFDLoop name l = l := by
  induction l with
  | nil => exact absurd h (List.not_mem_nil _)
  | cons c rest ih =>
    rw [addFDLoop]
    by_cases e : name = c.func
    · rw [if_pos e]
    · rw [if_neg e]
      rcases List.mem_cons.1 h with h1 | h1
      · exact absurd (by rw [← h1]) e
      · rw [ih h1]

theorem addFDLoop_of_not_mem (name : List Nat) (l : List SCLogFDFilter)
    (h : (⟨name⟩ : SCLogFDFilter) ∉ l) : addFDLoop name l = l ++ [⟨name⟩] := by
  induction l with
  | nil => rfl
  | cons c rest ih =>
    rw [addFDLoop]
    have e : ¬ name = c.func := by
      intro e
      apply h
      rw [e]
      exact List.mem_cons_self _ _
    rw [if_neg e, ih (fun hm => h (List.mem_cons_of_mem _ hm)), List.cons_append]

theorem removeFDLoop_eq_erase (name : List Nat) (l : List SCLogFDFilter) :
    removeFDLoop name l = l.erase ⟨name⟩ := by
  induction l with
  | nil => rfl
  | cons c rest ih =>
    rw [removeFDLoop]
    by_cases e : name = c.func
    · rw [if_pos e]
      have : c = ⟨name⟩ := by rw [e]
      rw [this, List.erase_cons_head]
    · rw [if_neg e, ih]
      have hne : c ≠ ⟨name⟩ := by
        intro hc
        apply e
        rw [hc]
      rw [List.erase_cons_tail (by simpa using hne)]

theorem SCLogRemoveFDFilter_some (l : List SCLogFDFilter) (name : List Nat) :
    SCLogRemoveFDFilter 1 l (some name) = (0, l.erase ⟨name⟩) := by
  unfold SCLogRemoveFDFilter
  cases l with
  | nil => rfl
  | cons c rest =>
    simp only [ne_eq, not_true_eq_false, if_false]
    rw [removeFDLoop_eq_erase]

theorem SCLogAddFDFilter_some (l : List SCLogFDFilter) (name : List Nat) :
    SCLogAddFDFilter 1 l (some name) = (0, addFDLoop name l) := by
  unfold SCLogAddFDFilter
  simp only [ne_eq, not_true_eq_false, if_false]

theorem addFDLoop_nodup (name : List Nat) (l : List SCLogFDFilter) (h : l.Nodup) :
    (addFDLoop name l).Nodup := by
  by_cases hm : (⟨name⟩ : SCLogFDFilter) ∈ l
  · rw [addFDLoop_of_mem name l hm]
    exact h
  · rw [addFDLoop_of_not_mem name l hm]
    exact List.Nodup.append h (List.nodup_singleton _) (by simpa using hm)

theorem fdAfter_snoc (calls : List FDCall) (c : FDCall) :
    fdAfter (calls ++ [c]) =
      match c with
      | FDCall.add function => (SCLogAddFDFilter 1 (fdAfter calls) function).2
      | FDCall.remove function => (SCLogRemoveFDFilter 1 (fdAfter calls) function).2 := by
  simp [fdAfter, List.foldl_append]

theorem fdAfter_nodup (calls : List FDCall) : (fdAfter calls).Nodup := by
  induction calls using List.reverseRecOn with
  | nil => simp [fdAfter]
  | append_singleton calls c ih =>
    rw [fdAfter_snoc]
    cases c with
    | add function =>
      cases function with
      | none => exact ih
      | some name =>
        simp only [SCLogAddFDFilter_some]
        exact addFDLoop_nodup name _ ih
    | remove function =>
      cases function with
      | none => exact ih
      | some name =>
        simp only [SCLogRemoveFDFilter_some]
        exact List.Nodup.erase _ ih

/-! ## Lemmas for the bounds of the decoding loop -/

theorem decodeStep_bounds (st st1 : DecodeState) (i : Nat) (h : decodeStep st i = some st1)
    (hb : st.binpos ≤ 1) :
    st1.x ≤ st.x + 1 ∧ st1.str.length = st.str.length ∧ st1.binpos ≤ 1 := by
  have hm : (st.x + 1) % 65536 ≤ st.x + 1 := Nat.mod_le _ _
  unfold decodeStep at h
  simp only at h
  split_ifs at h
  all_goals
    simp only [Option.some.injEq] at h
    subst h
    refine ⟨?_, ?_, ?_⟩
    · first
        | exact hm
        | exact Nat.le_succ _
    · first
        | rfl
        | exact List.length_set _ _ _
    · first
        | exact hb
        | exact Nat.zero_le _
        | (simp only; omega)

theorem decodeFrom_bounds (n : Nat) :
    ∀ (st st1 : DecodeState) (i : Nat), decodeFrom st i n = some st1 → st.x ≤ i →
      st.binpos ≤ 1 →
      st1.x ≤ i + n ∧ st1.str.length = st.str.length ∧ st1.binpos ≤ 1 := by
  induction n with
  | zero =>
    intro st st1 i h hx hb
    simp only [decodeFrom, Option.some.injEq] at h
    subst h
    exact ⟨hx, rfl, hb⟩
  | succ n ih =>
    intro st st1 i h hx hb
    rw [decodeFrom] at h
    cases hs : decodeStep st i with
    | none => rw [hs] at h; simp at h
    | some st2 =>
      rw [hs] at h
      have h1 := decodeStep_bounds st st2 i hs hb
      have h2 := ih st2 st1 (i + 1) h (by omega) h1.2.2
      refine ⟨by omega, ?_, h2.2.2⟩
      rw [h2.2.1, h1.2.1]

theorem decodeFrom_prefix (k : Nat) :
    ∀ (m : Nat) (st st1 : DecodeState) (i : Nat), decodeFrom st i (k + m) = some st1 →
      ∃ stk, decodeFrom st i k = some stk := by
  induction k with
  | zero =>
    intro m st st1 i _
    exact ⟨st, rfl⟩
  | succ k ih =>
    intro m st st1 i h
    rw [Nat.succ_add, decodeFrom] at h
    rw [decodeFrom]
    cases hs : decodeStep st i with
    | none => rw [hs] at h; simp at h
    | some st2 =>
      rw [hs] at h
      exact ih m st2 st1 (i + 1) h

theorem decodeBody_bounds (flags : Nat) (body : List Nat) (cd : DetectContentData)
    (h : decodeBody flags body = some cd) :
    cd.content_len ≤ body.length ∧ cd.content.length = cd.content_len ∧
      ∃ st, decodeFrom (decodeInit body) 0 (body.length % 65536) = some st := by
  unfold decodeBody strlen at h
  simp only at h
  have hle : body.length % 65536 ≤ body.length := Nat.mod_le _ _
  split_ifs at h with h0
  cases hs : decodeFrom (decodeInit body) 0 (body.length % 65536) with
  | none => rw [hs] at h; simp at h
  | some st =>
    rw [hs] at h
    have hb := decodeFrom_bounds _ _ _ _ hs (by simp [decodeInit]) (by simp [decodeInit])
    simp only [decodeInit, Nat.zero_add] at hb
    simp only at h
    split_ifs at h with hp hc
    · simp only [Option.some.injEq] at h
      subst h
      simp only [List.length_take]
      refine ⟨by omega, by omega, st, rfl⟩
    · simp only [Option.some.injEq] at h
      subst h
      simp only [List.length_take]
      refine ⟨by omega, by omega, st, rfl⟩

/-! ## Claims -/

/-- C1 (amended): for every input made of leading whitespace, an optional `!` and a
double-quoted body, where the input has no leading whitespace or is shorter than 65536
bytes, the body is shorter than 65536 bytes, is a body of the grammar (an even number of
`|`, hex groups holding only spaces and complete pairs of hex digits, every backslash
outside a hex group followed by one of `:`, `;`, `\`, `"`), has a non-empty reference
decoding, and holds no `|` or at least one hex pair or escape: the parse succeeds, the
content is the reference decoding of the body and `content_len` is its length. -/
theorem C1_decoding_correct (N : Nat) (ws : List Nat) (neg : Bool) (body out : List Nat)
    (hws : ∀ c ∈ ws, isspace c = true)
    (hin : ws = [] ∨ (quoted ws neg body).length < 65536)
    (hlen : body.length < 65536)
    (href : refDecode body false = some out) (hne : out ≠ [])
    (hconv : 124 ∉ body ∨ refConverts body false = true) :
    DoDetectUricontentSetup N (quoted ws neg body) =
      some { content := out, content_len := out.length,
             flags := if neg then 0 ||| N else 0, depth := 0, offset := 0, within := 0,
             distance := 0, id := 0 } := by
  have hbody : body ≠ [] := by
    intro h
    subst h
    simp [refDecode_nil] at href
    exact hne href
  have h0 : body.length ≠ 0 := fun h => hbody (List.length_eq_zero.mp h)
  rw [DoDetect_quoted N ws neg body hws hin, decodeBody_eq_scan, Nat.mod_eq_of_lt hlen,
    List.take_length]
  simp only [h0, if_false]
  obtain ⟨a1, e1, e2, e3, e4⟩ := scan_refDecode body.length body (Nat.le_refl _) false out
    scanInit href rfl rfl rfl
  rw [e1]
  have hpar := scan_bin_parity body scanInit a1 e1 (by simp [scanInit])
  have heven : a1.bin_count % 2 = 0 := by
    have : ¬ (a1.bin_count % 2 = 1) := fun h => by
      have := hpar.mpr h
      rw [e3] at this
      exact Bool.false_ne_true this
    omega
  simp only [scanInit, List.nil_append, Bool.false_or] at e2 e4
  simp only [scanFinish, heven, ne_eq, not_true_eq_false, if_false, e2, e4]
  by_cases hcv : refConverts body false = true
  · simp [hcv]
  · simp only [hcv, Bool.false_eq_true, if_false]
    have hpipe : 124 ∉ body := by
      rcases hconv with h | h
      · exact h
      · exact absurd h hcv
    have hob : out = body := refDecode_plain body out hpipe (by simpa using hcv) href
    subst hob
    simp

/-- Witness of C1 on the body of test 20, `|af|asdf`, and on a body with two groups, spaces
and escapes after the prefix of test 12. -/
theorem C1_decoding_correct_witness :
    DoDetectUricontentSetup 64 (bytes "\"|af|asdf\"") =
      some { content := [0xAF, 97, 115, 100, 102], content_len := 5, flags := 0,
             depth := 0, offset := 0, within := 0, distance := 0, id := 0 } ∧
    DoDetectUricontentSetup 64 (bytes "    !\"a\\;|41 42|\\\"b| 0d0A |\"") =
      some { content := [97, 59, 0x41, 0x42, 34, 98, 0x0D, 0x0A], content_len := 8,
             flags := 64, depth := 0, offset := 0, within := 0, distance := 0, id := 0 } :=
  ⟨C1_decoding_correct 64 [] false (bytes "|af|asdf") [0xAF, 97, 115, 100, 102]
      (by decide) (Or.inl rfl) (by decide) (by decide) (by decide) (Or.inr (by decide)),
   C1_decoding_correct 64 [32, 32, 32, 32] true (bytes "a\\;|41 42|\\\"b| 0d0A |")
      [97, 59, 0x41, 0x42, 34, 98, 0x0D, 0x0A]
      (by decide) (Or.inr (by decide)) (by decide) (by decide) (by decide)
      (Or.inr (by decide))⟩

/-- C1, as stated, fails two ways.  The body `a||b` is a body of the grammar with the
reference decoding `ab`, and the parser returns the four bytes `ab|b`: no hex pair or
escape sets `converted`, so `len` keeps the length of the raw body.  And after 65536
spaces the body `a` is rejected: the 16-bit `slen` is 3 and the whitespace loop stops at
index 3, on a space. -/
theorem C1_decoding_fails :
    (refDecode (bytes "a||b") false = some (bytes "ab") ∧
      DoDetectUricontentSetup 64 (quoted [] false (bytes "a||b")) =
        some { content := bytes "ab|b", content_len := 4, flags := 0, depth := 0,
               offset := 0, within := 0, distance := 0, id := 0 }) ∧
    (refDecode [97] false = some [97] ∧
      DoDetectUricontentSetup 64 (quoted (List.replicate 65536 32) false [97]) = none) := by
  refine ⟨⟨by decide, by decide⟩, by decide, ?_⟩
  have key : ∀ ws : List Nat, (∀ c ∈ ws, isspace c = true) → ws.length = 65536 →
      DoDetectUricontentSetup 64 (quoted ws false [97]) = none := by
    intro ws hws hl
    apply DoDetect_quoted_cut 64 ws false [97] hws
    have : (quoted ws false [97]).length = 65536 + 3 := by
      simp [quoted, hl]
    rw [this, hl]
    decide
  exact key _ (fun c hc => by rw [List.eq_of_mem_replicate hc]; rfl) (List.length_replicate _ _)

/-- C2 (amended): for every quoted body shorter than 65536 bytes that contains an odd
number of `|` characters, whatever other text surrounds them and whatever whitespace and
`!` precede the quotes, `DoDetectUricontentSetup` returns `NULL` and
`DetectUricontentSetup` returns -1 and leaves the store and the signature as they were. -/
theorem C2_odd_pipes_rejected {σ : Type} (getId : σ → DetectContentData → Nat × σ)
    (N A : Nat) (de_ctx : σ) (s : Signature) (ws : List Nat) (neg : Bool) (body : List Nat)
    (hws : ∀ c ∈ ws, isspace c = true) (hlen : body.length < 65536)
    (hodd : body.count 124 % 2 = 1) :
    DoDetectUricontentSetup N (quoted ws neg body) = none ∧
      DetectUricontentSetup getId N A de_ctx s (quoted ws neg body) = (-1, de_ctx, s) := by
  have h : DoDetectUricontentSetup N (quoted ws neg body) = none := by
    rcases DoDetect_quoted_cases N ws neg body hws with h | h
    · exact h
    · rw [h]; exact decodeBody_odd_pipes _ body hlen hodd
  exact ⟨h, DetectUricontentSetup_of_none getId N A de_ctx s _ h⟩

/-- Witness of C2 on the body of test 21, `|af|af|`, after the prefix of test 12. -/
theorem C2_odd_pipes_rejected_witness :
    DoDetectUricontentSetup 64 (quoted [32, 32] true (bytes "|af|af|")) = none ∧
      DetectUricontentSetup (fun (n : Nat) _ => (n, n + 1)) 64 128 0
        ⟨AppProto.ALPROTO_UNKNOWN, 0, [], [], []⟩ (quoted [32, 32] true (bytes "|af|af|")) =
        (-1, 0, ⟨AppProto.ALPROTO_UNKNOWN, 0, [], [], []⟩) :=
  C2_odd_pipes_rejected _ 64 128 0 _ [32, 32] true (bytes "|af|af|") (by decide) (by decide)
    (by decide)

/-- C2, as stated, fails: a body of 65537 bytes with a single `|` is accepted, because the
16-bit `len` is 1 and the loop reads the first byte only. -/
theorem C2_long_body_accepted :
    (97 :: 124 :: List.replicate 65535 97).count 124 % 2 = 1 ∧
      DoDetectUricontentSetup 64 (quoted [] false (97 :: 124 :: List.replicate 65535 97)) =
        some { content := [97], content_len := 1, flags := 0, depth := 0, offset := 0,
               within := 0, distance := 0, id := 0 } := by
  have key : ∀ t : List Nat, t.count 124 = 0 → t.length = 65535 →
      (97 :: 124 :: t).count 124 % 2 = 1 ∧
      DoDetectUricontentSetup 64 (quoted [] false (97 :: 124 :: t)) =
        some { content := [97], content_len := 1, flags := 0, depth := 0, offset := 0,
               within := 0, distance := 0, id := 0 } := by
    intro t hc hl
    constructor
    · simp [List.count_cons, hc]
    · rw [DoDetect_quoted 64 [] false _ (by simp) (Or.inl rfl), decodeBody_eq_scan]
      have hl : (97 :: 124 :: t).length % 65536 = 1 := by
        simp [hl]
      rw [hl]
      simp [scan, scanStep, scanInit, scanFinish]
  exact key _ (by rw [List.count_replicate]; rfl) (List.length_replicate _ _)

/-- C3: every non-empty quoted body shorter than 65536 bytes that contains no backslash
and an even number of `|` characters is accepted. -/
theorem C3_even_pipes_accepted (N : Nat) (ws : List Nat) (neg : Bool) (body : List Nat)
    (hws : ∀ c ∈ ws, isspace c = true)
    (hin : ws = [] ∨ (quoted ws neg body).length < 65536)
    (hne : body ≠ []) (hlen : body.length < 65536) (hbs : 92 ∉ body)
    (heven : body.count 124 % 2 = 0) :
    (DoDetectUricontentSetup N (quoted ws neg body)).isSome = true := by
  rw [DoDetect_quoted N ws neg body hws hin, decodeBody_eq_scan, Nat.mod_eq_of_lt hlen,
    List.take_length]
  have h0 : body.length ≠ 0 := fun h => hne (List.length_eq_zero.mp h)
  simp only [h0, if_false]
  obtain ⟨a, ha, _⟩ := scan_no_backslash body scanInit rfl hbs
  rw [ha]
  have hc := scan_bin_count body scanInit a ha
  simp only [scanInit, Nat.zero_add] at hc
  simp only [scanFinish, hc, heven, ne_eq, not_true_eq_false, if_false]
  split_ifs <;> rfl

/-- Witness of C3 on the bodies of tests 16, 19, 20 and 23. -/
theorem C3_even_pipes_accepted_witness :
    (DoDetectUricontentSetup 64 (quoted [] false (bytes "|af|"))).isSome = true ∧
    (DoDetectUricontentSetup 64 (quoted [] false (bytes "aast|af|"))).isSome = true ∧
    (DoDetectUricontentSetup 64 (quoted [] false (bytes "|af|asdf"))).isSome = true ∧
    (DoDetectUricontentSetup 64 (quoted [] false (bytes "|af|af|af|"))).isSome = true :=
  ⟨C3_even_pipes_accepted 64 [] false _ (by decide) (Or.inl rfl) (by decide) (by decide)
      (by decide) (by decide),
   C3_even_pipes_accepted 64 [] false _ (by decide) (Or.inl rfl) (by decide) (by decide)
      (by decide) (by decide),
   C3_even_pipes_accepted 64 [] false _ (by decide) (Or.inl rfl) (by decide) (by decide)
      (by decide) (by decide),
   C3_even_pipes_accepted 64 [] false _ (by decide) (Or.inl rfl) (by decide) (by decide)
      (by decide) (by decide)⟩

/-- C4 (amended): for every sequence of `n` pairs of hex digits, upper or lower case, with
`1 <= n` and `2 * n + 2 < 65536`, written inside one `|...|` group as the whole body, the
parser returns exactly `n` bytes, the k-th being sixteen times the value of the first digit
of pair k plus the value of its second digit. -/
theorem C4_hex_group_bytes (N : Nat) (ws : List Nat) (neg : Bool) (ps : List (Nat × Nat))
    (hws : ∀ c ∈ ws, isspace c = true)
    (hin : ws = [] ∨ (quoted ws neg (124 :: (pairText ps ++ [124]))).length < 65536)
    (hne : ps ≠ []) (hlen : 2 * ps.length + 2 < 65536)
    (hps : ∀ p ∈ ps, isHexChar p.1 = true ∧ isHexChar p.2 = true) :
    DoDetectUricontentSetup N (quoted ws neg (124 :: (pairText ps ++ [124]))) =
      some { content := pairBytes ps, content_len := ps.length,
             flags := if neg then 0 ||| N else 0, depth := 0, offset := 0, within := 0,
             distance := 0, id := 0 } := by
  have hbl : (124 :: (pairText ps ++ [124])).length = 2 * ps.length + 2 := by
    simp [pairText_length]
  rw [DoDetect_quoted N ws neg _ hws hin, decodeBody_eq_scan, hbl, Nat.mod_eq_of_lt hlen,
    ← hbl, List.take_length]
  have h0 : (124 :: (pairText ps ++ [124])).length ≠ 0 := by simp
  simp only [h0, if_false]
  obtain ⟨a1, e1, e2, e3, e4, e5, e6, e7⟩ := scan_pairs ps hps
    { scanInit with bin_count := 1, bin := true } rfl rfl rfl
  have hscan : scan scanInit (124 :: (pairText ps ++ [124])) =
      some { a1 with bin_count := a1.bin_count + 1, bin := !a1.bin } := by
    have : scan scanInit (124 :: (pairText ps ++ [124])) =
        scan { scanInit with bin_count := 1, bin := true } (pairText ps ++ [124]) := by
      simp [scan, scanStep, scanInit]
    rw [this, scan_append, e1]
    simp [scan, scanStep]
  rw [hscan]
  have hconv : a1.converted = true := by
    rw [e7]
    cases ps with
    | nil => exact absurd rfl hne
    | cons p ps => simp
  simp [scanFinish, e6, hconv, e2, scanInit, pairBytes]

/-- Witness of C4: `|af|` gives the single byte 0xAF and `|afaf|` the two bytes 0xAF 0xAF,
as do the upper-case digits. -/
theorem C4_hex_group_bytes_witness :
    DoDetectUricontentSetup 64 (bytes "\"|af|\"") =
      some { content := [0xAF], content_len := 1, flags := 0, depth := 0, offset := 0,
             within := 0, distance := 0, id := 0 } ∧
    DoDetectUricontentSetup 64 (bytes "\"|afAF|\"") =
      some { content := [0xAF, 0xAF], content_len := 2, flags := 0, depth := 0, offset := 0,
             within := 0, distance := 0, id := 0 } :=
  ⟨C4_hex_group_bytes 64 [] false [(97, 102)] (by decide) (Or.inl rfl) (by decide)
      (by decide) (by decide),
   C4_hex_group_bytes 64 [] false [(97, 102), (65, 70)] (by decide) (Or.inl rfl) (by decide)
      (by decide) (by decide)⟩

/-- C4, as stated, fails: a group of 32767 pairs makes a body of 65536 bytes, the 16-bit
`len` is 0, and the parser rejects. -/
theorem C4_long_group_rejected :
    DoDetectUricontentSetup 64
      (quoted [] false (124 :: (pairText (List.replicate 32767 (48, 48)) ++ [124]))) = none := by
  rw [DoDetect_quoted 64 [] false _ (by simp) (Or.inl rfl), decodeBody_eq_scan]
  have hl : (124 :: (pairText (List.replicate 32767 (48, 48)) ++ [124])).length % 65536 = 0 := by
    rw [List.length_cons, List.length_append, pairText_length, List.length_replicate]
    rfl
  rw [if_pos hl]

/-- C5: the parser rejects every input whose remainder, after the leading whitespace and
an optional `!`, is a lone double quote, does not begin with a double quote, or does
not end with a double quote. -/
theorem C5_rejects_missing_quotes (N : Nat) (s : List Nat)
    (h : remainder s = [34] ∨ (remainder s).head? ≠ some 34 ∨
      (remainder s).getLast? ≠ some 34) :
    DoDetectUricontentSetup N s = none := by
  by_cases hs : s = []
  · subst hs
    simp [DoDetectUricontentSetup, strlen]
  obtain ⟨hcut, hrun⟩ := DoDetect_split N s hs
  by_cases hlt : s.length % 65536 < (s.takeWhile isspace).length
  · exact hcut hlt
  rw [hrun (by omega)]
  have hsplit : s.takeWhile isspace ++ s.dropWhile isspace = s := List.takeWhile_append_dropWhile _ _
  have hws : ∀ c ∈ s.takeWhile isspace, isspace c = true := mem_takeWhile_isspace s
  by_cases h33 : charAt (s.dropWhile isspace) 0 = 33
  · rw [if_pos h33]
    obtain ⟨t, ht⟩ : ∃ t, s.dropWhile isspace = 33 :: t := by
      cases hr : s.dropWhile isspace with
      | nil => rw [hr] at h33; simp [charAt] at h33
      | cons c t =>
        rw [hr] at h33
        simp only [charAt_cons_zero] at h33
        exact ⟨t, by rw [h33]⟩
    rw [remainder_bang s t ht] at h
    by_cases hwrap : (s.takeWhile isspace).length + 1 < 65536
    · rw [Nat.mod_eq_of_lt hwrap]
      have := parseQuoted_bad (0 ||| N) (s.takeWhile isspace ++ [33]) t h
      have e : s.takeWhile isspace ++ [33] ++ t = s := by
        rw [List.append_assoc]
        simpa [ht] using hsplit
      rw [e] at this
      simpa using this
    · have h0 : ((s.takeWhile isspace).length + 1) % 65536 = 0 := by
        have := Nat.mod_lt s.length (show 65536 > 0 by decide)
        have : (s.takeWhile isspace).length + 1 = 65536 := by omega
        rw [this]
      rw [h0]
      apply parseQuoted_space
      have hpos : 0 < (s.takeWhile isspace).length := by omega
      have h1 := charAt_append_left (s.takeWhile isspace) (s.dropWhile isspace) 0 hpos
      rw [hsplit] at h1
      rw [h1]
      exact hws _ (charAt_of_mem_lt _ _ hpos)
  · rw [if_neg h33]
    rw [remainder_other s h33] at h
    have := parseQuoted_bad 0 (s.takeWhile isspace) (s.dropWhile isspace) h
    rwa [hsplit] at this

/-- Witness of C5 on the three rejected inputs of the tests: a lone quote, `"boo` and `boo"`. -/
theorem C5_rejects_missing_quotes_witness :
    DoDetectUricontentSetup 64 (bytes "\"") = none ∧
    DoDetectUricontentSetup 64 (bytes "\"boo") = none ∧
    DoDetectUricontentSetup 64 (bytes "boo\"") = none :=
  ⟨C5_rejects_missing_quotes 64 _ (Or.inl (by decide)),
   C5_rejects_missing_quotes 64 _ (Or.inr (Or.inr (by decide))),
   C5_rejects_missing_quotes 64 _ (Or.inr (Or.inl (by decide)))⟩

/-- C6: the parser rejects the empty string and every input whose quoted body is empty,
whatever whitespace and `!` precede the quotes, and `DetectUricontentSetup` then returns
-1 and leaves the store and the signature as they were. -/
theorem C6_empty_body_rejected {σ : Type} (getId : σ → DetectContentData → Nat × σ)
    (N A : Nat) (de_ctx : σ) (s : Signature) (ws : List Nat) (neg : Bool)
    (hws : ∀ c ∈ ws, isspace c = true) :
    DoDetectUricontentSetup N [] = none ∧
    DoDetectUricontentSetup N (quoted ws neg []) = none ∧
    DetectUricontentSetup getId N A de_ctx s [] = (-1, de_ctx, s) ∧
    DetectUricontentSetup getId N A de_ctx s (quoted ws neg []) = (-1, de_ctx, s) := by
  have h1 : DoDetectUricontentSetup N [] = none := by
    simp [DoDetectUricontentSetup, strlen]
  have h2 : DoDetectUricontentSetup N (quoted ws neg []) = none := by
    rcases DoDetect_quoted_cases N ws neg [] hws with h | h
    · exact h
    · rw [h]; simp [decodeBody, strlen]
  exact ⟨h1, h2, DetectUricontentSetup_of_none getId N A de_ctx s _ h1,
    DetectUricontentSetup_of_none getId N A de_ctx s _ h2⟩

/-- Witness of C6 on the input of test 08, `""`, and on the same with a prefix. -/
theorem C6_empty_body_rejected_witness :
    DoDetectUricontentSetup 64 (bytes "\"\"") = none ∧
    DoDetectUricontentSetup 64 (bytes "  !\"\"") = none :=
  ⟨(C6_empty_body_rejected (fun (n : Nat) _ => (n, n + 1)) 64 128 0
      ⟨AppProto.ALPROTO_UNKNOWN, 0, [], [], []⟩ [] false (by decide)).2.1,
   (C6_empty_body_rejected (fun (n : Nat) _ => (n, n + 1)) 64 128 0
      ⟨AppProto.ALPROTO_UNKNOWN, 0, [], [], []⟩ [32, 32] true (by decide)).2.1⟩

/-- C7: the body `||` decodes to nothing, and the parser accepts it with the two raw bytes
`||` as content: `converted` is not set, so `len` keeps the length of the raw body. -/
theorem C7_empty_decoding_accepted :
    DoDetectUricontentSetup 64 (bytes "\"||\"") =
      some { content := bytes "||", content_len := 2, flags := 0, depth := 0, offset := 0,
             within := 0, distance := 0, id := 0 } := by
  decide

/-- C8: every descriptor the parser returns has `content_len >= 1`, and its byte sequence
has exactly `content_len` bytes. -/
theorem C8_content_nonempty (N : Nat) (s : List Nat) (cd : DetectContentData)
    (h : DoDetectUricontentSetup N s = some cd) :
    1 ≤ cd.content_len ∧ cd.content.length = cd.content_len := by
  obtain ⟨flags, str, hd⟩ := DoDetect_some_decodeBody N s cd h
  rw [decodeBody_eq_scan] at hd
  split_ifs at hd with h0
  have hle : str.length % 65536 ≤ str.length := Nat.mod_le _ _
  cases hs : scan scanInit (str.take (str.length % 65536)) with
  | none => rw [hs] at hd; simp at hd
  | some a =>
    rw [hs] at hd
    have hout := (scan_out_length _ _ _ hs).1
    simp only [scanInit, List.length_nil, Nat.zero_add, List.length_take] at hout
    have hout1 : a.out.length ≤ str.length % 65536 := le_trans hout (min_le_left _ _)
    have hconv := scan_converted _ scanInit a hs (by simp [scanInit])
    simp only [scanFinish] at hd
    split_ifs at hd with hp hc
    · simp only [Option.some.injEq] at hd
      subst hd
      have := List.length_pos.mpr (hconv hc)
      simp only [and_true]
      omega
    · simp only [Option.some.injEq] at hd
      subst hd
      simp only [List.length_append, List.length_take, List.length_drop]
      omega

/-- Witness of C8 on the input of test 12, `    !"boo"`. -/
theorem C8_content_nonempty_witness :
    DoDetectUricontentSetup 64 (bytes "    !\"boo\"") =
      some { content := bytes "boo", content_len := 3, flags := 64, depth := 0, offset := 0,
             within := 0, distance := 0, id := 0 } ∧
    (1 ≤ (3 : Nat) ∧ (bytes "boo").length = 3) :=
  ⟨by decide,
   C8_content_nonempty 64 (bytes "    !\"boo\"")
    { content := bytes "boo", content_len := 3, flags := 64, depth := 0, offset := 0,
      within := 0, distance := 0, id := 0 } (by decide)⟩

/-- C9: in the body `|4z1|` the character `z` stands inside the hex group; the parser
skips it and returns the byte 0x41. -/
theorem C9_invalid_hex_accepted :
    DoDetectUricontentSetup 64 (bytes "\"|4z1|\"") =
      some { content := [0x41], content_len := 1, flags := 0, depth := 0, offset := 0,
             within := 0, distance := 0, id := 0 } := by
  decide

/-- C10 (amended): for every quoted body shorter than 65536 bytes, if the loop reaches a
backslash outside a hex group with no escape pending, and the character that follows is
none of `:`, `;`, `\`, `"` and is not `|`, the parser rejects the input. -/
theorem C10_bad_escape_rejected (N : Nat) (ws : List Nat) (neg : Bool)
    (pre : List Nat) (c : Nat) (post : List Nat)
    (hws : ∀ w ∈ ws, isspace w = true)
    (hlen : (pre ++ 92 :: c :: post).length < 65536)
    (hmode : ∀ st, decodeFrom (decodeInit (pre ++ 92 :: c :: post)) 0 pre.length = some st →
      st.bin = false ∧ st.escape = false)
    (hc : c ≠ 58 ∧ c ≠ 59 ∧ c ≠ 92 ∧ c ≠ 34 ∧ c ≠ 124) :
    DoDetectUricontentSetup N (quoted ws neg (pre ++ 92 :: c :: post)) = none := by
  rcases DoDetect_quoted_cases N ws neg (pre ++ 92 :: c :: post) hws with h | h
  · exact h
  rw [h, decodeBody_eq_scan, Nat.mod_eq_of_lt hlen, List.take_length]
  have h0 : (pre ++ 92 :: c :: post).length ≠ 0 := by simp
  simp only [h0, if_false]
  have hpre := decodeFrom_scan (pre ++ 92 :: c :: post) pre.length 0 scanInit
    (by simp [scanInit]) (by simp [scanInit]) (by simp) (by simp at hlen; omega)
  rw [toDecode_scanInit] at hpre
  simp only [List.drop_zero, List.take_left'] at hpre
  rw [scan_append]
  cases hs : scan scanInit pre with
  | none => rfl
  | some a =>
    rw [hs] at hpre
    obtain ⟨hb, he⟩ := hmode _ hpre
    simp only [ScanState.toDecode] at hb he
    obtain ⟨c1, c2, c3, c4, c5⟩ := hc
    simp [scan, scanStep, hb, he, c1, c2, c3, c4, c5]

/-- Witness of C10 on the body `a\bc`. -/
theorem C10_bad_escape_rejected_witness :
    DoDetectUricontentSetup 64 (bytes "\"a\\bc\"") = none :=
  C10_bad_escape_rejected 64 [] false [97] 98 [99] (by decide) (by decide) (by decide)
    (by decide)

/-- C10, as stated, fails three ways.  In `\||:` the backslash is followed by `|`, which
opens a hex group while the escape stays pending until the `:`.  In `\\a` the second
backslash is the escaped character, and the `a` after it is plain text.  In a body of
65537 bytes the 16-bit `len` is 1 and the loop never reaches the `\b` at index 1. -/
theorem C10_escapes_accepted :
    DoDetectUricontentSetup 64 (bytes "\"\\||:\"") =
      some { content := bytes ":", content_len := 1, flags := 0, depth := 0, offset := 0,
             within := 0, distance := 0, id := 0 } ∧
    DoDetectUricontentSetup 64 (bytes "\"\\\\a\"") =
      some { content := bytes "\\a", content_len := 2, flags := 0, depth := 0, offset := 0,
             within := 0, distance := 0, id := 0 } ∧
    DoDetectUricontentSetup 64 (quoted [] false (97 :: 92 :: 98 :: List.replicate 65534 97)) =
      some { content := [97], content_len := 1, flags := 0, depth := 0, offset := 0,
             within := 0, distance := 0, id := 0 } := by
  refine ⟨by decide, by decide, ?_⟩
  have key : ∀ t : List Nat, t.length = 65534 →
      DoDetectUricontentSetup 64 (quoted [] false (97 :: 92 :: 98 :: t)) =
        some { content := [97], content_len := 1, flags := 0, depth := 0, offset := 0,
               within := 0, distance := 0, id := 0 } := by
    intro t hl
    rw [DoDetect_quoted 64 [] false _ (by simp) (Or.inl rfl), decodeBody_eq_scan]
    have hl : (97 :: 92 :: 98 :: t).length % 65536 = 1 := by
      simp [hl]
    rw [hl]
    simp [scan, scanStep, scanInit, scanFinish]
  exact key _ (List.length_replicate _ _)

/-- C11: for every non-empty quoted body shorter than 65536 bytes that contains no `|` and
in which every escaping backslash is followed by one of `:`, `;`, `\`, `"`, the parse
succeeds and returns the body with each escape pair replaced by its second character; a
body with no backslash either is returned byte for byte with the same length, and parsing
the quoted output again returns the same bytes and length. -/
theorem C11_escapes_replaced (N : Nat) (ws : List Nat) (neg : Bool) (body out : List Nat)
    (hws : ∀ c ∈ ws, isspace c = true)
    (hin : ws = [] ∨ (quoted ws neg body).length < 65536)
    (hne : body ≠ []) (hlen : body.length < 65536) (hpipe : 124 ∉ body)
    (hesc : unescape body = some out) :
    DoDetectUricontentSetup N (quoted ws neg body) =
      some { content := out, content_len := out.length,
             flags := if neg then 0 ||| N else 0, depth := 0, offset := 0, within := 0,
             distance := 0, id := 0 } ∧
    (92 ∉ body →
      out = body ∧ out.length = body.length ∧
      DoDetectUricontentSetup N (quoted ws neg out) =
        DoDetectUricontentSetup N (quoted ws neg body)) := by
  have href : refDecode body false = some out := by
    rw [refDecode_unescape body.length body (Nat.le_refl _) hpipe]
    exact hesc
  constructor
  · rw [DoDetect_quoted N ws neg body hws hin]
    exact decodeBody_refDecode _ body out hlen href (unescape_ne_nil body out hesc hne)
      (Or.inl hpipe)
  · intro hbs
    have : out = body := by
      rw [unescape_plain body hbs] at hesc
      exact (Option.some.inj hesc).symm
    subst this
    exact ⟨rfl, rfl, rfl⟩

/-- Witness of C11 on the body `a\;b\\c\"d\:e` and on the plain body `boo` of test 12. -/
theorem C11_escapes_replaced_witness :
    DoDetectUricontentSetup 64 (quoted [] false (bytes "a\\;b\\\\c\\\"d\\:e")) =
      some { content := bytes "a;b\\c\"d:e", content_len := (bytes "a;b\\c\"d:e").length,
             flags := if false = true then 0 ||| 64 else 0, depth := 0, offset := 0,
             within := 0, distance := 0, id := 0 } ∧
    (DoDetectUricontentSetup 64 (quoted [] false (bytes "boo")) =
      some { content := bytes "boo", content_len := (bytes "boo").length,
             flags := if false = true then 0 ||| 64 else 0, depth := 0, offset := 0,
             within := 0, distance := 0, id := 0 } ∧
      (92 ∉ bytes "boo" →
        bytes "boo" = bytes "boo" ∧ (bytes "boo").length = (bytes "boo").length ∧
        DoDetectUricontentSetup 64 (quoted [] false (bytes "boo")) =
          DoDetectUricontentSetup 64 (quoted [] false (bytes "boo")))) :=
  ⟨(C11_escapes_replaced 64 [] false (bytes "a\\;b\\\\c\\\"d\\:e") (bytes "a;b\\c\"d:e")
      (by decide) (Or.inl rfl) (by decide) (by decide) (by decide) (by decide)).1,
   C11_escapes_replaced 64 [] false (bytes "boo") (bytes "boo")
      (by decide) (Or.inl rfl) (by decide) (by decide) (by decide) (by decide)⟩

/-- C12: for every string `q` that begins with a double quote, the parse of `!` followed by
`q` succeeds exactly when the parse of `q` succeeds, both return the same content bytes
and length, and the `DETECT_CONTENT_NEGATED` flag is set in the first result and clear
in the second. -/
theorem C12_negation_sets_flag (N : Nat) (q : List Nat) (hq : q.head? = some 34) :
    DoDetectUricontentSetup N (33 :: q) =
      (DoDetectUricontentSetup N q).map (fun cd => { cd with flags := 0 ||| N }) ∧
    ((DoDetectUricontentSetup N (33 :: q)).isSome = (DoDetectUricontentSetup N q).isSome) ∧
    (∀ cd1 cd2, DoDetectUricontentSetup N (33 :: q) = some cd1 →
      DoDetectUricontentSetup N q = some cd2 →
      cd1.content = cd2.content ∧ cd1.content_len = cd2.content_len ∧
      cd1.flags &&& N = N ∧ cd2.flags &&& N = 0) := by
  obtain ⟨t, ht⟩ : ∃ t, q = 34 :: t := by
    cases q with
    | nil => simp at hq
    | cons c t =>
      simp only [List.head?_cons, Option.some.injEq] at hq
      exact ⟨t, by rw [hq]⟩
  subst ht
  have hA : DoDetectUricontentSetup N (33 :: 34 :: t) =
      parseQuoted (0 ||| N) (34 :: t) 0 := by
    unfold DoDetectUricontentSetup
    have hne : ¬ (strlen (33 :: 34 :: t) = 0) := by simp [strlen]
    simp only [hne, if_false]
    rw [skipSpaces_nonspace _ _ _ _ (by simp [charAt, isspace])]
    simp only [charAt_cons_zero, if_true]
    have := parseQuoted_shift (0 ||| N) [33] (34 :: t) 0
    simpa using this
  have hB : DoDetectUricontentSetup N (34 :: t) = parseQuoted 0 (34 :: t) 0 := by
    unfold DoDetectUricontentSetup
    have hne : ¬ (strlen (34 :: t) = 0) := by simp [strlen]
    simp only [hne, if_false]
    rw [skipSpaces_nonspace _ _ _ _ (by simp [charAt, isspace])]
    simp [charAt_cons_zero]
  have hflag : ∀ cd, parseQuoted 0 (34 :: t) 0 = some cd → cd.flags = 0 := by
    intro cd h
    unfold parseQuoted at h
    split_ifs at h
    rw [decodeBody_flags 0 0] at h
    obtain ⟨cd0, _, hcd⟩ := Option.map_eq_some'.mp h
    rw [← hcd]
  have hmap : parseQuoted (0 ||| N) (34 :: t) 0 =
      (parseQuoted 0 (34 :: t) 0).map (fun cd => { cd with flags := 0 ||| N }) := by
    unfold parseQuoted
    split_ifs
    · rfl
    · exact decodeBody_flags _ _ _
    · rfl
  have h1 : DoDetectUricontentSetup N (33 :: 34 :: t) =
      (DoDetectUricontentSetup N (34 :: t)).map (fun cd => { cd with flags := 0 ||| N }) := by
    rw [hA, hB, hmap]
  refine ⟨h1, ?_, ?_⟩
  · rw [h1]; simp
  · intro cd1 cd2 e1 e2
    rw [h1, e2] at e1
    simp only [Option.map_some', Option.some.injEq] at e1
    rw [hB] at e2
    have hf := hflag cd2 e2
    subst e1
    simp [hf]

/-- Witness of C12 on `"boo"`, the quoted body of test 12. -/
theorem C12_negation_sets_flag_witness :
    DoDetectUricontentSetup 64 (33 :: bytes "\"boo\"") =
      (DoDetectUricontentSetup 64 (bytes "\"boo\"")).map (fun cd => { cd with flags := 0 ||| 64 }) ∧
    ((DoDetectUricontentSetup 64 (33 :: bytes "\"boo\"")).isSome =
      (DoDetectUricontentSetup 64 (bytes "\"boo\"")).isSome) ∧
    (∀ cd1 cd2, DoDetectUricontentSetup 64 (33 :: bytes "\"boo\"") = some cd1 →
      DoDetectUricontentSetup 64 (bytes "\"boo\"") = some cd2 →
      cd1.content = cd2.content ∧ cd1.content_len = cd2.content_len ∧
      cd1.flags &&& 64 = 64 ∧ cd2.flags &&& 64 = 0) :=
  C12_negation_sets_flag 64 (bytes "\"boo\"") (by decide)

/-- C13 (amended): for every string `s` and every string `w` of whitespace characters such
that `w` followed by `s` is shorter than 65536 bytes, the parse of `w` followed by `s` and
the parse of `s` both fail or both succeed with the same content, length and flags. -/
theorem C13_leading_whitespace_ignored (N : Nat) (w s : List Nat)
    (hw : ∀ c ∈ w, isspace c = true) (hlen : (w ++ s).length < 65536) :
    DoDetectUricontentSetup N (w ++ s) = DoDetectUricontentSetup N s := by
  have hs : s.length < 65536 := by
    simp only [List.length_append] at hlen
    omega
  rw [DoDetect_short N (w ++ s) hlen, DoDetect_short N s hs, List.dropWhile_append_of_pos hw]

/-- Witness of C13 on the input of test 12, four spaces before `!"boo"`. -/
theorem C13_leading_whitespace_ignored_witness :
    DoDetectUricontentSetup 64 ([32, 32, 32, 32] ++ bytes "!\"boo\"") =
      DoDetectUricontentSetup 64 (bytes "!\"boo\"") :=
  C13_leading_whitespace_ignored 64 [32, 32, 32, 32] (bytes "!\"boo\"") (by decide) (by decide)

/-- C13, as stated, fails: `"a"` is accepted, and after 65536 spaces it is rejected,
because the 16-bit `slen` is 3 and the whitespace loop stops at index 3, on a space. -/
theorem C13_long_whitespace_rejected :
    (∀ c ∈ List.replicate 65536 32, isspace c = true) ∧
    DoDetectUricontentSetup 64 (bytes "\"a\"") =
      some { content := [97], content_len := 1, flags := 0, depth := 0, offset := 0,
             within := 0, distance := 0, id := 0 } ∧
    DoDetectUricontentSetup 64 (List.replicate 65536 32 ++ bytes "\"a\"") = none := by
  have hsp : ∀ c ∈ List.replicate 65536 32, isspace c = true :=
    fun c hc => by rw [List.eq_of_mem_replicate hc]; rfl
  refine ⟨hsp, by decide, ?_⟩
  have key : ∀ ws : List Nat, (∀ c ∈ ws, isspace c = true) → ws.length = 65536 →
      DoDetectUricontentSetup 64 (ws ++ bytes "\"a\"") = none := by
    intro ws hws hl
    have hq : ws ++ bytes "\"a\"" = quoted ws false [97] := by
      simp [quoted, bytes]
    rw [hq]
    apply DoDetect_quoted_cut 64 ws false [97] hws
    have : (quoted ws false [97]).length = 65536 + 3 := by
      simp [quoted, hl]
    rw [this, hl]
    decide
  exact key _ hsp (List.length_replicate _ _)

/-- C14 (amended): for every body made of one `|...|` group of `n >= 1` hex pairs, inserting
any number of space characters after the pairs, so that the body with the spaces is still
shorter than 65536 bytes, does not change the descriptor the parser returns: its bytes are
the bytes of the pairs and its length is `n`. -/
theorem C14_spaces_in_group_ignored (N : Nat) (ws : List Nat) (neg : Bool)
    (items : List ((Nat × Nat) × Nat))
    (hws : ∀ c ∈ ws, isspace c = true)
    (hin : ws = [] ∨ (quoted ws neg (124 :: (spacedText items ++ [124]))).length < 65536)
    (hne : items ≠ [])
    (hlen : (124 :: (spacedText items ++ [124])).length < 65536)
    (hps : ∀ it ∈ items, isHexChar it.1.1 = true ∧ isHexChar it.1.2 = true) :
    DoDetectUricontentSetup N (quoted ws neg (124 :: (spacedText items ++ [124]))) =
      DoDetectUricontentSetup N
        (quoted ws neg (124 :: (pairText (items.map Prod.fst) ++ [124]))) ∧
    DoDetectUricontentSetup N (quoted ws neg (124 :: (spacedText items ++ [124]))) =
      some { content := pairBytes (items.map Prod.fst), content_len := items.length,
             flags := if neg then 0 ||| N else 0, depth := 0, offset := 0, within := 0,
             distance := 0, id := 0 } := by
  have hsp := spacedText_length items
  have hpt := pairText_length (items.map Prod.fst)
  simp only [List.length_map] at hpt
  have hA : DoDetectUricontentSetup N (quoted ws neg (124 :: (spacedText items ++ [124]))) =
      some { content := pairBytes (items.map Prod.fst), content_len := items.length,
             flags := if neg then 0 ||| N else 0, depth := 0, offset := 0, within := 0,
             distance := 0, id := 0 } := by
    rw [DoDetect_quoted N ws neg _ hws hin]
    exact decodeBody_spaced _ items hne hlen hps
  have hin2 : ws = [] ∨
      (quoted ws neg (124 :: (pairText (items.map Prod.fst) ++ [124]))).length < 65536 := by
    rcases hin with h | h
    · exact Or.inl h
    · right
      cases neg <;> simp [quoted, hsp, hpt] at h ⊢ <;> omega
  have hz : pairText (items.map Prod.fst) =
      spacedText ((items.map Prod.fst).map (fun p => (p, 0))) := (spacedText_zero _).symm
  have hB : DoDetectUricontentSetup N
      (quoted ws neg (124 :: (pairText (items.map Prod.fst) ++ [124]))) =
      some { content := pairBytes (items.map Prod.fst), content_len := items.length,
             flags := if neg then 0 ||| N else 0, depth := 0, offset := 0, within := 0,
             distance := 0, id := 0 } := by
    rw [DoDetect_quoted N ws neg _ hws hin2, hz]
    have := decodeBody_spaced (if neg then 0 ||| N else 0)
      ((items.map Prod.fst).map (fun p => (p, 0)))
      (by simpa using hne)
      (by
        rw [← hz]
        simp only [List.length_cons, List.length_append, hpt, hsp, List.length_singleton] at hlen ⊢
        omega)
      (by
        intro it hit
        simp only [List.mem_map] at hit
        obtain ⟨p, ⟨q, hq, hqp⟩, hp⟩ := hit
        subst hp
        subst hqp
        exact hps q hq)
    simpa using this
  exact ⟨by rw [hA, hB], hA⟩

/-- Witness of C14: `|af af|` and `|afaf|` both give the two bytes 0xAF 0xAF. -/
theorem C14_spaces_in_group_ignored_witness :
    DoDetectUricontentSetup 64 (quoted [] false (bytes "|af af|")) =
      DoDetectUricontentSetup 64 (quoted [] false (bytes "|afaf|")) ∧
    DoDetectUricontentSetup 64 (quoted [] false (bytes "|af af|")) =
      some { content := [0xAF, 0xAF], content_len := 2, flags := 0, depth := 0, offset := 0,
             within := 0, distance := 0, id := 0 } :=
  C14_spaces_in_group_ignored 64 [] false [((97, 102), 1), ((97, 102), 0)] (by decide)
    (Or.inl rfl) (by decide) (by decide) (by decide)

/-- C14, as stated, fails: `|afaf|` gives two bytes, and with 65530 spaces between the two
pairs the body has 65536 bytes, the 16-bit `len` is 0, and the parser rejects. -/
theorem C14_long_spaces_rejected :
    DoDetectUricontentSetup 64
      (quoted [] false (124 :: (spacedText [((97, 102), 0), ((97, 102), 0)] ++ [124]))) =
      some { content := [0xAF, 0xAF], content_len := 2, flags := 0, depth := 0, offset := 0,
             within := 0, distance := 0, id := 0 } ∧
    DoDetectUricontentSetup 64
      (quoted [] false (124 :: (spacedText [((97, 102), 65530), ((97, 102), 0)] ++ [124]))) =
      none := by
  constructor
  · decide
  · rw [DoDetect_quoted 64 [] false _ (by simp) (Or.inl rfl), decodeBody_eq_scan]
    have hl : (124 :: (spacedText [((97, 102), 65530), ((97, 102), 0)] ++ [124])).length
        % 65536 = 0 := by
      rw [List.length_cons, List.length_append, spacedText_length]
      rfl
    rw [if_pos hl]

/-- C15: `DetectUricontentSetup` returns -1 whenever the signature's alproto is bound to a
protocol other than `ALPROTO_UNKNOWN` or `ALPROTO_HTTP`, `ALPROTO_DCERPC` included, and it
returns 0 exactly when the content string parses and alproto is `ALPROTO_UNKNOWN` or
`ALPROTO_HTTP`; it returns nothing but 0 and -1. -/
theorem C15_setup_return_value {σ : Type} (getId : σ → DetectContentData → Nat × σ)
    (N A : Nat) (de_ctx : σ) (s : Signature) (str : List Nat) :
    ((s.alproto ≠ AppProto.ALPROTO_UNKNOWN ∧ s.alproto ≠ AppProto.ALPROTO_HTTP) →
      (DetectUricontentSetup getId N A de_ctx s str).1 = -1) ∧
    ((DetectUricontentSetup getId N A de_ctx s (str)).1 = 0 ↔
      ((DoDetectUricontentSetup N str).isSome = true ∧
        (s.alproto = AppProto.ALPROTO_UNKNOWN ∨ s.alproto = AppProto.ALPROTO_HTTP))) ∧
    ((DetectUricontentSetup getId N A de_ctx s str).1 = 0 ∨
      (DetectUricontentSetup getId N A de_ctx s str).1 = -1) := by
  by_cases hd : s.alproto = AppProto.ALPROTO_DCERPC
  · have hr : DetectUricontentSetup getId N A de_ctx s str = (-1, de_ctx, s) := by
      unfold DetectUricontentSetup
      simp [hd]
    rw [hr]
    simp [hd]
  · cases hp : DoDetectUricontentSetup N str with
    | none =>
      rw [DetectUricontentSetup_of_none getId N A de_ctx s str hp]
      simp
    | some cd =>
      rw [DetectUricontentSetup_of_some getId N A de_ctx s str cd hd hp]
      by_cases hc : s.alproto ≠ AppProto.ALPROTO_UNKNOWN ∧ s.alproto ≠ AppProto.ALPROTO_HTTP
      · rw [if_pos hc]
        refine ⟨fun _ => rfl, ⟨fun h => ?_, fun h => ?_⟩, Or.inr rfl⟩
        · simp at h
        · rcases h.2 with h | h
          · exact absurd h hc.1
          · exact absurd h hc.2
      · rw [if_neg hc]
        refine ⟨fun h => absurd h hc, ⟨fun _ => ⟨rfl, ?_⟩, fun _ => rfl⟩, Or.inl rfl⟩
        by_cases hu : s.alproto = AppProto.ALPROTO_UNKNOWN
        · exact Or.inl hu
        · right
          by_contra hh
          exact hc ⟨hu, hh⟩

/-- Witness of C15: `"foo"` gives 0 on a signature of unknown protocol or bound to HTTP, and
-1 on a signature bound to DCERPC or to another protocol; `"foo` gives -1. -/
theorem C15_setup_return_value_witness :
    (DetectUricontentSetup (fun (n : Nat) _ => (n, n + 1)) 64 128 0
      ⟨AppProto.ALPROTO_UNKNOWN, 0, [], [], []⟩ (bytes "\"foo\"")).1 = 0 ∧
    (DetectUricontentSetup (fun (n : Nat) _ => (n, n + 1)) 64 128 0
      ⟨AppProto.ALPROTO_HTTP, 0, [], [], []⟩ (bytes "\"foo\"")).1 = 0 ∧
    (DetectUricontentSetup (fun (n : Nat) _ => (n, n + 1)) 64 128 0
      ⟨AppProto.ALPROTO_DCERPC, 0, [], [], []⟩ (bytes "\"foo\"")).1 = -1 ∧
    (DetectUricontentSetup (fun (n : Nat) _ => (n, n + 1)) 64 128 0
      ⟨AppProto.other 7, 0, [], [], []⟩ (bytes "\"foo\"")).1 = -1 ∧
    (DetectUricontentSetup (fun (n : Nat) _ => (n, n + 1)) 64 128 0
      ⟨AppProto.ALPROTO_UNKNOWN, 0, [], [], []⟩ (bytes "\"foo")).1 = -1 :=
  ⟨(C15_setup_return_value _ 64 128 0 ⟨AppProto.ALPROTO_UNKNOWN, 0, [], [], []⟩
      (bytes "\"foo\"")).2.1.mpr ⟨by decide, Or.inl rfl⟩,
   (C15_setup_return_value _ 64 128 0 ⟨AppProto.ALPROTO_HTTP, 0, [], [], []⟩
      (bytes "\"foo\"")).2.1.mpr ⟨by decide, Or.inr rfl⟩,
   (C15_setup_return_value _ 64 128 0 ⟨AppProto.ALPROTO_DCERPC, 0, [], [], []⟩
      (bytes "\"foo\"")).1 ⟨by decide, by decide⟩,
   (C15_setup_return_value _ 64 128 0 ⟨AppProto.other 7, 0, [], [], []⟩
      (bytes "\"foo\"")).1 ⟨by decide, by decide⟩,
   by decide⟩

/-- C16: after every successful `DetectUricontentSetup` (return value 0) the signature's
alproto is `ALPROTO_HTTP`, its `SIG_FLAG_APPLAYER` flag is set, and its uri chain is the
chain before the call followed by one new node of type `DETECT_URICONTENT` whose context
is the descriptor parsed from the content string, with the pattern id it was given. -/
theorem C16_setup_success_state {σ : Type} (getId : σ → DetectContentData → Nat × σ)
    (N A : Nat) (de_ctx : σ) (s : Signature) (str : List Nat)
    (h : (DetectUricontentSetup getId N A de_ctx s str).1 = 0) :
    (DetectUricontentSetup getId N A de_ctx s str).2.2.alproto = AppProto.ALPROTO_HTTP ∧
    (DetectUricontentSetup getId N A de_ctx s str).2.2.flags &&& A = A ∧
    ∃ cd, DoDetectUricontentSetup N str = some cd ∧
      (DetectUricontentSetup getId N A de_ctx s str).2.2.umatch =
        s.umatch ++ [{ type := SigMatchType.DETECT_URICONTENT,
                       ctx := some { cd with id := (getId de_ctx cd).1 } }] := by
  by_cases hd : s.alproto = AppProto.ALPROTO_DCERPC
  · have hr : DetectUricontentSetup getId N A de_ctx s str = (-1, de_ctx, s) := by
      unfold DetectUricontentSetup
      simp [hd]
    rw [hr] at h
    simp at h
  · cases hp : DoDetectUricontentSetup N str with
    | none =>
      rw [DetectUricontentSetup_of_none getId N A de_ctx s str hp] at h
      simp at h
    | some cd =>
      rw [DetectUricontentSetup_of_some getId N A de_ctx s str cd hd hp] at h ⊢
      split_ifs at h ⊢ with hc
      · simp at h
      · exact ⟨rfl, lor_land_self _ _, cd, rfl, rfl⟩

/-- Witness of C16 on an HTTP signature whose uri chain holds one node already. -/
theorem C16_setup_success_state_witness :
    (DetectUricontentSetup (fun (n : Nat) _ => (n, n + 1)) 64 128 5
        ⟨AppProto.ALPROTO_UNKNOWN, 1, [⟨SigMatchType.DETECT_URICONTENT, none⟩], [], []⟩
        (bytes "\"me\"")).2.2 =
      ⟨AppProto.ALPROTO_HTTP, 129,
        [⟨SigMatchType.DETECT_URICONTENT, none⟩,
         ⟨SigMatchType.DETECT_URICONTENT,
          some { content := bytes "me", content_len := 2, flags := 0, depth := 0, offset := 0,
                 within := 0, distance := 0, id := 5 }⟩], [], []⟩ ∧
    (DetectUricontentSetup (fun (n : Nat) _ => (n, n + 1)) 64 128 5
        ⟨AppProto.ALPROTO_UNKNOWN, 1, [⟨SigMatchType.DETECT_URICONTENT, none⟩], [], []⟩
        (bytes "\"me\"")).2.2.alproto = AppProto.ALPROTO_HTTP :=
  ⟨by decide,
   (C16_setup_success_state (fun (n : Nat) _ => (n, n + 1)) 64 128 5
      ⟨AppProto.ALPROTO_UNKNOWN, 1, [⟨SigMatchType.DETECT_URICONTENT, none⟩], [], []⟩
      (bytes "\"me\"") (by decide)).1⟩

/-- C17: for every signature and content string, the payload chain and the generic match
list are the same after `DetectUricontentSetup` as before, whether it succeeds or fails;
and a signature with empty lists given only `uricontent:"foo"` has a non-empty uri chain
and empty payload and match lists. -/
theorem C17_setup_frame {σ : Type} (getId : σ → DetectContentData → Nat × σ)
    (N A : Nat) (de_ctx : σ) (s : Signature) (str : List Nat) :
    (DetectUricontentSetup getId N A de_ctx s str).2.2.pmatch = s.pmatch ∧
    (DetectUricontentSetup getId N A de_ctx s str).2.2.amatch = s.amatch ∧
    ((DetectUricontentSetup getId N A de_ctx ⟨AppProto.ALPROTO_UNKNOWN, 0, [], [], []⟩
        (bytes "\"foo\"")).2.2.umatch ≠ [] ∧
     (DetectUricontentSetup getId N A de_ctx ⟨AppProto.ALPROTO_UNKNOWN, 0, [], [], []⟩
        (bytes "\"foo\"")).2.2.pmatch = [] ∧
     (DetectUricontentSetup getId N A de_ctx ⟨AppProto.ALPROTO_UNKNOWN, 0, [], [], []⟩
        (bytes "\"foo\"")).2.2.amatch = []) := by
  have hframe : ∀ (s : Signature) (str : List Nat),
      (DetectUricontentSetup getId N A de_ctx s str).2.2.pmatch = s.pmatch ∧
      (DetectUricontentSetup getId N A de_ctx s str).2.2.amatch = s.amatch := by
    intro s str
    by_cases hd : s.alproto = AppProto.ALPROTO_DCERPC
    · have hr : DetectUricontentSetup getId N A de_ctx s str = (-1, de_ctx, s) := by
        unfold DetectUricontentSetup
        simp [hd]
      rw [hr]
      exact ⟨rfl, rfl⟩
    · cases hp : DoDetectUricontentSetup N str with
      | none =>
        rw [DetectUricontentSetup_of_none getId N A de_ctx s str hp]
        exact ⟨rfl, rfl⟩
      | some cd =>
        rw [DetectUricontentSetup_of_some getId N A de_ctx s str cd hd hp]
        split_ifs
        · exact ⟨rfl, rfl⟩
        · exact ⟨rfl, rfl⟩
  refine ⟨(hframe s str).1, (hframe s str).2, ?_, (hframe _ _).1, (hframe _ _).2⟩
  have hfoo : DoDetectUricontentSetup N (bytes "\"foo\"") =
      some { content := bytes "foo", content_len := 3, flags := 0, depth := 0, offset := 0,
             within := 0, distance := 0, id := 0 } := by
    have := DoDetect_quoted N [] false (bytes "foo") (by simp) (Or.inl rfl)
    rw [show quoted [] false (bytes "foo") = bytes "\"foo\"" by decide] at this
    rw [this]
    simp only [Bool.false_eq_true, if_false]
    decide
  rw [DetectUricontentSetup_of_some getId N A de_ctx _ _ _ (by decide) hfoo]
  simp [SigMatchAppendUricontent]

/-- C18: `DetectUricontentGetLastPattern` returns `NULL` for `NULL`; it returns the nearest
node of type `DETECT_URICONTENT` reachable through `prev` links, passing over every node
of another type, when that node has a context; it returns `NULL` when that node has no
context and when the chain has no such node; and the node it returns is always of type
`DETECT_URICONTENT` with a context, with only nodes of other types before it. -/
theorem C18_last_uricontent_pattern :
    DetectUricontentGetLastPattern [] = [] ∧
    (∀ (pre : List SigMatch) (n : SigMatch) (rest : List SigMatch),
      (∀ m ∈ pre, m.type ≠ SigMatchType.DETECT_URICONTENT) →
      n.type = SigMatchType.DETECT_URICONTENT → n.ctx ≠ none →
      DetectUricontentGetLastPattern (pre ++ n :: rest) = n :: rest) ∧
    (∀ (pre : List SigMatch) (n : SigMatch) (rest : List SigMatch),
      (∀ m ∈ pre, m.type ≠ SigMatchType.DETECT_URICONTENT) →
      n.type = SigMatchType.DETECT_URICONTENT → n.ctx = none →
      DetectUricontentGetLastPattern (pre ++ n :: rest) = []) ∧
    (∀ (chain : List SigMatch),
      (∀ m ∈ chain, m.type ≠ SigMatchType.DETECT_URICONTENT) →
      DetectUricontentGetLastPattern chain = []) ∧
    (∀ (chain : List SigMatch) (n : SigMatch) (rest : List SigMatch),
      DetectUricontentGetLastPattern chain = n :: rest →
      n.type = SigMatchType.DETECT_URICONTENT ∧ n.ctx ≠ none ∧
        ∃ pre, chain = pre ++ n :: rest ∧
          ∀ m ∈ pre, m.type ≠ SigMatchType.DETECT_URICONTENT) := by
  have hstop : ∀ (n : SigMatch) (rest : List SigMatch),
      n.type = SigMatchType.DETECT_URICONTENT → skipToUricontent (n :: rest) = n :: rest := by
    intro n rest hn
    simp [skipToUricontent, hn]
  refine ⟨rfl, ?_, ?_, ?_, ?_⟩
  · intro pre n rest hpre hn hctx
    rw [GetLastPattern_eq, skipToUricontent_append pre _ hpre, hstop n rest hn]
    cases hc : n.ctx with
    | none => exact absurd hc hctx
    | some cd => simp only [hc]
  · intro pre n rest hpre hn hctx
    rw [GetLastPattern_eq, skipToUricontent_append pre _ hpre, hstop n rest hn]
    simp only [hctx]
  · intro chain hall
    rw [GetLastPattern_eq]
    have := skipToUricontent_append chain [] hall
    rw [List.append_nil] at this
    rw [this]
    rfl
  · intro chain n rest h
    rw [GetLastPattern_eq] at h
    cases hs : skipToUricontent chain with
    | nil => rw [hs] at h; simp at h
    | cons found prev =>
      rw [hs] at h
      cases hc : found.ctx with
      | none => simp [hc] at h
      | some cd =>
        simp only [hc, List.cons.injEq] at h
        obtain ⟨h1, h2⟩ := h
        subst h1
        subst h2
        obtain ⟨ht, pre, hch, hpre⟩ := skipToUricontent_cons chain found prev hs
        exact ⟨ht, by simp [hc], pre, hch, hpre⟩

/-- Witness of C18 on a chain with a content node after the uricontent node, as in
`uricontent:"foo"; content:"bar"`: the uricontent node is returned. -/
theorem C18_last_uricontent_pattern_witness :
    DetectUricontentGetLastPattern
      ([⟨SigMatchType.DETECT_CONTENT, none⟩] ++
        (⟨SigMatchType.DETECT_URICONTENT,
          some { content := bytes "foo", content_len := 3, flags := 0, depth := 0,
                 offset := 0, within := 0, distance := 0, id := 0 }⟩ :: [])) =
      ⟨SigMatchType.DETECT_URICONTENT,
        some { content := bytes "foo", content_len := 3, flags := 0, depth := 0,
               offset := 0, within := 0, distance := 0, id := 0 }⟩ :: [] :=
  C18_last_uricontent_pattern.2.1 [⟨SigMatchType.DETECT_CONTENT, none⟩] _ []
    (by decide) rfl (by decide)

/-- C19: for a flow with HTTP state whose inspection cursor `idx` is not negative and whose
transaction list has a size that fits the `int` it is cast to, `DetectUricontentInspectMpm`
makes the calls of `DoDetectAppLayerUricontentMatch` on the normalized uris of the
transactions from index `idx` on, in increasing order, passing over the transactions that
are missing or have no normalized uri, and returns the sum of what the calls return,
accumulated in a `uint32_t`: the sum modulo 2^32, and the sum itself when it is not
negative and below 2^32. -/
theorem C19_inspect_accumulates {σ : Type}
    (search : DetectEngineThreadCtx σ → List Nat → Nat → Nat × DetectEngineThreadCtx σ)
    (det_ctx : DetectEngineThreadCtx σ) (f : Flow) (txs : List (Option HtpTx))
    (hidx : 0 ≤ f.inspect_id) (hsize : txs.length < 2147483648) :
    (DetectUricontentInspectMpm search det_ctx f (some ⟨some txs⟩)).cnt =
      ((matchAll search det_ctx (urisFrom txs f.inspect_id.toNat)).1.sum % 4294967296).toNat ∧
    (DetectUricontentInspectMpm search det_ctx f (some ⟨some txs⟩)).det_ctx =
      (matchAll search det_ctx (urisFrom txs f.inspect_id.toNat)).2 ∧
    (0 ≤ (matchAll search det_ctx (urisFrom txs f.inspect_id.toNat)).1.sum →
      (matchAll search det_ctx (urisFrom txs f.inspect_id.toNat)).1.sum < 4294967296 →
      ((DetectUricontentInspectMpm search det_ctx f (some ⟨some txs⟩)).cnt : Int) =
        (matchAll search det_ctx (urisFrom txs f.inspect_id.toNat)).1.sum) := by
  obtain ⟨k, hk⟩ := Int.eq_ofNat_of_zero_le hidx
  have hne : f.inspect_id ≠ -1 := by omega
  have hrun : DetectUricontentInspectMpm search det_ctx f (some ⟨some txs⟩) =
      { cnt := ((matchAll search det_ctx (urisFrom txs k)).1.foldl addU32 0),
        det_ctx := (matchAll search det_ctx (urisFrom txs k)).2,
        flow := { f with m := SCMutexUnlock (SCMutexLock f.m) } } := by
    have hne2 : ¬ ((k : Int) = -1) := by omega
    unfold DetectUricontentInspectMpm
    simp only [Option.bind, toInt32_of_lt _ hsize, hk, hne2, if_false]
    rw [inspectLoop_eq search txs _ k 0 det_ctx (by omega)]
  have hk2 : f.inspect_id.toNat = k := by rw [hk]; rfl
  rw [hrun, hk2]
  simp only
  rw [foldl_addU32 _ 0 (by decide)]
  simp only [Int.Nat.cast_ofNat_Int, Int.zero_add, Nat.cast_zero, true_and]
  intro h0 hlt
  rw [Int.toNat_of_nonneg (Int.emod_nonneg _ (by decide)), Int.emod_eq_of_lt h0 hlt]

/-- Witness of C19: with cursor 1 over four transactions, of which the first and the third
have a uri, the second has none and the fourth is missing, and a search that reports 5
hits, the only call is on the uri of the third transaction and the count is 5. -/
theorem C19_inspect_accumulates_witness :
    (DetectUricontentInspectMpm (fun (d : DetectEngineThreadCtx Unit) _ _ => (5, d))
        ⟨1, 0, 0, 0, 0, 0, 0, ()⟩ ⟨⟨false, 0, 0⟩, 1⟩
        (some ⟨some [some ⟨some (bytes "/a")⟩, some ⟨none⟩, some ⟨some (bytes "/one")⟩, none]⟩)).cnt
      = 5 ∧
    ((matchAll (fun (d : DetectEngineThreadCtx Unit) _ _ => (5, d)) ⟨1, 0, 0, 0, 0, 0, 0, ()⟩
        (urisFrom [some ⟨some (bytes "/a")⟩, some ⟨none⟩, some ⟨some (bytes "/one")⟩, none]
          (1 : Int).toNat)).1.sum % 4294967296).toNat = 5 :=
  ⟨by decide,
   ((C19_inspect_accumulates (fun (d : DetectEngineThreadCtx Unit) _ _ => (5, d))
      ⟨1, 0, 0, 0, 0, 0, 0, ()⟩ ⟨⟨false, 0, 0⟩, 1⟩
      [some ⟨some (bytes "/a")⟩, some ⟨none⟩, some ⟨some (bytes "/one")⟩, none]
      (by decide) (by decide)).1).symm.trans (by decide)⟩

/-- C20: `DetectUricontentInspectMpm` returns 0 and leaves the thread context as it was,
whatever the search function, when `htp_state` is `NULL`, when its connection parser is
`NULL`, and when the inspection cursor of the flow is reported as -1. -/
theorem C20_no_state_no_search {σ : Type}
    (search : DetectEngineThreadCtx σ → List Nat → Nat → Nat × DetectEngineThreadCtx σ)
    (det_ctx : DetectEngineThreadCtx σ) (f : Flow) (htp_state : Option HtpState)
    (h : htp_state = none ∨ (∃ hs, htp_state = some hs ∧ hs.connp = none) ∨
      f.inspect_id = -1) :
    (DetectUricontentInspectMpm search det_ctx f htp_state).cnt = 0 ∧
    (DetectUricontentInspectMpm search det_ctx f htp_state).det_ctx = det_ctx := by
  unfold DetectUricontentInspectMpm
  rcases h with h | ⟨hs, h1, h2⟩ | h
  · subst h
    exact ⟨rfl, rfl⟩
  · subst h1
    simp [Option.bind, h2]
  · cases hb : htp_state.bind (fun h => h.connp) with
    | none => exact ⟨rfl, rfl⟩
    | some txs => simp [h]

/-- Witness of C20 on a flow without HTTP state, on one whose state has no connection
parser, and on one with a transaction and the cursor -1. -/
theorem C20_no_state_no_search_witness :
    (DetectUricontentInspectMpm (fun (d : DetectEngineThreadCtx Unit) _ _ => (5, d))
        ⟨1, 0, 0, 0, 0, 0, 0, ()⟩ ⟨⟨false, 0, 0⟩, 0⟩ none).cnt = 0 ∧
    (DetectUricontentInspectMpm (fun (d : DetectEngineThreadCtx Unit) _ _ => (5, d))
        ⟨1, 0, 0, 0, 0, 0, 0, ()⟩ ⟨⟨false, 0, 0⟩, 0⟩ (some ⟨none⟩)).cnt = 0 ∧
    (DetectUricontentInspectMpm (fun (d : DetectEngineThreadCtx Unit) _ _ => (5, d))
        ⟨1, 0, 0, 0, 0, 0, 0, ()⟩ ⟨⟨false, 0, 0⟩, -1⟩
        (some ⟨some [some ⟨some (bytes "/one")⟩]⟩)).cnt = 0 :=
  ⟨(C20_no_state_no_search _ ⟨1, 0, 0, 0, 0, 0, 0, ()⟩ ⟨⟨false, 0, 0⟩, 0⟩ none
      (Or.inl rfl)).1,
   (C20_no_state_no_search _ ⟨1, 0, 0, 0, 0, 0, 0, ()⟩ ⟨⟨false, 0, 0⟩, 0⟩ (some ⟨none⟩)
      (Or.inr (Or.inl ⟨⟨none⟩, rfl, rfl⟩))).1,
   (C20_no_state_no_search _ ⟨1, 0, 0, 0, 0, 0, 0, ()⟩ ⟨⟨false, 0, 0⟩, -1⟩
      (some ⟨some [some ⟨some (bytes "/one")⟩]⟩) (Or.inr (Or.inr rfl))).1⟩

/-- C21: for every uri whose length `uri_len` is smaller than `mpm_uricontent_maxlen`,
`DoDetectAppLayerUricontentMatch` returns 0 and leaves the thread context, with its search
counters, as it was, whatever the search function; for every uri whose length is at least
that value it counts the uri once, in `uris` and in one of the `pkts_uri_searched`
counters, invokes the search once on the thread context so updated, and returns what the
search reports, converted to `int`: the number of hits itself when that is below 2^31. -/
theorem C21_length_prefilter {σ : Type}
    (search : DetectEngineThreadCtx σ → List Nat → Nat → Nat × DetectEngineThreadCtx σ)
    (det_ctx : DetectEngineThreadCtx σ) (uri : List Nat) (uri_len : Nat) :
    (uri_len < det_ctx.mpm_uricontent_maxlen →
      DoDetectAppLayerUricontentMatch search det_ctx uri uri_len = (0, det_ctx)) ∧
    (det_ctx.mpm_uricontent_maxlen ≤ uri_len →
      ∃ d2 : DetectEngineThreadCtx σ,
        d2.uris = det_ctx.uris + 1 ∧
        d2.pkts_uri_searched1 + d2.pkts_uri_searched2 + d2.pkts_uri_searched3 +
            d2.pkts_uri_searched4 + d2.pkts_uri_searched =
          det_ctx.pkts_uri_searched1 + det_ctx.pkts_uri_searched2 +
            det_ctx.pkts_uri_searched3 + det_ctx.pkts_uri_searched4 +
            det_ctx.pkts_uri_searched + 1 ∧
        d2.mpm_uricontent_maxlen = det_ctx.mpm_uricontent_maxlen ∧ d2.mpm = det_ctx.mpm ∧
        DoDetectAppLayerUricontentMatch search det_ctx uri uri_len =
          (toInt32 (search d2 uri uri_len).1, (search d2 uri uri_len).2) ∧
        ((search d2 uri uri_len).1 < 2147483648 →
          (DoDetectAppLayerUricontentMatch search det_ctx uri uri_len).1 =
            ((search d2 uri uri_len).1 : Int))) := by
  constructor
  · intro h
    unfold DoDetectAppLayerUricontentMatch
    rw [if_pos h]
  · intro h
    have hn : ¬ (det_ctx.mpm_uricontent_maxlen > uri_len) := by omega
    unfold DoDetectAppLayerUricontentMatch
    simp only [hn, if_false]
    split_ifs
    all_goals
      refine ⟨_, ?_, ?_, ?_, ?_, rfl, ?_⟩
      · rfl
      · simp only
        omega
      · rfl
      · rfl
      · intro hlt
        exact toInt32_of_lt _ hlt

/-- Witness of C21 with `mpm_uricontent_maxlen` 4 and a search that reports 7 hits: the
uri `/a` is filtered, the uri `/one` is searched once. -/
theorem C21_length_prefilter_witness :
    DoDetectAppLayerUricontentMatch (fun (d : DetectEngineThreadCtx Unit) _ _ => (7, d))
        ⟨4, 0, 0, 0, 0, 0, 0, ()⟩ (bytes "/a") 2 = (0, ⟨4, 0, 0, 0, 0, 0, 0, ()⟩) ∧
    (DoDetectAppLayerUricontentMatch (fun (d : DetectEngineThreadCtx Unit) _ _ => (7, d))
        ⟨4, 0, 0, 0, 0, 0, 0, ()⟩ (bytes "/one") 4).1 = 7 ∧
    (DoDetectAppLayerUricontentMatch (fun (d : DetectEngineThreadCtx Unit) _ _ => (7, d))
        ⟨4, 0, 0, 0, 0, 0, 0, ()⟩ (bytes "/one") 4).2.uris = 1 :=
  ⟨(C21_length_prefilter (fun (d : DetectEngineThreadCtx Unit) _ _ => (7, d))
      ⟨4, 0, 0, 0, 0, 0, 0, ()⟩ (bytes "/a") 2).1 (by decide),
   by decide, by decide⟩

/-- C22 (amended): `DetectUricontentInspectMpm` reads the inspection cursor of the flow and
does not change it: the flow after the call has the cursor it had before, so the cursor
never decreases; no transaction below the cursor is searched; and a second call on the
flow the first call leaves makes the searches a first call makes and returns its count. -/
theorem C22_cursor_unchanged {σ : Type}
    (search : DetectEngineThreadCtx σ → List Nat → Nat → Nat × DetectEngineThreadCtx σ)
    (det_ctx : DetectEngineThreadCtx σ) (f : Flow) (htp_state : Option HtpState) :
    (DetectUricontentInspectMpm search det_ctx f htp_state).flow.inspect_id = f.inspect_id ∧
    (∀ d : DetectEngineThreadCtx σ,
      (DetectUricontentInspectMpm search d
          (DetectUricontentInspectMpm search det_ctx f htp_state).flow htp_state).cnt =
        (DetectUricontentInspectMpm search d f htp_state).cnt ∧
      (DetectUricontentInspectMpm search d
          (DetectUricontentInspectMpm search det_ctx f htp_state).flow htp_state).det_ctx =
        (DetectUricontentInspectMpm search d f htp_state).det_ctx) ∧
    (∀ (txs : List (Option HtpTx)) (k : Nat), htp_state = some ⟨some txs⟩ →
      f.inspect_id = (k : Int) → txs.length < 2147483648 →
      (DetectUricontentInspectMpm search det_ctx f htp_state).cnt =
        (matchAll search det_ctx (urisFrom txs k)).1.foldl addU32 0 ∧
      (DetectUricontentInspectMpm search det_ctx f htp_state).det_ctx =
        (matchAll search det_ctx (urisFrom txs k)).2) := by
  refine ⟨?_, ?_, ?_⟩
  · rw [DetectUricontentInspectMpm_flow]
  · intro d
    rw [DetectUricontentInspectMpm_flow]
    exact DetectUricontentInspectMpm_mutex search d f _ htp_state
  · intro txs k hs hk hsize
    subst hs
    rw [DetectUricontentInspectMpm_run search det_ctx f txs k hk hsize]
    exact ⟨rfl, rfl⟩

/-- C22, as stated, fails: with one transaction `/one`, the cursor 0 and a search that
reports one hit, the call returns 1 and leaves the cursor at 0, not past the transaction
it searched, and a second call on the flow it leaves searches the transaction again and
returns 1 again. -/
theorem C22_second_call_searches_again :
    (DetectUricontentInspectMpm (fun (d : DetectEngineThreadCtx Unit) _ _ => (1, d))
        ⟨1, 0, 0, 0, 0, 0, 0, ()⟩ ⟨⟨false, 0, 0⟩, 0⟩
        (some ⟨some [some ⟨some (bytes "/one")⟩]⟩)).cnt = 1 ∧
    (DetectUricontentInspectMpm (fun (d : DetectEngineThreadCtx Unit) _ _ => (1, d))
        ⟨1, 0, 0, 0, 0, 0, 0, ()⟩ ⟨⟨false, 0, 0⟩, 0⟩
        (some ⟨some [some ⟨some (bytes "/one")⟩]⟩)).flow.inspect_id = 0 ∧
    (DetectUricontentInspectMpm (fun (d : DetectEngineThreadCtx Unit) _ _ => (1, d))
        (DetectUricontentInspectMpm (fun (d : DetectEngineThreadCtx Unit) _ _ => (1, d))
          ⟨1, 0, 0, 0, 0, 0, 0, ()⟩ ⟨⟨false, 0, 0⟩, 0⟩
          (some ⟨some [some ⟨some (bytes "/one")⟩]⟩)).det_ctx
        (DetectUricontentInspectMpm (fun (d : DetectEngineThreadCtx Unit) _ _ => (1, d))
          ⟨1, 0, 0, 0, 0, 0, 0, ()⟩ ⟨⟨false, 0, 0⟩, 0⟩
          (some ⟨some [some ⟨some (bytes "/one")⟩]⟩)).flow
        (some ⟨some [some ⟨some (bytes "/one")⟩]⟩)).cnt = 1 ∧
    (DetectUricontentInspectMpm (fun (d : DetectEngineThreadCtx Unit) _ _ => (1, d))
        (DetectUricontentInspectMpm (fun (d : DetectEngineThreadCtx Unit) _ _ => (1, d))
          ⟨1, 0, 0, 0, 0, 0, 0, ()⟩ ⟨⟨false, 0, 0⟩, 0⟩
          (some ⟨some [some ⟨some (bytes "/one")⟩]⟩)).det_ctx
        (DetectUricontentInspectMpm (fun (d : DetectEngineThreadCtx Unit) _ _ => (1, d))
          ⟨1, 0, 0, 0, 0, 0, 0, ()⟩ ⟨⟨false, 0, 0⟩, 0⟩
          (some ⟨some [some ⟨some (bytes "/one")⟩]⟩)).flow
        (some ⟨some [some ⟨some (bytes "/one")⟩]⟩)).det_ctx.uris = 2 := by
  refine ⟨by decide, by decide, by decide, by decide⟩

/-- C23: pattern ids.  The registry is the one reached from the empty registry by any
requests `calls1`.  A uricontent keyword whose string parses to the descriptor `cd1` gives
its node the id that `DetectUricontentGetId` returns for `cd1`; after any further requests
`calls2`, a second uricontent keyword whose descriptor `cd2` has the same content bytes
gives its node the same id, and a payload descriptor `pd` with the same content bytes is
given a different id by `DetectContentGetId`, also when the payload descriptor is
registered first. -/
theorem C23_pattern_ids (calls1 calls2 : List (PatternNamespace × List Nat))
    (N A : Nat) (s1 s2 : Signature) (str1 str2 : List Nat) (cd1 cd2 pd : DetectContentData)
    (ha1 : s1.alproto = AppProto.ALPROTO_UNKNOWN ∨ s1.alproto = AppProto.ALPROTO_HTTP)
    (ha2 : s2.alproto = AppProto.ALPROTO_UNKNOWN ∨ s2.alproto = AppProto.ALPROTO_HTTP)
    (h1 : DoDetectUricontentSetup N str1 = some cd1)
    (h2 : DoDetectUricontentSetup N str2 = some cd2)
    (h12 : cd2.content = cd1.content) (hp : pd.content = cd1.content) :
    (DetectUricontentSetup DetectUricontentGetId N A (getIds calls1 emptyStore) s1
        str1).2.2.umatch =
      s1.umatch ++ [⟨SigMatchType.DETECT_URICONTENT,
        some { cd1 with id := (DetectUricontentGetId (getIds calls1 emptyStore) cd1).1 }⟩] ∧
    (DetectUricontentSetup DetectUricontentGetId N A
        (getIds calls2 (DetectUricontentSetup DetectUricontentGetId N A
          (getIds calls1 emptyStore) s1 str1).2.1) s2 str2).2.2.umatch =
      s2.umatch ++ [⟨SigMatchType.DETECT_URICONTENT,
        some { cd2 with id := (DetectUricontentGetId (getIds calls1 emptyStore) cd1).1 }⟩] ∧
    (DetectContentGetId
        (getIds calls2 (DetectUricontentSetup DetectUricontentGetId N A
          (getIds calls1 emptyStore) s1 str1).2.1) pd).1 ≠
      (DetectUricontentGetId (getIds calls1 emptyStore) cd1).1 ∧
    (DetectUricontentGetId
        (getIds calls2 (DetectContentGetId (getIds calls1 emptyStore) pd).2) cd1).1 ≠
      (DetectContentGetId (getIds calls1 emptyStore) pd).1 := by
  have hd1 : s1.alproto ≠ AppProto.ALPROTO_DCERPC := by
    rcases ha1 with h | h <;> rw [h] <;> decide
  have hd2 : s2.alproto ≠ AppProto.ALPROTO_DCERPC := by
    rcases ha2 with h | h <;> rw [h] <;> decide
  have hn1 : ¬ (s1.alproto ≠ AppProto.ALPROTO_UNKNOWN ∧ s1.alproto ≠ AppProto.ALPROTO_HTTP) := by
    rcases ha1 with h | h <;> simp [h]
  have hn2 : ¬ (s2.alproto ≠ AppProto.ALPROTO_UNKNOWN ∧ s2.alproto ≠ AppProto.ALPROTO_HTTP) := by
    rcases ha2 with h | h <;> simp [h]
  have hi := getIds_inv calls1 emptyStore emptyStore_inv
  have hu := MpmPatternGetId_stable (getIds calls1 emptyStore) hi calls2
    PatternNamespace.uri cd1.content
  have hq := MpmPatternGetId_stable (getIds calls1 emptyStore) hi calls2
    PatternNamespace.payload cd1.content
  rw [DetectUricontentSetup_of_some _ N A _ s1 str1 cd1 hd1 h1, if_neg hn1]
  rw [DetectUricontentSetup_of_some _ N A _ s2 str2 cd2 hd2 h2, if_neg hn2]
  refine ⟨rfl, ?_, ?_, ?_⟩
  · simp only [SigMatchAppendUricontent, DetectUricontentGetId, h12]
    rw [hu.1]
  · simp only [DetectContentGetId, DetectUricontentGetId, hp]
    exact hu.2 PatternNamespace.payload (by decide)
  · simp only [DetectContentGetId, DetectUricontentGetId, hp]
    exact hq.2 PatternNamespace.uri (by decide)

/-- C23 on the rule of `DetectUricontentSigTest09` and `DetectUricontentSigTest10`: from
the empty registry, `uricontent:"one"` is given the id 0, the payload content `one` the
id 1, and a second `uricontent:"one"` the id 0 again. -/
theorem C23_pattern_ids_witness :
    (DetectUricontentSetup DetectUricontentGetId 64 128 emptyStore
        ⟨AppProto.ALPROTO_UNKNOWN, 0, [], [], []⟩ (bytes "\"one\"")).2.2.umatch =
      [⟨SigMatchType.DETECT_URICONTENT,
        some { content := bytes "one", content_len := 3, flags := 0, depth := 0, offset := 0,
               within := 0, distance := 0, id := 0 }⟩] ∧
    (DetectContentGetId
        (getIds [(PatternNamespace.payload, bytes "one"), (PatternNamespace.payload, bytes "two")]
          (DetectUricontentSetup DetectUricontentGetId 64 128 emptyStore
            ⟨AppProto.ALPROTO_UNKNOWN, 0, [], [], []⟩ (bytes "\"one\"")).2.1)
        (newDescriptor (bytes "one"))).1 = 1 ∧
    (DetectContentGetId
        (getIds [(PatternNamespace.payload, bytes "one"), (PatternNamespace.payload, bytes "two")]
          (DetectUricontentSetup DetectUricontentGetId 64 128 emptyStore
            ⟨AppProto.ALPROTO_UNKNOWN, 0, [], [], []⟩ (bytes "\"one\"")).2.1)
        (newDescriptor (bytes "one"))).1 ≠
      (DetectUricontentGetId (getIds [] emptyStore) (newDescriptor (bytes "one"))).1 :=
  ⟨by decide, by decide,
    (C23_pattern_ids [] [(PatternNamespace.payload, bytes "one"),
        (PatternNamespace.payload, bytes "two")] 64 128
      ⟨AppProto.ALPROTO_UNKNOWN, 0, [], [], []⟩ ⟨AppProto.ALPROTO_HTTP, 128, [], [], []⟩
      (bytes "\"one\"") (bytes "\"one\"") (newDescriptor (bytes "one"))
      (newDescriptor (bytes "one")) (newDescriptor (bytes "one"))
      (Or.inl rfl) (Or.inr rfl) (by decide) (by decide) rfl rfl).2.2.1⟩

/-- C24: a descriptor with an absolute and a relative constraint is rejected.  For a
depth N and an offset O that are not both 0 and a within W or a distance D other than 0:
the three modifiers on one descriptor are rejected in each of the six orders, and a rule
holding such a clause fails to load; every descriptor that loads carries an absolute
constraint or a relative one, never both; and the rule with `depth:N; offset:O` on one
descriptor and the within or the distance on the next descriptor loads, with the relative
constraint on the second descriptor alone. -/
theorem C24_absolute_and_relative_rejected (c : List Nat) (N O W : Nat) (D : Int)
    (hA : N ≠ 0 ∨ O ≠ 0) (hW : W ≠ 0) (hD : D ≠ 0) :
    (∀ r ∈ [Modifier.within W, Modifier.distance D],
      ∀ ms ∈ [[Modifier.depth N, Modifier.offset O, r],
              [Modifier.offset O, Modifier.depth N, r],
              [Modifier.depth N, r, Modifier.offset O],
              [Modifier.offset O, r, Modifier.depth N],
              [r, Modifier.depth N, Modifier.offset O],
              [r, Modifier.offset O, Modifier.depth N]],
        applyModifiers (newDescriptor c) ms = none ∧
        ∀ (t : SigMatchType) (pre post : List ContentClause),
          loadRule (pre ++ ⟨t, c, ms⟩ :: post) = none) ∧
    (∀ (ms : List Modifier) (cd : DetectContentData),
      applyModifiers (newDescriptor c) ms = some cd →
        ¬ ((cd.offset ≠ 0 ∨ cd.depth ≠ 0) ∧ (cd.distance ≠ 0 ∨ cd.within ≠ 0))) ∧
    (∀ r ∈ [Modifier.within W, Modifier.distance D],
      ∀ (t1 t2 : SigMatchType) (c2 : List Nat),
        ∃ cd1, loadRule [⟨t1, c, [Modifier.depth N, Modifier.offset O]⟩, ⟨t2, c2, [r]⟩] =
            some [⟨t1, some cd1⟩, ⟨t2, some (amend (newDescriptor c2) r)⟩] ∧
          cd1.offset = O ∧ cd1.within = 0 ∧ cd1.distance = 0) := by
  have hWi : (W : Int) ≠ 0 := by exact_mod_cast hW
  have key : ∀ r ∈ [Modifier.within W, Modifier.distance D],
      ∀ ms ∈ [[Modifier.depth N, Modifier.offset O, r],
              [Modifier.offset O, Modifier.depth N, r],
              [Modifier.depth N, r, Modifier.offset O],
              [Modifier.offset O, r, Modifier.depth N],
              [r, Modifier.depth N, Modifier.offset O],
              [r, Modifier.offset O, Modifier.depth N]],
        applyModifiers (newDescriptor c) ms = none := by
    intro r hr ms hms
    simp only [List.mem_cons, List.mem_singleton, List.not_mem_nil, or_false] at hr hms
    by_cases hN : N = 0
    · have hO : O ≠ 0 := by
        rcases hA with h | h
        · exact absurd hN h
        · exact h
      subst hN
      rcases hr with rfl | rfl <;> rcases hms with rfl | rfl | rfl | rfl | rfl | rfl <;>
        simp [applyModifiers_cons, applyModifiers_nil, amend, hasBothConstraints, newDescriptor,
          hO, hWi, hD]
    · rcases hr with rfl | rfl <;> rcases hms with rfl | rfl | rfl | rfl | rfl | rfl <;>
        simp [applyModifiers_cons, applyModifiers_nil, amend, hasBothConstraints, newDescriptor,
          hN, hWi, hD]
  refine ⟨?_, ?_, ?_⟩
  · intro r hr ms hms
    refine ⟨key r hr ms hms, ?_⟩
    intro t pre post
    exact loadRule_none_of_clause pre post _ (loadClause_of_none t c ms (key r hr ms hms))
  · intro ms cd h
    have := applyModifiers_inv _ cd ms (hasBothConstraints_newDescriptor c) h
    simpa [hasBothConstraints] using this
  · intro r hr t1 t2 c2
    simp only [List.mem_cons, List.mem_singleton, List.not_mem_nil, or_false] at hr
    have e1 : applyModifiers (newDescriptor c) [Modifier.depth N, Modifier.offset O] =
        some (amend (amend (newDescriptor c) (Modifier.depth N)) (Modifier.offset O)) := by
      simp [applyModifiers_cons, applyModifiers_nil, amend, hasBothConstraints, newDescriptor]
    have e2 : applyModifiers (newDescriptor c2) [r] = some (amend (newDescriptor c2) r) := by
      rcases hr with rfl | rfl <;>
        simp [applyModifiers_cons, applyModifiers_nil, amend, hasBothConstraints, newDescriptor]
    refine ⟨amend (amend (newDescriptor c) (Modifier.depth N)) (Modifier.offset O), ?_,
      rfl, rfl, rfl⟩
    rw [loadRule_cons, loadRule_cons, loadClause_of_some _ _ _ _ e1,
      loadClause_of_some _ _ _ _ e2]
    rfl

/-- C24 on the rules of `DetectUriSigTest04`: after `content:"bar"; depth:10; offset: 5`
a `within:3` or a `distance:3` on the same descriptor makes the rule fail to load (rules
5 and 6), and a `within:30` or a `distance:30` on a later content or uricontent loads
(rules 7 to 10), the first payload descriptor keeping the depth 15 and the offset 5. -/
theorem C24_absolute_and_relative_rejected_witness :
    loadRule [⟨SigMatchType.DETECT_URICONTENT, bytes "foo", []⟩,
        ⟨SigMatchType.DETECT_CONTENT, bytes "bar",
          [Modifier.depth 10, Modifier.offset 5, Modifier.within 3]⟩] = none ∧
    loadRule [⟨SigMatchType.DETECT_URICONTENT, bytes "foo", []⟩,
        ⟨SigMatchType.DETECT_CONTENT, bytes "bar",
          [Modifier.depth 10, Modifier.offset 5, Modifier.distance 3]⟩] = none ∧
    loadRule [⟨SigMatchType.DETECT_URICONTENT, bytes "foo", []⟩,
        ⟨SigMatchType.DETECT_CONTENT, bytes "bar", [Modifier.depth 10, Modifier.offset 5]⟩,
        ⟨SigMatchType.DETECT_CONTENT, bytes "two_contents", [Modifier.within 30]⟩] =
      some [⟨SigMatchType.DETECT_URICONTENT, some (newDescriptor (bytes "foo"))⟩,
        ⟨SigMatchType.DETECT_CONTENT,
          some { newDescriptor (bytes "bar") with depth := 15, offset := 5 }⟩,
        ⟨SigMatchType.DETECT_CONTENT,
          some { newDescriptor (bytes "two_contents") with within := 30 }⟩] ∧
    loadRule [⟨SigMatchType.DETECT_URICONTENT, bytes "foo", []⟩,
        ⟨SigMatchType.DETECT_CONTENT, bytes "bar", [Modifier.depth 10, Modifier.offset 5]⟩,
        ⟨SigMatchType.DETECT_URICONTENT, bytes "two_uricontents", [Modifier.distance 30]⟩] =
      some [⟨SigMatchType.DETECT_URICONTENT, some (newDescriptor (bytes "foo"))⟩,
        ⟨SigMatchType.DETECT_CONTENT,
          some { newDescriptor (bytes "bar") with depth := 15, offset := 5 }⟩,
        ⟨SigMatchType.DETECT_URICONTENT,
          some { newDescriptor (bytes "two_uricontents") with distance := 30 }⟩] :=
  ⟨((C24_absolute_and_relative_rejected (bytes "bar") 10 5 3 3 (Or.inl (by decide))
        (by decide) (by decide)).1 (Modifier.within 3) (by simp)
        [Modifier.depth 10, Modifier.offset 5, Modifier.within 3] (by simp)).2
      SigMatchType.DETECT_CONTENT [⟨SigMatchType.DETECT_URICONTENT, bytes "foo", []⟩] [],
    by decide, by decide, by decide⟩

/-- C26: whitelist matching.  After any sequence of `SCLogAddFGFilter` calls on the
initialised module, starting from the empty lists, the whitelist is empty exactly when no
accepted filter was added to it; `SCLogMatchFGFilterWL` on a message with the names `file`
and `function` returns 1 exactly when the whitelist is empty or some filter (F, Fn, L)
added to it has F `NULL` or equal to `file`, Fn `NULL` or equal to `function` and L equal
to -1 or to `line`, and returns 0 exactly when neither holds.  On every state with an
empty whitelist it returns 1, and it returns -1 when the module is not initialised. -/
theorem C26_whitelist_match (ops : List (SCLogFilterType × FGFilter))
    (file function : List Nat) (line : Int) :
    ((addedFilters ops).wl = [] ↔
      ∀ F Fn L, (SCLogFilterType.SC_LOG_FILTER_WL, (F, Fn, L)) ∈ ops →
        (F = none ∧ Fn = none ∧ L < 0)) ∧
    (SCLogMatchFGFilterWL 1 (addedFilters ops) file function line = 1 ↔
      ((addedFilters ops).wl = [] ∨
        ∃ F Fn L, (SCLogFilterType.SC_LOG_FILTER_WL, (F, Fn, L)) ∈ ops ∧
          ¬ (F = none ∧ Fn = none ∧ L < 0) ∧
          (F = none ∨ F = some file) ∧ (Fn = none ∨ Fn = some function) ∧
          (L = -1 ∨ L = line))) ∧
    (SCLogMatchFGFilterWL 1 (addedFilters ops) file function line = 0 ↔
      ¬ ((addedFilters ops).wl = [] ∨
        ∃ F Fn L, (SCLogFilterType.SC_LOG_FILTER_WL, (F, Fn, L)) ∈ ops ∧
          ¬ (F = none ∧ Fn = none ∧ L < 0) ∧
          (F = none ∨ F = some file) ∧ (Fn = none ∨ Fn = some function) ∧
          (L = -1 ∨ L = line))) ∧
    (∀ fs : FGFilters, fs.wl = [] → SCLogMatchFGFilterWL 1 fs file function line = 1) ∧
    (∀ (init : Int) (fs : FGFilters), init ≠ 1 →
      SCLogMatchFGFilterWL init fs file function line = -1) := by
  have hnil := addedFilters_nil_iff ops SCLogFilterType.SC_LOG_FILTER_WL
  have hm := matchFileLoop_added ops SCLogFilterType.SC_LOG_FILTER_WL file function line
  have hex : (∃ t, (SCLogFilterType.SC_LOG_FILTER_WL, t) ∈ ops ∧ FGFilter.accepted t ∧
      FGFilter.matches t file function line) ↔
      ∃ F Fn L, (SCLogFilterType.SC_LOG_FILTER_WL, (F, Fn, L)) ∈ ops ∧
          ¬ (F = none ∧ Fn = none ∧ L < 0) ∧
          (F = none ∨ F = some file) ∧ (Fn = none ∨ Fn = some function) ∧
          (L = -1 ∨ L = line) := by
    constructor
    · rintro ⟨⟨F, Fn, L⟩, h1, h2, h3⟩
      exact ⟨F, Fn, L, h1, h2, h3⟩
    · rintro ⟨F, Fn, L, h1, h2, h3⟩
      exact ⟨(F, Fn, L), h1, h2, h3⟩
  rw [hex] at hm
  change (addedFilters ops).wl = [] ↔ _ at hnil
  change matchFileLoop file function line (addedFilters ops).wl = true ↔ _ at hm
  refine ⟨?_, ?_, ?_, ?_, ?_⟩
  · rw [hnil]
    constructor
    · intro h F Fn L hin
      exact not_not.1 (h (F, Fn, L) hin)
    · rintro h ⟨F, Fn, L⟩ hin ha
      exact ha (h F Fn L hin)
  · rw [SCLogMatchFGFilterWL_eq, ← hm]
    by_cases c1 : (addedFilters ops).wl = []
    · simp [c1]
    · by_cases c2 : matchFileLoop file function line (addedFilters ops).wl = true
      · simp [c1, c2]
      · simp [c1, c2]
  · rw [SCLogMatchFGFilterWL_eq, ← hm]
    by_cases c1 : (addedFilters ops).wl = []
    · simp [c1]
    · by_cases c2 : matchFileLoop file function line (addedFilters ops).wl = true
      · simp [c1, c2]
      · simp [c1, c2]
  · intro fs h
    rw [SCLogMatchFGFilterWL_eq, if_pos h]
  · intro init fs h
    unfold SCLogMatchFGFilterWL SCLogMatchFGFilter
    rw [if_pos h]

/-- C27: blacklist matching.  After any sequence of `SCLogAddFGFilter` calls on the
initialised module, starting from the empty lists, `SCLogMatchFGFilterBL` returns 0
exactly when some accepted filter added to the blacklist matches the message (a `NULL`
file, a `NULL` function and the line -1 match everything), and returns 1 exactly when
none does, which includes the empty blacklist. -/
theorem C27_blacklist_match (ops : List (SCLogFilterType × FGFilter))
    (file function : List Nat) (line : Int) :
    (SCLogMatchFGFilterBL 1 (addedFilters ops) file function line = 0 ↔
      ∃ t, (SCLogFilterType.SC_LOG_FILTER_BL, t) ∈ ops ∧ FGFilter.accepted t ∧
        FGFilter.matches t file function line) ∧
    (SCLogMatchFGFilterBL 1 (addedFilters ops) file function line = 1 ↔
      ¬ ∃ t, (SCLogFilterType.SC_LOG_FILTER_BL, t) ∈ ops ∧ FGFilter.accepted t ∧
        FGFilter.matches t file function line) ∧
    ((addedFilters ops).bl = [] →
      SCLogMatchFGFilterBL 1 (addedFilters ops) file function line = 1) := by
  have hm := matchFileLoop_added ops SCLogFilterType.SC_LOG_FILTER_BL file function line
  change matchFileLoop file function line (addedFilters ops).bl = true ↔ _ at hm
  rw [SCLogMatchFGFilterBL_eq, ← hm]
  by_cases c1 : (addedFilters ops).bl = []
  · simp [c1, matchFileLoop_nil]
  · by_cases c2 : matchFileLoop file function line (addedFilters ops).bl = true
    · simp [c1, c2]
    · simp [c1, c2]

/-- C27 at a blacklist of two filters: the message of `a.c`, `f`, line 10 is rejected by
the filter of that place, a message of `b.c` is rejected by the filter with the function
`g` alone, and a message that neither filter matches is allowed. -/
theorem C27_blacklist_match_witness :
    SCLogMatchFGFilterBL 1
        (addedFilters [(SCLogFilterType.SC_LOG_FILTER_BL, (some (bytes "a.c"), some (bytes "f"), 10)),
          (SCLogFilterType.SC_LOG_FILTER_BL, (none, some (bytes "g"), -1))])
        (bytes "a.c") (bytes "f") 10 = 0 ∧
      SCLogMatchFGFilterBL 1
        (addedFilters [(SCLogFilterType.SC_LOG_FILTER_BL, (some (bytes "a.c"), some (bytes "f"), 10)),
          (SCLogFilterType.SC_LOG_FILTER_BL, (none, some (bytes "g"), -1))])
        (bytes "b.c") (bytes "g") 77 = 0 ∧
      SCLogMatchFGFilterBL 1
        (addedFilters [(SCLogFilterType.SC_LOG_FILTER_BL, (some (bytes "a.c"), some (bytes "f"), 10)),
          (SCLogFilterType.SC_LOG_FILTER_BL, (none, some (bytes "g"), -1))])
        (bytes "a.c") (bytes "f") 11 = 1 := by
  refine ⟨?_, ?_, ?_⟩
  · exact (C27_blacklist_match _ _ _ _).1.2
      ⟨(some (bytes "a.c"), some (bytes "f"), 10), by simp, by decide, by decide⟩
  · exact (C27_blacklist_match _ _ _ _).1.2
      ⟨(none, some (bytes "g"), -1), by simp, by decide, by decide⟩
  · decide

/-- C28, the claim as stated fails: with the one blacklist filter (`a.c`, `f`, 10), the
message of `a.c`, `f`, line 10 matches it and `SCLogMatchFGFilterBL` returns 0, not 1;
the message of line 11 matches no filter and the function returns 1, not 0. -/
theorem C28_blacklist_match_returns_zero :
    SCLogMatchFGFilterBL 1
        (SCLogAddFGFilterBL 1 ⟨[], []⟩ (some (bytes "a.c")) (some (bytes "f")) 10).2
        (bytes "a.c") (bytes "f") 10 = 0 ∧
      SCLogMatchFGFilterBL 1
        (SCLogAddFGFilterBL 1 ⟨[], []⟩ (some (bytes "a.c")) (some (bytes "f")) 10).2
        (bytes "a.c") (bytes "f") 11 = 1 := by
  decide

/-- C28, amended: on every state whose blacklist is built of complete nodes (each file
node has a function node, each function node a line node), as every list built by
`SCLogAddFGFilter` calls is, `SCLogMatchFGFilterBL` on the initialised module returns 0 if
some stored blacklist filter matches the message and 1 if none does; these are the only
two values, and on a non-empty list it is 1 minus what `SCLogMatchFGFilterWL` returns on
the same list.  It returns -1 when the module is not initialised. -/
theorem C28_blacklist_return_value (fs : FGFilters) (file function : List Nat) (line : Int)
    (hv : ValidFG fs.bl) :
    ((∃ t, HasTriple fs.bl t ∧ FGFilter.matches t file function line) →
      SCLogMatchFGFilterBL 1 fs file function line = 0) ∧
    ((¬ ∃ t, HasTriple fs.bl t ∧ FGFilter.matches t file function line) →
      SCLogMatchFGFilterBL 1 fs file function line = 1) ∧
    (fs.bl ≠ [] →
      SCLogMatchFGFilterBL 1 fs file function line =
        1 - SCLogMatchFGFilterWL 1 ⟨fs.bl, fs.bl⟩ file function line) ∧
    (∀ init : Int, init ≠ 1 → SCLogMatchFGFilterBL init fs file function line = -1) ∧
    (∀ ops : List (SCLogFilterType × FGFilter), ValidFG (addedFilters ops).bl) := by
  have hm := matchFileLoop_triple file function line fs.bl hv
  have hinit : ∀ init : Int, init ≠ 1 →
      SCLogMatchFGFilterBL init fs file function line = -1 := by
    intro init hi
    unfold SCLogMatchFGFilterBL SCLogMatchFGFilter
    rw [if_pos hi]
  have hops : ∀ ops : List (SCLogFilterType × FGFilter), ValidFG (addedFilters ops).bl :=
    fun ops => addedFilters_valid ops SCLogFilterType.SC_LOG_FILTER_BL
  refine ⟨?_, ?_, ?_, hinit, hops⟩
  all_goals rw [SCLogMatchFGFilterBL_eq]
  · intro h
    have c2 := hm.2 h
    have c1 : fs.bl ≠ [] := by
      intro e
      rw [e, matchFileLoop_nil] at c2
      exact absurd c2 (by simp)
    rw [if_neg c1, if_pos c2]
  · intro h
    have c2 : ¬ matchFileLoop file function line fs.bl = true := fun c => h (hm.1 c)
    by_cases c1 : fs.bl = []
    · rw [if_pos c1]
    · rw [if_neg c1, if_neg c2]
  · intro c1
    rw [SCLogMatchFGFilterWL_eq]
    simp only [if_neg c1]
    by_cases c2 : matchFileLoop file function line fs.bl = true
    · simp [c2]
    · simp [c2]

/-- C28, amended, at the blacklist with the one filter (`a.c`, `f`, 10) and the message of
that place: 0 on the initialised module, -1 on the module that is not initialised. -/
theorem C28_blacklist_return_value_witness :
    ValidFG [⟨some (bytes "a.c"), [⟨some (bytes "f"), [10]⟩]⟩] ∧
      SCLogMatchFGFilterBL 1 ⟨[], [⟨some (bytes "a.c"), [⟨some (bytes "f"), [10]⟩]⟩]⟩
        (bytes "a.c") (bytes "f") 10 = 0 ∧
      SCLogMatchFGFilterBL 0 ⟨[], [⟨some (bytes "a.c"), [⟨some (bytes "f"), [10]⟩]⟩]⟩
        (bytes "a.c") (bytes "f") 10 = -1 :=
  have hv : ValidFG [⟨some (bytes "a.c"), [⟨some (bytes "f"), [10]⟩]⟩] := by
    intro f hf
    rw [List.mem_singleton] at hf
    subst hf
    simp
  ⟨hv, (C28_blacklist_return_value ⟨[], [⟨some (bytes "a.c"), [⟨some (bytes "f"), [10]⟩]⟩]⟩
      (bytes "a.c") (bytes "f") 10 hv).1
    ⟨(some (bytes "a.c"), some (bytes "f"), 10),
      ⟨⟨some (bytes "a.c"), [⟨some (bytes "f"), [10]⟩]⟩, by simp, rfl,
        ⟨some (bytes "f"), [10]⟩, by simp, rfl, by simp⟩,
      by decide⟩,
    (C28_blacklist_return_value ⟨[], [⟨some (bytes "a.c"), [⟨some (bytes "f"), [10]⟩]⟩]⟩
      (bytes "a.c") (bytes "f") 10 hv).2.2.2.1 0 (by decide)⟩

/-- C29, the defect: a filter added to the empty whitelist with a line L other than -1,
negative or not, is accepted and stored with that line, and a message of the same file
and function matches it only at the line L itself: for every other line
`SCLogMatchFGFilterWL` returns 0.  Only the line -1 makes every line match. -/
theorem C29_negative_line_not_wildcard (file function : List Nat) (L line : Int)
    (hne : L ≠ -1) (hline : line ≠ L) :
    (SCLogAddFGFilterWL 1 ⟨[], []⟩ (some file) (some function) L).1 = 0 ∧
    SCLogMatchFGFilterWL 1
      (SCLogAddFGFilterWL 1 ⟨[], []⟩ (some file) (some function) L).2
      file function line = 0 ∧
    SCLogMatchFGFilterWL 1
      (SCLogAddFGFilterWL 1 ⟨[], []⟩ (some file) (some function) (-1)).2
      file function line = 1 := by
  refine ⟨?_, ?_, ?_⟩
  · simp [SCLogAddFGFilterWL, SCLogAddFGFilter]
  · simp [SCLogAddFGFilterWL, SCLogAddFGFilter, SCLogMatchFGFilterWL, SCLogMatchFGFilter,
      FGFilters.set, FGFilters.get, addFileLoop, matchFileLoop, matchFuncLoop,
      matchLineLoop, hne, hline]
  · simp [SCLogAddFGFilterWL, SCLogAddFGFilter, SCLogMatchFGFilterWL, SCLogMatchFGFilter,
      FGFilters.set, FGFilters.get, addFileLoop, matchFileLoop, matchFuncLoop,
      matchLineLoop]

/-- C29 at the filter (`a.c`, `f`, -2) and the message of `a.c`, `f`, line 10. -/
theorem C29_negative_line_not_wildcard_witness :
    (-2 : Int) < 0 ∧ (-2 : Int) ≠ -1 ∧ (10 : Int) ≠ -2 ∧
      SCLogMatchFGFilterWL 1
        (SCLogAddFGFilterWL 1 ⟨[], []⟩ (some (bytes "a.c")) (some (bytes "f")) (-2)).2
        (bytes "a.c") (bytes "f") 10 = 0 :=
  ⟨by decide, by decide, by decide,
    (C29_negative_line_not_wildcard (bytes "a.c") (bytes "f") (-2) 10
      (by decide) (by decide)).2.1⟩

/-- C30: `SCLogAddFGFilterWL` and `SCLogAddFGFilterBL` return -1 and leave both lists as
they were when the module is not initialised or when the file and the function are `NULL`
and the line is negative; in every other case they return 0, and the list of the other
type is left as it was. -/
theorem C30_add_return_value (init : Int) (fs : FGFilters)
    (file function : Option (List Nat)) (line : Int) :
    ((init ≠ 1 ∨ (file = none ∧ function = none ∧ line < 0)) →
      SCLogAddFGFilterWL init fs file function line = (-1, fs) ∧
      SCLogAddFGFilterBL init fs file function line = (-1, fs)) ∧
    (¬ (init ≠ 1 ∨ (file = none ∧ function = none ∧ line < 0)) →
      (SCLogAddFGFilterWL init fs file function line).1 = 0 ∧
      (SCLogAddFGFilterBL init fs file function line).1 = 0 ∧
      (SCLogAddFGFilterWL init fs file function line).2.bl = fs.bl ∧
      (SCLogAddFGFilterBL init fs file function line).2.wl = fs.wl ∧
      (SCLogAddFGFilterWL init fs file function line).2.wl =
        addFileLoop file function line fs.wl ∧
      (SCLogAddFGFilterBL init fs file function line).2.bl =
        addFileLoop file function line fs.bl) := by
  unfold SCLogAddFGFilterWL SCLogAddFGFilterBL SCLogAddFGFilter
  constructor
  · rintro (h | h)
    · simp [h]
    · simp [h]
  · intro h
    rw [not_or, not_not] at h
    obtain ⟨h1, h2⟩ := h
    simp only [h1, ne_eq, not_true_eq_false, if_false, if_neg h2, FGFilters.set,
      FGFilters.get, and_self]

/-- C31: add then match.  On every filter state and for every file name, function name
and line, whenever `SCLogAddFGFilterWL` returns 0 the call of `SCLogMatchFGFilterWL` with
the same arguments on the lists it leaves returns 1, and whenever `SCLogAddFGFilterBL`
returns 0 the call of `SCLogMatchFGFilterBL` returns 0; on the initialised module both
add functions return 0 for such arguments. -/
theorem C31_add_then_match (init : Int) (fs : FGFilters) (file function : List Nat)
    (line : Int) :
    ((SCLogAddFGFilterWL init fs (some file) (some function) line).1 = 0 →
      SCLogMatchFGFilterWL init
        (SCLogAddFGFilterWL init fs (some file) (some function) line).2
        file function line = 1) ∧
    ((SCLogAddFGFilterBL init fs (some file) (some function) line).1 = 0 →
      SCLogMatchFGFilterBL init
        (SCLogAddFGFilterBL init fs (some file) (some function) line).2
        file function line = 0) ∧
    (SCLogAddFGFilterWL 1 fs (some file) (some function) line).1 = 0 ∧
    (SCLogAddFGFilterBL 1 fs (some file) (some function) line).1 = 0 := by
  have hacc : ¬ ((some file : Option (List Nat)) = none ∧
      (some function : Option (List Nat)) = none ∧ line < 0) := by simp
  have hhas : ∀ l : List SCLogFGFilterFile,
      matchFileLoop file function line (addFileLoop (some file) (some function) line l) =
        true := fun l =>
    matchFileLoop_of_has file function line _
      ((addFileLoop_has (some file) (some function) line l _).2 (Or.inr rfl))
  have hne := addFileLoop_ne (some file) (some function) line
  refine ⟨?_, ?_, ?_, ?_⟩
  · intro h
    by_cases hi : init = 1
    · subst hi
      unfold SCLogAddFGFilterWL
      rw [SCLogAddFGFilter_accepted _ _ _ _ _ hacc, SCLogMatchFGFilterWL_eq]
      simp only [FGFilters.set, FGFilters.get]
      rw [if_neg (hne _), if_pos (hhas _)]
    · unfold SCLogAddFGFilterWL at h
      rw [SCLogAddFGFilter_rejected init _ _ _ _ _ (Or.inl hi)] at h
      simp at h
  · intro h
    by_cases hi : init = 1
    · subst hi
      unfold SCLogAddFGFilterBL
      rw [SCLogAddFGFilter_accepted _ _ _ _ _ hacc, SCLogMatchFGFilterBL_eq]
      simp only [FGFilters.set, FGFilters.get]
      rw [if_neg (hne _), if_pos (hhas _)]
    · unfold SCLogAddFGFilterBL at h
      rw [SCLogAddFGFilter_rejected init _ _ _ _ _ (Or.inl hi)] at h
      simp at h
  · unfold SCLogAddFGFilterWL
    rw [SCLogAddFGFilter_accepted _ _ _ _ _ hacc]
  · unfold SCLogAddFGFilterBL
    rw [SCLogAddFGFilter_accepted _ _ _ _ _ hacc]

/-- C32: `SCLogAddFDFilter` returns -1 and leaves the list as it was when the module is
not initialised or the function is `NULL`; otherwise it returns 0, leaves the list as it
was when a node holds the name, and appends a node with the name after all the nodes when
none does, `SCLogPrintFDFilters` then growing by exactly 1.  On every list reached from
the empty list by calls of `SCLogAddFDFilter` and `SCLogRemoveFDFilter`, the list after
the call holds the name exactly once. -/
theorem C32_add_fd_filter (init : Int) (l : List SCLogFDFilter)
    (function : Option (List Nat)) (name : List Nat) (calls : List FDCall) :
    ((init ≠ 1 ∨ function = none) → SCLogAddFDFilter init l function = (-1, l)) ∧
    ((⟨name⟩ : SCLogFDFilter) ∈ l → SCLogAddFDFilter 1 l (some name) = (0, l)) ∧
    ((⟨name⟩ : SCLogFDFilter) ∉ l →
      SCLogAddFDFilter 1 l (some name) = (0, l ++ [⟨name⟩]) ∧
      SCLogPrintFDFilters 1 (SCLogAddFDFilter 1 l (some name)).2 =
        SCLogPrintFDFilters 1 l + 1) ∧
    (SCLogAddFDFilter 1 (fdAfter calls) (some name)).2.count ⟨name⟩ = 1 ∧
    (SCLogAddFDFilter 1 (fdAfter calls) (some name)).2.Nodup := by
  refine ⟨?_, ?_, ?_, ?_, ?_⟩
  · rintro (h | h)
    · unfold SCLogAddFDFilter
      rw [if_pos h]
    · subst h
      unfold SCLogAddFDFilter
      split_ifs <;> rfl
  · intro h
    rw [SCLogAddFDFilter_some, addFDLoop_of_mem name l h]
  · intro h
    rw [SCLogAddFDFilter_some, addFDLoop_of_not_mem name l h]
    refine ⟨rfl, ?_⟩
    simp [SCLogPrintFDFilters]
  · rw [SCLogAddFDFilter_some]
    have hnd := addFDLoop_nodup name _ (fdAfter_nodup calls)
    apply List.count_eq_one_of_mem hnd
    by_cases hm : (⟨name⟩ : SCLogFDFilter) ∈ fdAfter calls
    · rw [addFDLoop_of_mem name _ hm]
      exact hm
    · rw [addFDLoop_of_not_mem name _ hm]
      simp
  · rw [SCLogAddFDFilter_some]
    exact addFDLoop_nodup name _ (fdAfter_nodup calls)

/-- C32 on the list built by adding `f`, `g` and `f` again: the second `f` changes
nothing, and adding `h` appends it, the count going from 2 to 3. -/
theorem C32_add_fd_filter_witness :
    fdAfter [FDCall.add (some (bytes "f")), FDCall.add (some (bytes "g")),
        FDCall.add (some (bytes "f"))] = [⟨bytes "f"⟩, ⟨bytes "g"⟩] ∧
    SCLogAddFDFilter 1 [⟨bytes "f"⟩, ⟨bytes "g"⟩] (some (bytes "h")) =
      (0, [⟨bytes "f"⟩, ⟨bytes "g"⟩] ++ [⟨bytes "h"⟩]) ∧
    SCLogPrintFDFilters 1 (SCLogAddFDFilter 1 [⟨bytes "f"⟩, ⟨bytes "g"⟩]
        (some (bytes "h"))).2 = SCLogPrintFDFilters 1 [⟨bytes "f"⟩, ⟨bytes "g"⟩] + 1 :=
  ⟨by decide,
    ((C32_add_fd_filter 1 [⟨bytes "f"⟩, ⟨bytes "g"⟩] none (bytes "h") []).2.2.1
      (by decide)).1,
    ((C32_add_fd_filter 1 [⟨bytes "f"⟩, ⟨bytes "g"⟩] none (bytes "h") []).2.2.1
      (by decide)).2⟩

/-- C33: `SCLogRemoveFDFilter` returns -1 and leaves the list as it was when the module
is not initialised or the function is `NULL`, and returns 0 otherwise, whether a node
holds the name or not.  It takes the first node that holds the name out of the list and
leaves the list as it was when none does.  On every list reached from the empty list by
calls of `SCLogAddFDFilter` and `SCLogRemoveFDFilter`, the list after the call is the
list before it without the nodes of that name, in the same order, and no node holds the
name. -/
theorem C33_remove_fd_filter (init : Int) (l : List SCLogFDFilter)
    (function : Option (List Nat)) (name : List Nat) (calls : List FDCall) :
    ((init ≠ 1 ∨ function = none) → SCLogRemoveFDFilter init l function = (-1, l)) ∧
    (SCLogRemoveFDFilter 1 l (some name)).1 = 0 ∧
    (SCLogRemoveFDFilter 1 l (some name)).2 = l.erase ⟨name⟩ ∧
    ((⟨name⟩ : SCLogFDFilter) ∉ l → SCLogRemoveFDFilter 1 l (some name) = (0, l)) ∧
    (SCLogRemoveFDFilter 1 (fdAfter calls) (some name)).2 =
      (fdAfter calls).filter (fun c => decide (c ≠ ⟨name⟩)) ∧
    (⟨name⟩ : SCLogFDFilter) ∉ (SCLogRemoveFDFilter 1 (fdAfter calls) (some name)).2 := by
  have hnd := fdAfter_nodup calls
  refine ⟨?_, ?_, ?_, ?_, ?_, ?_⟩
  · rintro (h | h)
    · unfold SCLogRemoveFDFilter
      rw [if_pos h]
    · subst h
      unfold SCLogRemoveFDFilter
      split_ifs <;> rfl
  · rw [SCLogRemoveFDFilter_some]
  · rw [SCLogRemoveFDFilter_some]
  · intro h
    rw [SCLogRemoveFDFilter_some, List.erase_of_not_mem h]
  · rw [SCLogRemoveFDFilter_some]
    rw [List.Nodup.erase_eq_filter hnd]
    show List.filter _ _ = List.filter _ _
    apply congrArg (fun p => List.filter p (fdAfter calls))
    funext c
    simp only [bne, ne_eq, decide_not]
    rfl
  · rw [SCLogRemoveFDFilter_some]
    exact fun h => (List.Nodup.mem_erase_iff hnd).1 h |>.1 rfl

/-- C33 on the list built by adding `f`, `g` and `h`: removing `g` leaves `f` and `h` in
their order, and removing a name that is not registered leaves the list as it was. -/
theorem C33_remove_fd_filter_witness :
    SCLogRemoveFDFilter 1
        (fdAfter [FDCall.add (some (bytes "f")), FDCall.add (some (bytes "g")),
          FDCall.add (some (bytes "h"))]) (some (bytes "g")) =
      (0, [⟨bytes "f"⟩, ⟨bytes "h"⟩]) ∧
    SCLogRemoveFDFilter 1 [⟨bytes "f"⟩, ⟨bytes "h"⟩] (some (bytes "g")) =
      (0, [⟨bytes "f"⟩, ⟨bytes "h"⟩]) :=
  ⟨by decide,
    (C33_remove_fd_filter 1 [⟨bytes "f"⟩, ⟨bytes "h"⟩] none (bytes "g") []).2.2.2.1
      (by decide)⟩

/-- C34: lock balance.  On every return path of `DetectUricontentInspectMpm` (no HTTP
state, no connection parser, cursor -1, loop completed) the mutex of the flow has been
locked once more and unlocked once more than before the call and is not held after it,
which is the state of a mutex that the call could acquire; the rest of the flow is as
before. -/
theorem C34_lock_balance {σ : Type}
    (search : DetectEngineThreadCtx σ → List Nat → Nat → Nat × DetectEngineThreadCtx σ)
    (det_ctx : DetectEngineThreadCtx σ) (f : Flow) (htp_state : Option HtpState) :
    (DetectUricontentInspectMpm search det_ctx f htp_state).flow.m.locks = f.m.locks + 1 ∧
    (DetectUricontentInspectMpm search det_ctx f htp_state).flow.m.unlocks =
      f.m.unlocks + 1 ∧
    (DetectUricontentInspectMpm search det_ctx f htp_state).flow.m.held = false ∧
    (DetectUricontentInspectMpm search det_ctx f htp_state).flow.inspect_id =
      f.inspect_id ∧
    (f.m.held = false →
      (DetectUricontentInspectMpm search det_ctx f htp_state).flow.m.held = f.m.held) := by
  rw [DetectUricontentInspectMpm_flow]
  refine ⟨rfl, rfl, rfl, rfl, ?_⟩
  intro h
  rw [h]
  rfl

/-- C34 on the four return paths, from a flow whose mutex is free and was locked and
unlocked 3 times: each path leaves it free, locked and unlocked 4 times. -/
theorem C34_lock_balance_witness :
    (DetectUricontentInspectMpm (fun (d : DetectEngineThreadCtx Unit) _ _ => (5, d))
        ⟨1, 0, 0, 0, 0, 0, 0, ()⟩ ⟨⟨false, 3, 3⟩, 0⟩ none).flow.m = ⟨false, 4, 4⟩ ∧
    (DetectUricontentInspectMpm (fun (d : DetectEngineThreadCtx Unit) _ _ => (5, d))
        ⟨1, 0, 0, 0, 0, 0, 0, ()⟩ ⟨⟨false, 3, 3⟩, 0⟩ (some ⟨none⟩)).flow.m =
      ⟨false, 4, 4⟩ ∧
    (DetectUricontentInspectMpm (fun (d : DetectEngineThreadCtx Unit) _ _ => (5, d))
        ⟨1, 0, 0, 0, 0, 0, 0, ()⟩ ⟨⟨false, 3, 3⟩, -1⟩
        (some ⟨some [some ⟨some (bytes "/one")⟩]⟩)).flow.m = ⟨false, 4, 4⟩ ∧
    (DetectUricontentInspectMpm (fun (d : DetectEngineThreadCtx Unit) _ _ => (5, d))
        ⟨1, 0, 0, 0, 0, 0, 0, ()⟩ ⟨⟨false, 3, 3⟩, 0⟩
        (some ⟨some [some ⟨some (bytes "/one")⟩]⟩)).flow.m.locks = 3 + 1 :=
  ⟨by decide, by decide, by decide,
    (C34_lock_balance (fun (d : DetectEngineThreadCtx Unit) _ _ => (5, d))
      ⟨1, 0, 0, 0, 0, 0, 0, ()⟩ ⟨⟨false, 3, 3⟩, 0⟩
      (some ⟨some [some ⟨some (bytes "/one")⟩]⟩)).1⟩

/-- C35: the decoder stays inside the body.  After any number `k` of iterations of the
decoding loop, up to the `len` iterations the parser runs, the write index `x` is at most
the read index `k`, the buffer has the length of the body, and `binpos` is 0 or 1.  When
the body is decoded, every one of these iterations is reached, `content_len` is at most
the length of the body, and the content holds exactly `content_len` bytes; the same holds
for the descriptor `DoDetectUricontentSetup` returns for the quoted body. -/
theorem C35_decoder_in_bounds (N : Nat) (ws : List Nat) (neg : Bool) (body : List Nat) :
    (∀ (k : Nat) (st : DecodeState), k ≤ body.length % 65536 →
      decodeFrom (decodeInit body) 0 k = some st →
        st.x ≤ k ∧ st.str.length = body.length ∧ st.binpos ≤ 1) ∧
    (∀ (flags : Nat) (cd : DetectContentData), decodeBody flags body = some cd →
      cd.content_len ≤ body.length ∧ cd.content.length = cd.content_len ∧
      ∀ k, k ≤ body.length % 65536 →
        ∃ st, decodeFrom (decodeInit body) 0 k = some st ∧ st.x ≤ k) ∧
    (∀ cd : DetectContentData, (∀ c ∈ ws, isspace c = true) →
      DoDetectUricontentSetup N (quoted ws neg body) = some cd →
        cd.content_len ≤ body.length ∧ cd.content.length = cd.content_len) := by
  have h1 : ∀ (k : Nat) (st : DecodeState),
      decodeFrom (decodeInit body) 0 k = some st →
        st.x ≤ k ∧ st.str.length = body.length ∧ st.binpos ≤ 1 := by
    intro k st h
    have := decodeFrom_bounds k _ _ _ h (by simp [decodeInit]) (by simp [decodeInit])
    simpa [decodeInit] using this
  refine ⟨fun k st _ h => h1 k st h, ?_, ?_⟩
  · intro flags cd h
    obtain ⟨hl, hc, st, hst⟩ := decodeBody_bounds flags body cd h
    refine ⟨hl, hc, ?_⟩
    intro k hk
    obtain ⟨m, hm⟩ := Nat.exists_eq_add_of_le hk
    rw [hm] at hst
    obtain ⟨stk, hstk⟩ := decodeFrom_prefix k m _ _ _ hst
    exact ⟨stk, hstk, (h1 k stk hstk).1⟩
  · intro cd hws h
    rcases DoDetect_quoted_cases N ws neg body hws with hn | hd
    · rw [hn] at h
      simp at h
    · rw [hd] at h
      obtain ⟨hl, hc, _⟩ := decodeBody_bounds _ body cd h
      exact ⟨hl, hc⟩

/-- C35 on the body `a|41 42|\;`: it decodes to the four bytes `aAB;`, and after the 10
iterations the write index is 4. -/
theorem C35_decoder_in_bounds_witness :
    (DoDetectUricontentSetup 64 (bytes "\"a|41 42|\\;\"")).map
        (fun cd => (cd.content, cd.content_len)) = some (bytes "aAB;", 4) ∧
    (decodeFrom (decodeInit (bytes "a|41 42|\\;")) 0 10).map (fun st => st.x) = some 4 ∧
    (∀ cd : DetectContentData,
      DoDetectUricontentSetup 64 (quoted [] false (bytes "a|41 42|\\;")) = some cd →
        cd.content_len ≤ (bytes "a|41 42|\\;").length ∧
          cd.content.length = cd.content_len) :=
  ⟨by decide, by decide,
    fun cd h => (C35_decoder_in_bounds 64 [] false (bytes "a|41 42|\\;")).2.2 cd
      (by simp) h⟩

/-- C36, the claim as stated fails: on a signature bound to a protocol other than HTTP
and DCERPC, with the flag word 0, the keyword `uricontent:"foo"` returns -1 and leaves
the flag word 128, the value given here to `SIG_FLAG_APPLAYER`. -/
theorem C36_failure_changes_flags :
    (DetectUricontentSetup (fun (n : Nat) _ => (n, n + 1)) 64 128 0
        ⟨AppProto.other 1, 0, [], [], []⟩ (bytes "\"foo\"")).1 = -1 ∧
    (DetectUricontentSetup (fun (n : Nat) _ => (n, n + 1)) 64 128 0
        ⟨AppProto.other 1, 0, [], [], []⟩ (bytes "\"foo\"")).2.2.flags = 128 := by
  decide

/-- C36, amended: whenever `DetectUricontentSetup` returns -1 the protocol binding and
the three match lists of the signature are as before the call.  The flag word is as
before on a DCERPC signature and on a parse error, the pattern-id store too; on a
conflicting protocol binding the flag word is the old one with `SIG_FLAG_APPLAYER` set,
so the signature is unchanged when that flag was set already. -/
theorem C36_failure_frame {σ : Type} (getId : σ → DetectContentData → Nat × σ)
    (N A : Nat) (de_ctx : σ) (s : Signature) (str : List Nat)
    (h : (DetectUricontentSetup getId N A de_ctx s str).1 = -1) :
    (DetectUricontentSetup getId N A de_ctx s str).2.2.alproto = s.alproto ∧
    (DetectUricontentSetup getId N A de_ctx s str).2.2.umatch = s.umatch ∧
    (DetectUricontentSetup getId N A de_ctx s str).2.2.pmatch = s.pmatch ∧
    (DetectUricontentSetup getId N A de_ctx s str).2.2.amatch = s.amatch ∧
    ((s.alproto = AppProto.ALPROTO_DCERPC ∨ DoDetectUricontentSetup N str = none) →
      (DetectUricontentSetup getId N A de_ctx s str).2.2 = s ∧
      (DetectUricontentSetup getId N A de_ctx s str).2.1 = de_ctx) ∧
    ((s.alproto ≠ AppProto.ALPROTO_DCERPC ∧ DoDetectUricontentSetup N str ≠ none) →
      (DetectUricontentSetup getId N A de_ctx s str).2.2.flags = s.flags ||| A) ∧
    (s.flags ||| A = s.flags → (DetectUricontentSetup getId N A de_ctx s str).2.2 = s) := by
  by_cases hd : s.alproto = AppProto.ALPROTO_DCERPC
  · have hr : DetectUricontentSetup getId N A de_ctx s str = (-1, de_ctx, s) := by
      unfold DetectUricontentSetup
      simp [hd]
    rw [hr]
    simp [hd]
  · cases hp : DoDetectUricontentSetup N str with
    | none =>
      rw [DetectUricontentSetup_of_none getId N A de_ctx s str hp]
      simp
    | some cd =>
      rw [DetectUricontentSetup_of_some getId N A de_ctx s str cd hd hp] at h ⊢
      by_cases hc : s.alproto ≠ AppProto.ALPROTO_UNKNOWN ∧ s.alproto ≠ AppProto.ALPROTO_HTTP
      · rw [if_pos hc]
        refine ⟨rfl, rfl, rfl, rfl, ?_, ?_, ?_⟩
        · rintro (h1 | h1)
          · exact absurd h1 hd
          · simp at h1
        · intro _
          rfl
        · intro hf
          simp only [hf]
      · rw [if_neg hc] at h
        simp at h

/-- C36, amended, on the three failures: a DCERPC signature and a string without quotes
leave the signature as it was, and a signature bound to another protocol keeps its
binding and its lists and has the flag set. -/
theorem C36_failure_frame_witness :
    (DetectUricontentSetup (fun (n : Nat) _ => (n, n + 1)) 64 128 0
        ⟨AppProto.ALPROTO_DCERPC, 1, [], [], []⟩ (bytes "\"foo\"")).2.2 =
      ⟨AppProto.ALPROTO_DCERPC, 1, [], [], []⟩ ∧
    (DetectUricontentSetup (fun (n : Nat) _ => (n, n + 1)) 64 128 0
        ⟨AppProto.ALPROTO_HTTP, 1, [], [], []⟩ (bytes "foo")).2.2 =
      ⟨AppProto.ALPROTO_HTTP, 1, [], [], []⟩ ∧
    (DetectUricontentSetup (fun (n : Nat) _ => (n, n + 1)) 64 128 0
        ⟨AppProto.other 1, 1, [], [], []⟩ (bytes "\"foo\"")).2.2 =
      ⟨AppProto.other 1, 129, [], [], []⟩ ∧
    (DetectUricontentSetup (fun (n : Nat) _ => (n, n + 1)) 64 128 0
        ⟨AppProto.other 1, 1, [], [], []⟩ (bytes "\"foo\"")).2.2.alproto =
      AppProto.other 1 :=
  ⟨by decide, by decide, by decide,
    (C36_failure_frame (fun (n : Nat) _ => (n, n + 1)) 64 128 0
      ⟨AppProto.other 1, 1, [], [], []⟩ (bytes "\"foo\"") (by decide)).1⟩

/-- C37: adding a fine-grained filter is idempotent.  On every filter state, a second
`SCLogAddFGFilter` with the same arguments leaves the two lists as the first one left
them, so `SCLogPrintFGFilters` is the same after it; and the first add of an accepted
filter that is not stored in the list it is added to makes `SCLogPrintFGFilters` grow by
exactly 1. -/
theorem C37_add_idempotent (init : Int) (fs : FGFilters)
    (file function : Option (List Nat)) (line : Int) (lt : SCLogFilterType) :
    (SCLogAddFGFilter init (SCLogAddFGFilter init fs file function line lt).2
        file function line lt).2 = (SCLogAddFGFilter init fs file function line lt).2 ∧
    SCLogPrintFGFilters 1 (SCLogAddFGFilter 1 (SCLogAddFGFilter 1 fs file function line lt).2
        file function line lt).2 =
      SCLogPrintFGFilters 1 (SCLogAddFGFilter 1 fs file function line lt).2 ∧
    (¬ (file = none ∧ function = none ∧ line < 0) →
      ¬ HasTriple (fs.get lt) (file, function, line) →
        SCLogPrintFGFilters 1 (SCLogAddFGFilter 1 fs file function line lt).2 =
          SCLogPrintFGFilters 1 fs + 1) := by
  have idem : ∀ i : Int, (SCLogAddFGFilter i (SCLogAddFGFilter i fs file function line lt).2
        file function line lt).2 = (SCLogAddFGFilter i fs file function line lt).2 := by
    intro i
    by_cases hr : i ≠ 1 ∨ (file = none ∧ function = none ∧ line < 0)
    · rw [SCLogAddFGFilter_rejected i fs _ _ _ _ hr, SCLogAddFGFilter_rejected i fs _ _ _ _ hr]
    · rw [not_or, not_not] at hr
      obtain ⟨hi, hacc⟩ := hr
      subst hi
      rw [SCLogAddFGFilter_accepted _ _ _ _ _ hacc, SCLogAddFGFilter_accepted _ _ _ _ _ hacc]
      simp only [FGFilters.get_set_self, FGFilters.set_set, addFileLoop_idem]
  refine ⟨idem init, ?_, ?_⟩
  · rw [idem 1]
  · intro hacc hnot
    rw [SCLogAddFGFilter_accepted _ _ _ _ _ hacc, SCLogPrintFGFilters_eq,
      SCLogPrintFGFilters_eq]
    have hc := addFileLoop_count file function line (fs.get lt) hnot
    cases lt
    · simp only [FGFilters.set, FGFilters.get] at hc ⊢
      rw [hc]
      push_cast
      ring
    · simp only [FGFilters.set, FGFilters.get] at hc ⊢
      rw [hc]
      push_cast
      ring

/-- C37 on the empty lists: the whitelist filter (`a.c`, `f`, 10) is counted once after
one add and after two, and the filter (`a.c`, `f`, 11) added next makes the count 2. -/
theorem C37_add_idempotent_witness :
    SCLogPrintFGFilters 1 ⟨[], []⟩ = 0 ∧
    SCLogPrintFGFilters 1
        (SCLogAddFGFilterWL 1 ⟨[], []⟩ (some (bytes "a.c")) (some (bytes "f")) 10).2 = 1 ∧
    (SCLogAddFGFilter 1
        (SCLogAddFGFilter 1 ⟨[], []⟩ (some (bytes "a.c")) (some (bytes "f")) 10
          SCLogFilterType.SC_LOG_FILTER_WL).2
        (some (bytes "a.c")) (some (bytes "f")) 10 SCLogFilterType.SC_LOG_FILTER_WL).2 =
      (SCLogAddFGFilter 1 ⟨[], []⟩ (some (bytes "a.c")) (some (bytes "f")) 10
        SCLogFilterType.SC_LOG_FILTER_WL).2 ∧
    SCLogPrintFGFilters 1
        (SCLogAddFGFilterWL 1
          (SCLogAddFGFilterWL 1 ⟨[], []⟩ (some (bytes "a.c")) (some (bytes "f")) 10).2
          (some (bytes "a.c")) (some (bytes "f")) 11).2 = 2 :=
  ⟨by decide, by decide,
    (C37_add_idempotent 1 ⟨[], []⟩ (some (bytes "a.c")) (some (bytes "f")) 10
      SCLogFilterType.SC_LOG_FILTER_WL).1,
    by decide⟩

end Uricontent
